import Mathlib

/-!
# Ogre `TextureGpuManager` (OgreMain/src/OgreTextureGpuManager.cpp)

A shallow embedding of the texture-array pool allocator, of the pool sizing
policy, of the mip bitset of `QueuedImage`, of the texture registry, of the
staging texture lists and of the streaming cycle of the worker thread,
followed by the properties proved about them.

Conventions of the embedding:

* C++ unsigned integers are natural numbers; a narrowing conversion or a
  wrapping increment is written as an explicit `%`.
* A `TextureGpu *` handed to the manager is a handle (a natural number) into
  the store `TextureGpuManager.textures`, which holds the object it points to.
* A `TexturePool *` is the position of the pool in `mTexturePool`; pools are
  only ever appended by the code modelled here, so positions are stable.
* `unsigned long` is 64 bits wide and the non-MSVC branch of `ctz64` / `clz64`
  is the one modelled.
* A function works on the members it reads and writes, passed in and handed
  back explicitly; a thrown exception is an `Except.error`, a failed assertion
  is `none`.
* Classes of Ogre that are declared outside this file and implemented by the
  render systems (staging textures, images, archives) enter as given
  functions.
-/

namespace Ogre

/-! ## Bit scanning helpers (lines 49-74) -/

/-- Number of trailing zero bits of `value`, looking at the `width` low bits: the
compiler builtin `__builtin_ctzl` for a nonzero `value` below `2 ^ width`. -/
def builtin_ctzl : (width : Nat) → (value : Nat) → Nat
  | 0, _ => 0
  | width + 1, value => if value % 2 = 1 then 0 else builtin_ctzl width (value / 2) + 1

/-- Number of significant bits of `value`, looking at the `width` low bits. -/
def bitLength : (width : Nat) → (value : Nat) → Nat
  | 0, _ => 0
  | width + 1, value => if value = 0 then 0 else bitLength width (value / 2) + 1

/-- Number of leading zero bits of a 64-bit `value`: the compiler builtin
`__builtin_clzl` for a nonzero `value`. -/
def builtin_clzl (value : Nat) : Nat := 64 - bitLength 64 value

/-- `ctz64` (lines 49-61). -/
def ctz64 (value : Nat) : Nat :=
  if value = 0 then 64 else builtin_ctzl 64 value

/-- `clz64` (lines 62-74). -/
def clz64 (value : Nat) : Nat :=
  if value = 0 then 64 else builtin_clzl value

/-! ## Textures and pools -/

/-- The texture kinds of `TextureTypes`. -/
inductive TextureTypes where
  | Unknown
  | Type1D
  | Type1DArray
  | Type2D
  | Type2DArray
  | TypeCube
  | TypeCubeArray
  | Type3D
  deriving DecidableEq, Repr

/-- Modelled from the spec: class `IdString` is declared in OgreIdString.h, which
is not among the sources. An `IdString` is the hash of a name; two of them
are equal when the hashes are, and the registry is keyed by them. -/
structure IdString where
  mHash : Nat := 0
  deriving DecidableEq, Repr

/-- Modelled from the spec: the page-out strategies of a logical texture. -/
inductive GpuPageOutStrategy where
  | Discard
  | AlwaysKeepSystemRamCopy
  deriving DecidableEq, Repr

/-- Modelled from the spec: class `TextureGpu` is declared in OgreTextureGpu.h,
which is not among the sources. The spec describes a logical texture as a
handle with width, height, depth-or-slices, pixel format, mip count and an
optional pool membership; the fields below are the ones read or written by
the pool allocator, the registry and the streaming code. `mTexturePool = none`
is the null pool pointer. -/
structure TextureGpu where
  mWidth : Nat := 0
  mHeight : Nat := 0
  mDepthOrSlices : Nat := 0
  mPixelFormat : Nat := 0
  mNumMipmaps : Nat := 0
  mTextureType : TextureTypes := TextureTypes.Unknown
  mTexturePool : Option Nat := none
  mInternalSliceStart : Nat := 0
  mName : IdString := {}
  mPageOutStrategy : GpuPageOutStrategy := GpuPageOutStrategy.Discard
  mTextureFlags : Nat := 0
  deriving DecidableEq, Repr

namespace TextureGpu

def getName (t : TextureGpu) : IdString := t.mName

def getGpuPageOutStrategy (t : TextureGpu) : GpuPageOutStrategy := t.mPageOutStrategy

def getWidth (t : TextureGpu) : Nat := t.mWidth

def getHeight (t : TextureGpu) : Nat := t.mHeight

def getDepthOrSlices (t : TextureGpu) : Nat := t.mDepthOrSlices

def getPixelFormat (t : TextureGpu) : Nat := t.mPixelFormat

def getNumMipmaps (t : TextureGpu) : Nat := t.mNumMipmaps

def getTexturePool (t : TextureGpu) : Option Nat := t.mTexturePool

def getInternalSliceStart (t : TextureGpu) : Nat := t.mInternalSliceStart

/-- Modelled from the spec: the number of array slices of a texture; for every
texture kind but a 3D volume the third extent counts slices. -/
def getNumSlices (t : TextureGpu) : Nat :=
  if t.mTextureType = TextureTypes.Type3D then 1 else t.mDepthOrSlices

def setTextureType (t : TextureGpu) (textureType : TextureTypes) : TextureGpu :=
  { t with mTextureType := textureType }

def setResolution (t : TextureGpu) (width height depthOrSlices : Nat) : TextureGpu :=
  { t with mWidth := width, mHeight := height, mDepthOrSlices := depthOrSlices }

def setPixelFormat (t : TextureGpu) (pixelFormat : Nat) : TextureGpu :=
  { t with mPixelFormat := pixelFormat }

def setNumMipmaps (t : TextureGpu) (numMipmaps : Nat) : TextureGpu :=
  { t with mNumMipmaps := numMipmaps }

/-- Modelled from the spec: records the pool and the slice the texture now
lives in; `(none, 0)` means the texture has no pool. -/
def _notifyTextureSlotChanged (t : TextureGpu) (newPool : Option Nat) (slice : Nat) :
    TextureGpu :=
  { t with mTexturePool := newPool, mInternalSliceStart := slice }

end TextureGpu

/-- Modelled from the spec: `createTextureImpl` is implemented by the render
system, outside the sources. It returns a new texture object; every field
the allocator later reads from a master texture is written by
`_reserveSlotForTexture` before it is read, so the object starts out with
nothing set. -/
def createTextureImpl : TextureGpu := {}

/-- Modelled from the spec: struct `TexturePool` is declared in the header, which
is not among the sources. A pool is one master array texture plus a
used-slice list and a free-slice stack; `usedMemory`, like the slice index
`sliceIdx` taken from it (line 362), is 16 bits wide. -/
structure TexturePool where
  masterTexture : TextureGpu
  usedMemory : Nat := 0
  availableSlots : List Nat := []
  usedSlots : List Nat := []
  deriving DecidableEq, Repr

/-- `TexturePool::hasFreeSlot` (lines 706-709). -/
def TexturePool.hasFreeSlot (pool : TexturePool) : Bool :=
  !pool.availableSlots.isEmpty || decide (pool.usedMemory < pool.masterTexture.getNumSlices)

/-- Modelled from the spec: struct `PoolParameters` is declared in the header. It
is the policy table of four resolution tiers
`maxResolution <= threshold_i -> minSlices_i`. -/
structure PoolParameters where
  maxBytesPerPool : Nat
  minSlicesPerPool : List Nat
  maxResolutionToApplyMinSlices : List Nat
  deriving DecidableEq, Repr

/-- The table set by the constructor (lines 82-91). -/
def defaultPoolParameters : PoolParameters :=
  { maxBytesPerPool := 64 * 1024 * 1024
    minSlicesPerPool := [16, 8, 4, 2]
    maxResolutionToApplyMinSlices := [256, 512, 1024, 4096] }

/-- The extents and the pixel format of a region asked of a staging texture. -/
structure RegionRequest where
  width : Nat := 0
  height : Nat := 0
  depth : Nat := 0
  slices : Nat := 0
  pixelFormat : Nat := 0
  deriving DecidableEq, Repr

/-- Modelled from the spec: the destination of a copy, with `data = none` for a
null pointer. -/
structure TextureBox where
  width : Nat := 0
  height : Nat := 0
  depth : Nat := 0
  numSlices : Nat := 0
  bytesPerImage : Nat := 0
  data : Option Nat := none
  deriving DecidableEq, Repr

/-- A `LoadRequest`: the name, the destination texture and the archive to load
from. -/
structure LoadRequest where
  name : String := ""
  texture : Nat := 0
  archive : Nat := 0
  deriving DecidableEq, Repr

/-- A `RareRequest` (declared in the header; constructor at lines 713-721). -/
structure RareRequest where
  width : Nat := 0
  height : Nat := 0
  pixelFormat : Nat := 0
  accumSizeBytes : Nat := 0
  deriving DecidableEq, Repr

/-- Modelled from the spec: the commands of `ObjCmdBuffer` that the streaming code
adds, each with the arguments it is constructed with. -/
inductive ObjCmd where
  | TransitionToResident (texture : Nat) (sysRamCopy : Option Nat)
  | UploadFromStagingTex (stagingTexture : Option Nat) (box : TextureBox) (dstTexture : Nat)
      (mipLevel : Nat)
  deriving DecidableEq, Repr

/-- The `ThreadData` of one thread (declared in the header): the load requests,
the command buffer, the staging textures in use and available, the rare
requests and the pools waiting for the main thread. -/
structure ThreadData where
  poolsPending : List Nat := []
  loadRequests : List LoadRequest := []
  objCmdBuffer : List ObjCmd := []
  usedStagingTex : List Nat := []
  availableStagingTex : List Nat := []
  rareRequests : List RareRequest := []
  deriving DecidableEq, Repr

/-- The manager: the policy table, the list of pools, the worker's thread data
and the store of the texture objects that handles point to. -/
structure TextureGpuManager where
  mDefaultPoolParameters : PoolParameters := defaultPoolParameters
  mTexturePool : List TexturePool := []
  workerData : ThreadData := {}
  textures : Nat → TextureGpu

/-- Modelled from the spec: `efficientVectorRemove` is declared in OgreCommon.h,
which is not among the sources; the spec only says that the element is
removed from the list. It is modelled as Ogre defines it: the last element is
copied over position `idx` and the vector is shortened by one. The source
calls `erase` on the one list it keeps in order (lines 247 and 697, under the
comment `They're kept in order`) and this function on the others. -/
def efficientVectorRemove {α : Type} (container : List α) (idx : Nat) : List α :=
  match container.getLast? with
  | none => container
  | some back => (container.set idx back).dropLast

namespace TextureGpuManager

/-- The loop of `getNumSlicesFor` (lines 181-188): `i` runs over the
`remaining` tiers left; the first tier the resolution fits in wins. -/
def getNumSlicesForLoop (poolParams : PoolParameters) (maxResolution : Nat) :
    (remaining : Nat) → (i : Nat) → Nat
  | 0, _ => 1
  | remaining + 1, i =>
    if maxResolution ≤ poolParams.maxResolutionToApplyMinSlices.getD i 0 then
      poolParams.minSlicesPerPool.getD i 0
    else
      getNumSlicesForLoop poolParams maxResolution remaining (i + 1)

/-- `TextureGpuManager::getNumSlicesFor` (lines 174-191). -/
def getNumSlicesFor (m : TextureGpuManager) (texture : TextureGpu) : Nat :=
  let poolParams := m.mDefaultPoolParameters
  let maxResolution := max texture.getWidth texture.getHeight
  getNumSlicesForLoop poolParams maxResolution 4 0

/-- The test made on each pool by the search loop (lines 320-326). -/
def poolMatches (pool : TexturePool) (texture : TextureGpu) : Bool :=
  pool.hasFreeSlot &&
  decide (pool.masterTexture.getWidth = texture.getWidth) &&
  decide (pool.masterTexture.getHeight = texture.getHeight) &&
  decide (pool.masterTexture.getDepthOrSlices = texture.getDepthOrSlices) &&
  decide (pool.masterTexture.getPixelFormat = texture.getPixelFormat) &&
  decide (pool.masterTexture.getNumMipmaps = texture.getNumMipmaps)

/-- The search loop of `_reserveSlotForTexture` (lines 316-331), run over the
pools from position `itor` on. Each turn tests the loop condition
`itor != end && !matchFound`, assigns `matchFound` and then advances `itor`.
Returns the final `itor` and `matchFound`. -/
def searchPools (texture : TextureGpu) : List TexturePool → (itor : Nat) →
    (matchFound : Bool) → Nat × Bool
  | [], itor, matchFound => (itor, matchFound)
  | pool :: rest, itor, matchFound =>
    if matchFound then (itor, matchFound)
    else searchPools texture rest (itor + 1) (poolMatches pool texture)

/-- The pool appended when the search ends at `end` (lines 342-355). -/
def newPoolFor (m : TextureGpuManager) (texture : TextureGpu) : TexturePool :=
  let numSlices := m.getNumSlicesFor texture
  let master := createTextureImpl
  let master := master.setTextureType TextureTypes.Type2DArray
  let master := master.setResolution texture.getWidth texture.getHeight numSlices
  let master := master.setPixelFormat texture.getPixelFormat
  let master := master.setNumMipmaps texture.getNumMipmaps
  { masterTexture := master, usedMemory := 0, availableSlots := [], usedSlots := [] }

/-- The slice handed out by a pool (lines 362-372): the most recently released
slice when there is one, otherwise the 16-bit `usedMemory++`. Returns the
slice and the pool without the texture added yet. -/
def takeSlice (pool : TexturePool) : Nat × TexturePool :=
  match pool.availableSlots.getLast? with
  | some back => (back, { pool with availableSlots := pool.availableSlots.dropLast })
  | none => (pool.usedMemory, { pool with usedMemory := (pool.usedMemory + 1) % 65536 })

/-- `TextureGpuManager::_reserveSlotForTexture` (lines 309-384). After the
`itor == end` branch `itor` is the position of a pool, so the lookup of that
pool always succeeds (`reserve_places_texture`). -/
def _reserveSlotForTexture (m : TextureGpuManager) (texture : Nat) : TextureGpuManager :=
  let tex := m.textures texture
  let found := searchPools tex m.mTexturePool 0 false
  let itor := found.1
  let atEnd := decide (itor = m.mTexturePool.length)
  let pools := if atEnd then m.mTexturePool ++ [m.newPoolFor tex] else m.mTexturePool
  let itor := if atEnd then pools.length - 1 else itor
  let queueToMainThread := atEnd
  match pools.get? itor with
  | none => m
  | some pool =>
    let taken := takeSlice pool
    let sliceIdx := taken.1
    let pool := { taken.2 with usedSlots := taken.2.usedSlots ++ [texture] }
    let tex := tex._notifyTextureSlotChanged (some itor) sliceIdx
    { m with
      mTexturePool := pools.set itor pool
      textures := fun h => if h = texture then tex else m.textures h
      workerData :=
        if queueToMainThread then
          { m.workerData with poolsPending := m.workerData.poolsPending ++ [itor] }
        else m.workerData }

/-- `TextureGpuManager::_releaseSlotFromTexture` (lines 386-403). The result is
`none` when the texture has no pool to look into or when the assertion that
it is among the pool's `usedSlots` fails. -/
def _releaseSlotFromTexture (m : TextureGpuManager) (texture : Nat) :
    Option TextureGpuManager :=
  let tex := m.textures texture
  match tex.getTexturePool with
  | none => none
  | some poolIdx =>
    match m.mTexturePool.get? poolIdx with
    | none => none
    | some texturePool =>
      let itor := texturePool.usedSlots.indexOf texture
      if itor = texturePool.usedSlots.length then none
      else
        let usedSlots := efficientVectorRemove texturePool.usedSlots itor
        let internalSliceStart := tex.getInternalSliceStart
        let texturePool :=
          if texturePool.usedMemory = internalSliceStart + 1 then
            { texturePool with usedSlots := usedSlots, usedMemory := texturePool.usedMemory - 1 }
          else
            { texturePool with
              usedSlots := usedSlots
              availableSlots := texturePool.availableSlots ++ [internalSliceStart] }
        some { m with
          mTexturePool := m.mTexturePool.set poolIdx texturePool
          textures := fun h =>
            if h = texture then tex._notifyTextureSlotChanged none 0 else m.textures h }

end TextureGpuManager

/-! ## The mip bitset of `QueuedImage` (lines 725-797) -/

/-- Modelled from the spec: class `Image2` is declared outside the sources. It is
the decoded image a `QueuedImage` keeps: its extents, texture type, pixel
format and mip count, the buffer holding the pixels (`none` once freed) and
the auto-delete flag the constructor of `QueuedImage` writes. -/
structure Image2 where
  mNumMipmaps : Nat := 0
  mAutoDelete : Bool := true
  mWidth : Nat := 0
  mHeight : Nat := 0
  mDepthOrSlices : Nat := 0
  mTextureType : TextureTypes := TextureTypes.Unknown
  mPixelFormat : Nat := 0
  mBuffer : Option Nat := none
  deriving DecidableEq, Repr

def Image2._setAutoDelete (img : Image2) (autoDelete : Bool) : Image2 :=
  { img with mAutoDelete := autoDelete }

/-- A `QueuedImage`: the image, the destination texture handle and the four
64-bit words of `mipLevelBitSet`. -/
structure QueuedImage where
  image : Image2 := {}
  dstTexture : Nat := 0
  mipLevelBitSet : List Nat := [0, 0, 0, 0]
  deriving DecidableEq, Repr

namespace QueuedImage

/-- The loop of the constructor (lines 732-743) over the `remaining` words
still to fill; `numMips` is the 8-bit counter the loop carries along. -/
def fillMipLevelBitSet : (remaining : Nat) → (numMips : Nat) → List Nat
  | 0, _ => []
  | remaining + 1, numMips =>
    if numMips ≥ 64 then
      0xffffffffffffffff :: fillMipLevelBitSet remaining (numMips - 64)
    else
      ((1 <<< numMips) - 1) :: fillMipLevelBitSet remaining numMips

/-- The constructor `QueuedImage::QueuedImage` (lines 725-744). -/
def construct (srcImage : Image2) (numMips : Nat) (_dstTexture : Nat) : QueuedImage :=
  { image := srcImage._setAutoDelete false
    dstTexture := _dstTexture
    mipLevelBitSet := fillMipLevelBitSet 4 numMips }

/-- `QueuedImage::empty` (lines 755-759). -/
def empty (q : QueuedImage) : Bool :=
  decide (q.mipLevelBitSet.getD 0 0 = 0) && decide (q.mipLevelBitSet.getD 1 0 = 0) &&
  decide (q.mipLevelBitSet.getD 2 0 = 0) && decide (q.mipLevelBitSet.getD 3 0 = 0)

/-- `QueuedImage::isMipQueued` (lines 761-767). -/
def isMipQueued (q : QueuedImage) (mipLevel : Nat) : Bool :=
  let idx := mipLevel / 64
  let mask := mipLevel % 64
  let mask := 1 <<< mask
  decide (q.mipLevelBitSet.getD idx 0 &&& mask ≠ 0)

/-- `QueuedImage::unqueueMip` (lines 769-775); `~mask` is the 64-bit
complement. -/
def unqueueMip (q : QueuedImage) (mipLevel : Nat) : QueuedImage :=
  let idx := mipLevel / 64
  let mask := mipLevel % 64
  let mask := 1 <<< mask
  { q with
    mipLevelBitSet :=
      q.mipLevelBitSet.set idx (q.mipLevelBitSet.getD idx 0 &&& (0xffffffffffffffff - mask)) }

/-- The loop of `getMinMipLevel` (lines 779-783) over the `remaining` words
from word `i` on. -/
def getMinMipLevelLoop (q : QueuedImage) : (remaining : Nat) → (i : Nat) → Nat
  | 0, _ => 255
  | remaining + 1, i =>
    if q.mipLevelBitSet.getD i 0 ≠ 0 then ctz64 (q.mipLevelBitSet.getD i 0) % 256
    else getMinMipLevelLoop q remaining (i + 1)

/-- `QueuedImage::getMinMipLevel` (lines 777-786). -/
def getMinMipLevel (q : QueuedImage) : Nat := getMinMipLevelLoop q 4 0

/-- The loop of `getMaxMipLevelPlusOne` (lines 790-794): `for( i=4u; i--; )`
visits the words `i = 3, 2, 1, 0`; the argument is the value of `i` before
the decrement. -/
def getMaxMipLevelPlusOneLoop (q : QueuedImage) : Nat → Nat
  | 0 => 0
  | i + 1 =>
    if q.mipLevelBitSet.getD i 0 ≠ 0 then
      (64 - clz64 (q.mipLevelBitSet.getD i 0) + 64 * i) % 256
    else getMaxMipLevelPlusOneLoop q i

/-- `QueuedImage::getMaxMipLevelPlusOne` (lines 788-797). -/
def getMaxMipLevelPlusOne (q : QueuedImage) : Nat := getMaxMipLevelPlusOneLoop q 4

end QueuedImage

/-! ## Call sequences and the inputs used in the examples -/

/-- A call of the slot interface of the manager. -/
inductive SlotCall where
  | reserve (texture : Nat)
  | release (texture : Nat)
  deriving DecidableEq, Repr

/-- Runs a sequence of slot calls from state `m`. The sequence has to follow the
calling protocol: a slot is reserved only for a texture that holds none and
released only for a texture that holds one; the result is `none` for a
sequence that does not. -/
def runSlotCalls : List SlotCall → TextureGpuManager → Option TextureGpuManager
  | [], m => some m
  | SlotCall.reserve texture :: rest, m =>
    if (m.textures texture).getTexturePool.isSome then none
    else runSlotCalls rest (m._reserveSlotForTexture texture)
  | SlotCall.release texture :: rest, m =>
    match m._releaseSlotFromTexture texture with
    | none => none
    | some next => runSlotCalls rest next

/-- A 5000 x 5000 2D texture with one mip; `getNumSlicesFor` gives it a pool of
one slice. -/
def largeTexture : TextureGpu :=
  { mWidth := 5000, mHeight := 5000, mDepthOrSlices := 1, mPixelFormat := 1,
    mNumMipmaps := 1, mTextureType := TextureTypes.Type2D }

/-- A 6000 x 6000 2D texture with one mip. -/
def widerTexture : TextureGpu :=
  { mWidth := 6000, mHeight := 6000, mDepthOrSlices := 1, mPixelFormat := 1,
    mNumMipmaps := 1, mTextureType := TextureTypes.Type2D }

/-- A 64 x 64 texture of 16 slices with one mip; `getNumSlicesFor` gives it a
pool of 16 slices. -/
def smallTexture : TextureGpu :=
  { mWidth := 64, mHeight := 64, mDepthOrSlices := 16, mPixelFormat := 1,
    mNumMipmaps := 1, mTextureType := TextureTypes.Type2DArray }

/-- A manager with no pools whose textures all have the shape of
`largeTexture` and hold no slot. -/
def managerOfLarge : TextureGpuManager := { textures := fun _ => largeTexture }

/-- A manager with no pools in which the textures 1 and 4 have the shape of
`widerTexture` and all others that of `largeTexture`; none holds a slot. -/
def managerOfTwoShapes : TextureGpuManager :=
  { textures := fun h => if h = 1 ∨ h = 4 then widerTexture else largeTexture }

/-- A manager with no pools whose textures all have the shape of
`smallTexture` and hold no slot. -/
def managerOfSmall : TextureGpuManager := { textures := fun _ => smallTexture }

/-- What the examples look at in a pool: `usedMemory`, the slices of the master
texture, `availableSlots` and `usedSlots`. -/
def poolSummary (pool : TexturePool) : Nat × Nat × List Nat × List Nat :=
  (pool.usedMemory, pool.masterTexture.getNumSlices, pool.availableSlots, pool.usedSlots)

/-- The master texture of a pool created for `largeTexture`. -/
def largeMaster : TextureGpu := (managerOfLarge.newPoolFor largeTexture).masterTexture

/-- A pool for `largeTexture` holding the `n` textures `1, ..., n`, with no
released slice and with the given `usedMemory`. -/
def crowdedPool (usedMemory n : Nat) : TexturePool :=
  { masterTexture := largeMaster, usedMemory := usedMemory, availableSlots := [],
    usedSlots := List.range' 1 n }

/-- The state in which pool 0 is empty and pool 1 holds the `n` textures
`1, ..., n`, texture `h` in the slice given out by the `h`-th 16-bit
`usedMemory++` of that pool. -/
def crowdedManager (n : Nat) : TextureGpuManager :=
  { mTexturePool := [crowdedPool 0 0, crowdedPool (n % 65536) n]
    workerData := { poolsPending := [0, 1] }
    textures := fun h =>
      if 1 ≤ h ∧ h ≤ n then largeTexture._notifyTextureSlotChanged (some 1) ((h - 1) % 65536)
      else largeTexture }

/-- A QueuedImage whose bitset has the bits 67, 128 and 130 set. -/
def sparseQueuedImage : QueuedImage := { mipLevelBitSet := [0, 8, 5, 0] }

/-- The state after a slot has been reserved for texture 0 in `managerOfSmall`:
one pool, holding texture 0 in slice 0. -/
def managerWithOneSlot : TextureGpuManager := managerOfSmall._reserveSlotForTexture 0

/-- The only pool of `managerWithOneSlot`. -/
def poolWithOneSlot : TexturePool :=
  { managerOfSmall.newPoolFor smallTexture with usedMemory := 1, usedSlots := [0] }

/-- The pool and the slice a texture records for itself. -/
def slotOf (m : TextureGpuManager) (texture : Nat) : Option Nat × Nat :=
  ((m.textures texture).getTexturePool, (m.textures texture).getInternalSliceStart)

/-! ## Well-formed bitsets -/

/-- The bitset is an array of four 64-bit words. -/
def QueuedImage.FourWords (q : QueuedImage) : Prop :=
  q.mipLevelBitSet.length = 4 ∧ ∀ i, q.mipLevelBitSet.getD i 0 < 2 ^ 64

/-! ## The texture registry (lines 193-227) -/

/-- The exception codes raised by the registry. -/
inductive ExceptionCodes where
  | ERR_DUPLICATE_ITEM
  | ERR_ITEM_NOT_FOUND
  deriving DecidableEq, Repr

/-- A `ResourceEntry`: the name and the texture registered under it. -/
structure ResourceEntry where
  name : String := ""
  texture : Nat := 0
  deriving DecidableEq, Repr

/-- The map `mEntries` from `IdString` to `ResourceEntry`: `none` where the map
has no entry (`find` returns `end`). -/
abbrev ResourceEntryMap := IdString → Option ResourceEntry

/-- The map with the entry of `key` set to `entry` (`mEntries[key] = entry`), or
erased when `entry` is `none`. -/
def ResourceEntryMap.assign (mEntries : ResourceEntryMap) (key : IdString)
    (entry : Option ResourceEntry) : ResourceEntryMap :=
  fun k => if k = key then entry else mEntries k

namespace TextureGpuManager

/-- `TextureGpuManager::createTexture` (lines 193-211) on the registry
`mEntries`. `toIdString` is the constructor `IdString( name )`; `retVal` is
the pointer returned by `createTextureImpl`, which points to a new texture
with the given strategy, name and flags. The result is the exception thrown
or the pointer returned with the object it points to, together with the
registry afterwards. -/
def createTexture (toIdString : String → IdString) (mEntries : ResourceEntryMap)
    (name : String) (pageOutStrategy : GpuPageOutStrategy) (textureFlags : Nat)
    (retVal : Nat) : Except ExceptionCodes (Nat × TextureGpu) × ResourceEntryMap :=
  let idName := toIdString name
  if (mEntries idName).isSome then
    (Except.error ExceptionCodes.ERR_DUPLICATE_ITEM, mEntries)
  else
    let created : TextureGpu :=
      { mName := idName, mPageOutStrategy := pageOutStrategy, mTextureFlags := textureFlags }
    (Except.ok (retVal, created),
      mEntries.assign idName (some { name := name, texture := retVal }))

/-- `TextureGpuManager::destroyTexture` (lines 213-227) on the registry
`mEntries`; `texture` is the object the argument points to. `delete texture`
frees that object and leaves the registry alone. -/
def destroyTexture (mEntries : ResourceEntryMap) (texture : TextureGpu) :
    Except ExceptionCodes Unit × ResourceEntryMap :=
  let itor := mEntries texture.getName
  if itor.isNone then
    (Except.error ExceptionCodes.ERR_ITEM_NOT_FOUND, mEntries)
  else
    (Except.ok (), mEntries.assign texture.getName none)

end TextureGpuManager

/-- A call of the registry interface. -/
inductive RegistryCall where
  | create (name : String) (pageOutStrategy : GpuPageOutStrategy) (textureFlags : Nat)
      (retVal : Nat)
  | destroy (texture : TextureGpu)

/-- The registry key a call is about. -/
def RegistryCall.key (toIdString : String → IdString) : RegistryCall → IdString
  | RegistryCall.create name _ _ _ => toIdString name
  | RegistryCall.destroy texture => texture.getName

/-- Whether the call is a `createTexture`. -/
def RegistryCall.isCreate : RegistryCall → Bool
  | RegistryCall.create _ _ _ _ => true
  | RegistryCall.destroy _ => false

/-- Runs a sequence of registry calls; a call that throws leaves the registry as
it is and the sequence goes on. -/
def runRegistryCalls (toIdString : String → IdString) :
    List RegistryCall → ResourceEntryMap → ResourceEntryMap
  | [], mEntries => mEntries
  | RegistryCall.create name pageOutStrategy textureFlags retVal :: rest, mEntries =>
    runRegistryCalls toIdString rest
      (TextureGpuManager.createTexture toIdString mEntries name pageOutStrategy textureFlags
        retVal).2
  | RegistryCall.destroy texture :: rest, mEntries =>
    runRegistryCalls toIdString rest (TextureGpuManager.destroyTexture mEntries texture).2

/-- The last call of the sequence that is about `key`, if any. -/
def lastCallAbout (toIdString : String → IdString) (key : IdString)
    (calls : List RegistryCall) : Option RegistryCall :=
  (calls.filter (fun call => decide (call.key toIdString = key))).getLast?

/-! ## Staging textures (lines 229-278 and 682-698) -/

/-- Modelled from the spec: class `StagingTexture` is declared in
OgreStagingTexture.h, which is not among the sources, and its member
functions are implemented by the render systems. They are taken as given
functions of the staging texture (a handle): whether it can hold a region of
the requested extents and format, whether an upload to it would stall, the
frame it was last used in, and the region `mapRegion` hands out, which may
depend on the regions asked of the texture before. -/
structure StagingTextureImpl where
  supportsFormat : Nat → RegionRequest → Bool
  uploadWillStall : Nat → Bool
  getLastFrameUsed : Nat → Nat
  mapRegion : Nat → List RegionRequest → RegionRequest → TextureBox

/-- What `getStagingTexture` leaves behind: the value returned, the two lists, and
the staging textures `createStagingTextureImpl` was called for. -/
structure StagingTextureResult where
  retVal : Nat
  mAvailableStagingTextures : List Nat
  mUsedStagingTextures : List Nat
  created : List Nat
  deriving DecidableEq, Repr

namespace TextureGpuManager

/-- The test made on each available staging texture (lines 241-243). -/
def stagingTextureFits (impl : StagingTextureImpl) (request : RegionRequest)
    (stagingTexture : Nat) : Bool :=
  impl.supportsFormat stagingTexture request && !impl.uploadWillStall stagingTexture

/-- The loop of `getStagingTexture` (lines 237-252) over the available staging
textures from position `itor` on: it goes on while `retVal` is null, and
yields the position and the staging texture at which `retVal` is set. After
the `erase( itor )` of that turn the iterator is incremented once more but
not dereferenced, since the loop condition fails on `retVal`. -/
def getStagingTextureLoop (impl : StagingTextureImpl) (request : RegionRequest) :
    List Nat → (itor : Nat) → Option (Nat × Nat)
  | [], _ => none
  | stagingTexture :: rest, itor =>
    if stagingTextureFits impl request stagingTexture then some (itor, stagingTexture)
    else getStagingTextureLoop impl request rest (itor + 1)

/-- `TextureGpuManager::getStagingTexture` (lines 229-262).
`newStagingTexture` is the pointer `createStagingTextureImpl` returns when it
is called. -/
def getStagingTexture (impl : StagingTextureImpl) (mAvailableStagingTextures
    mUsedStagingTextures : List Nat) (request : RegionRequest) (newStagingTexture : Nat) :
    StagingTextureResult :=
  match getStagingTextureLoop impl request mAvailableStagingTextures 0 with
  | some (itor, stagingTexture) =>
    { retVal := stagingTexture
      mUsedStagingTextures := mUsedStagingTextures ++ [stagingTexture]
      mAvailableStagingTextures := mAvailableStagingTextures.eraseIdx itor
      created := [] }
  | none =>
    { retVal := newStagingTexture
      mUsedStagingTextures := mUsedStagingTextures ++ [newStagingTexture]
      mAvailableStagingTextures := mAvailableStagingTextures
      created := [newStagingTexture] }

/-- `TextureGpuManager::removeStagingTexture` (lines 264-278): `ritor` counts
from the back of the used list, `itor = ritor.base() - 1` is the position of
the last occurrence. The result is `none` when the assertion fails, otherwise
the available and the used list afterwards. -/
def removeStagingTexture (mAvailableStagingTextures mUsedStagingTextures : List Nat)
    (stagingTexture : Nat) : Option (List Nat × List Nat) :=
  let ritor := mUsedStagingTextures.reverse.indexOf stagingTexture
  if ritor = mUsedStagingTextures.length then none
  else
    let itor := mUsedStagingTextures.length - ritor - 1
    some (mAvailableStagingTextures ++ [stagingTexture],
      efficientVectorRemove mUsedStagingTextures itor)

end TextureGpuManager

/-- Modelled from the spec: class `VaoManager` is declared outside the sources. It
provides the frame counter (a 32-bit value) and the dynamic buffer
multiplier (an 8-bit value). -/
structure VaoManager where
  mDynamicBufferMultiplier : Nat := 3
  mFrameCount : Nat := 0
  deriving DecidableEq, Repr

def VaoManager.getDynamicBufferMultiplier (vao : VaoManager) : Nat :=
  vao.mDynamicBufferMultiplier % 256

def VaoManager.getFrameCount (vao : VaoManager) : Nat := vao.mFrameCount % 4294967296

namespace TextureGpuManager

/-- The condition of the aging loop of `_update` on one staging texture (line
690): `getLastFrameUsed() - getFrameCount() > numFramesThreshold`, a
subtraction of 32-bit unsigned values. -/
def stagingTextureAged (impl : StagingTextureImpl) (mVaoManager : VaoManager)
    (numFramesThreshold : Nat) (stagingTexture : Nat) : Bool :=
  decide ((impl.getLastFrameUsed stagingTexture % 4294967296 + 4294967296 -
    mVaoManager.getFrameCount) % 4294967296 > numFramesThreshold)

/-- The aging loop of `_update` (lines 689-695) over the available staging
textures from position `itor` on; yields the final `itor`. -/
def agingLoop (impl : StagingTextureImpl) (mVaoManager : VaoManager)
    (numFramesThreshold : Nat) : List Nat → (itor : Nat) → Nat
  | [], itor => itor
  | stagingTexture :: rest, itor =>
    if stagingTextureAged impl mVaoManager numFramesThreshold stagingTexture then
      agingLoop impl mVaoManager numFramesThreshold rest (itor + 1)
    else itor

/-- The block of `_update` that retires staging textures (lines 682-698): the
staging textures destroyed, in order, and the available list after
`erase( begin, itor )`. -/
def _update_retireStagingTextures (impl : StagingTextureImpl) (mVaoManager : VaoManager)
    (mAvailableStagingTextures : List Nat) : List Nat × List Nat :=
  let numFramesThreshold := (mVaoManager.getDynamicBufferMultiplier + 2) % 4294967296
  let itor := agingLoop impl mVaoManager numFramesThreshold mAvailableStagingTextures 0
  (mAvailableStagingTextures.take itor, mAvailableStagingTextures.drop itor)

end TextureGpuManager

/-- A call of the staging interface; a `get` call carries the behaviour of the
staging textures at the time of the call and the pointer a new staging
texture would get. -/
inductive StagingCall where
  | get (impl : StagingTextureImpl) (request : RegionRequest) (newStagingTexture : Nat)
  | remove (stagingTexture : Nat)

/-- Runs a sequence of staging calls on the available and the used list. The
result is `none` if a newly created staging texture is one of the existing
ones or if a removal is for a staging texture that is not in the used list. -/
def runStagingCalls : List StagingCall → List Nat × List Nat → Option (List Nat × List Nat)
  | [], lists => some lists
  | StagingCall.get impl request newStagingTexture :: rest, (available, used) =>
    if (TextureGpuManager.getStagingTexture impl available used request
        newStagingTexture).created ≠ [] ∧
        (newStagingTexture ∈ available ∨ newStagingTexture ∈ used) then none
    else
      runStagingCalls rest
        ((TextureGpuManager.getStagingTexture impl available used request
            newStagingTexture).mAvailableStagingTextures,
          (TextureGpuManager.getStagingTexture impl available used request
            newStagingTexture).mUsedStagingTextures)
  | StagingCall.remove stagingTexture :: rest, (available, used) =>
    match TextureGpuManager.removeStagingTexture available used stagingTexture with
    | none => none
    | some lists => runStagingCalls rest lists

/-- No staging texture is listed twice in a list or in both lists. -/
def StagingListsDisjoint (lists : List Nat × List Nat) : Prop :=
  lists.1.Nodup ∧ lists.2.Nodup ∧ ∀ a, a ∈ lists.1 → a ∉ lists.2

/-- Staging textures that take any request and never stall. -/
def obligingStaging : StagingTextureImpl :=
  { supportsFormat := fun _ _ => true
    uploadWillStall := fun _ => false
    getLastFrameUsed := fun _ => 10
    mapRegion := fun stagingTexture _ request =>
      { width := request.width, height := request.height, depth := request.depth,
        numSlices := request.slices, data := some stagingTexture } }

/-! ## Streaming (lines 405-639) -/

namespace Image2

def getWidth (img : Image2) : Nat := img.mWidth

def getHeight (img : Image2) : Nat := img.mHeight

def getDepthOrSlices (img : Image2) : Nat := img.mDepthOrSlices

def getTextureType (img : Image2) : TextureTypes := img.mTextureType

def getPixelFormat (img : Image2) : Nat := img.mPixelFormat

def getNumMipmaps (img : Image2) : Nat := img.mNumMipmaps

/-- Modelled from the spec: gives the pixel buffer back. -/
def freeMemory (img : Image2) : Image2 := { img with mBuffer := none }

end Image2

/-- Modelled from the spec: the larger of the depth and the slice count of a box. -/
def TextureBox.getDepthOrSlices (box : TextureBox) : Nat := max box.depth box.numSlices

/-- `QueuedImage::destroy` (lines 746-753); `dst` is the object `dstTexture`
points to. -/
def QueuedImage.destroy (q : QueuedImage) (dst : TextureGpu) : QueuedImage :=
  if dst.getGpuPageOutStrategy ≠ GpuPageOutStrategy.AlwaysKeepSystemRamCopy then
    { q with image := (q.image._setAutoDelete true).freeMemory }
  else q

/-- Modelled from the spec: the collaborators the streaming code calls, which are
outside the sources: the staging textures, the archive and image decoder
(`archive->open( name )` followed by `img.load( data )`), `Image2::getData`
and `PixelFormatGpuUtils::getSizeBytes`. -/
structure StreamingServices where
  staging : StagingTextureImpl
  loadImage : Nat → String → Image2
  getData : Image2 → Nat → TextureBox
  getSizeBytes : Nat → Nat → Nat → Nat → Nat → Nat → Nat

/-- What the worker thread works on while it streams: its `ThreadData` and, for
every staging texture, the regions `mapRegion` was asked for so far. -/
structure WorkerState where
  workerData : ThreadData := {}
  mappedRegions : Nat → List RegionRequest := fun _ => []

/-- The variables of `getStreaming` while its loops run. -/
structure StreamingSearch where
  retVal : TextureBox := {}
  isRare : Bool := true
  outStagingTexture : Option Nat := none
  mappedRegions : Nat → List RegionRequest := fun _ => []

/-- What `getStreaming` leaves behind: the box returned, `*outStagingTexture`
(`none` when it was not written) and the worker state. -/
structure StreamingResult where
  retVal : TextureBox := {}
  outStagingTexture : Option Nat := none
  worker : WorkerState := {}

/-- The members `_updateStreaming` works on: the `ThreadData` of both threads, the
queued images, the texture objects and the regions mapped so far. -/
structure StreamingState where
  mainData : ThreadData := {}
  worker : WorkerState := {}
  mQueuedImages : List QueuedImage := []
  textures : Nat → TextureGpu := fun _ => {}

namespace TextureGpuManager

/-- One call `(*itor)->mapRegion( ... )` of `getStreaming` with the update of
`retVal`, `isRare` and `*outStagingTexture` that follows it (lines 418-429
and 439-451). -/
def mapRegionStep (impl : StagingTextureImpl) (request : RegionRequest) (stagingTexture : Nat)
    (search : StreamingSearch) : StreamingSearch :=
  let retVal := impl.mapRegion stagingTexture (search.mappedRegions stagingTexture) request
  let mappedRegions := fun h =>
    if h = stagingTexture then search.mappedRegions h ++ [request] else search.mappedRegions h
  if retVal.data.isNone then
    { retVal := retVal
      isRare := search.isRare && !impl.supportsFormat stagingTexture request
      outStagingTexture := search.outStagingTexture
      mappedRegions := mappedRegions }
  else
    { retVal := retVal
      isRare := false
      outStagingTexture := some stagingTexture
      mappedRegions := mappedRegions }

/-- The first loop of `getStreaming` (lines 416-432), over the staging textures
in use. -/
def getStreamingUsedLoop (impl : StagingTextureImpl) (request : RegionRequest) :
    List Nat → StreamingSearch → StreamingSearch
  | [], search => search
  | stagingTexture :: rest, search =>
    if search.retVal.data.isSome then search
    else getStreamingUsedLoop impl request rest (mapRegionStep impl request stagingTexture search)

/-- The second loop of `getStreaming` (lines 437-457), over the available staging
textures from position `itor` on. Yields the position of the staging texture
that gave a region, if one did; the loop ends there, because `retVal.data`
is set. -/
def getStreamingAvailableLoop (impl : StagingTextureImpl) (request : RegionRequest) :
    List Nat → (itor : Nat) → StreamingSearch → StreamingSearch × Option Nat
  | [], _, search => (search, none)
  | stagingTexture :: rest, itor, search =>
    if search.retVal.data.isSome then (search, none)
    else
      let next := mapRegionStep impl request stagingTexture search
      if next.retVal.data.isNone then getStreamingAvailableLoop impl request rest (itor + 1) next
      else (next, some itor)

/-- The loop over `rareRequests` (lines 465-478): the first request of the same
pixel format gets the bytes added to its 64-bit `accumSizeBytes`. Yields the
list and `foundMatchingRare`. -/
def accumulateRareRequest (requiredBytes pixelFormat : Nat) :
    List RareRequest → List RareRequest × Bool
  | [] => ([], false)
  | rare :: rest =>
    if rare.pixelFormat = pixelFormat then
      ({ rare with accumSizeBytes := (rare.accumSizeBytes + requiredBytes) % 2 ^ 64 } :: rest,
        true)
    else
      ((rare :: (accumulateRareRequest requiredBytes pixelFormat rest).1),
        (accumulateRareRequest requiredBytes pixelFormat rest).2)

/-- `TextureGpuManager::getStreaming` (lines 405-489). -/
def getStreaming (services : StreamingServices) (worker : WorkerState) (box : TextureBox)
    (pixelFormat : Nat) : StreamingResult :=
  let request : RegionRequest :=
    { width := box.width, height := box.height, depth := box.depth, slices := box.numSlices,
      pixelFormat := pixelFormat }
  let search : StreamingSearch := { mappedRegions := worker.mappedRegions }
  let search := getStreamingUsedLoop services.staging request worker.workerData.usedStagingTex
    search
  let found := getStreamingAvailableLoop services.staging request
    worker.workerData.availableStagingTex 0 search
  let search := found.1
  let workerData :=
    match found.2 with
    | some itor =>
      { worker.workerData with
        usedStagingTex := worker.workerData.usedStagingTex ++
          (worker.workerData.availableStagingTex.get? itor).toList
        availableStagingTex := efficientVectorRemove worker.workerData.availableStagingTex itor }
    | none => worker.workerData
  let workerData :=
    if search.isRare then
      let requiredBytes :=
        services.getSizeBytes box.width box.height box.depth box.numSlices pixelFormat 4
      let accumulated := accumulateRareRequest requiredBytes pixelFormat workerData.rareRequests
      if accumulated.2 then { workerData with rareRequests := accumulated.1 }
      else
        { workerData with
          rareRequests := workerData.rareRequests ++
            [{ width := box.width, height := box.height, pixelFormat := pixelFormat,
               accumSizeBytes :=
                 services.getSizeBytes box.width box.height box.getDepthOrSlices 1
                   pixelFormat 4 }] }
    else workerData
  { retVal := search.retVal
    outStagingTexture := search.outStagingTexture
    worker := { workerData := workerData, mappedRegions := search.mappedRegions } }

/-- The loop of `processQueuedImage` (lines 500-522) from mip level `i` on, for
the `remaining` levels below `numMips`. The `memcpy` into the staging region
writes staging memory, which is not part of the state. -/
def processQueuedImageLoop (services : StreamingServices) :
    (remaining : Nat) → (i : Nat) → QueuedImage → WorkerState → QueuedImage × WorkerState
  | 0, _, queuedImage, worker => (queuedImage, worker)
  | remaining + 1, i, queuedImage, worker =>
    if queuedImage.isMipQueued i then
      let srcBox := services.getData queuedImage.image i
      let streamed := getStreaming services worker srcBox queuedImage.image.getPixelFormat
      if streamed.retVal.data.isSome then
        let uploadCmd := ObjCmd.UploadFromStagingTex streamed.outStagingTexture streamed.retVal
          queuedImage.dstTexture i
        processQueuedImageLoop services remaining (i + 1) (queuedImage.unqueueMip i)
          { streamed.worker with
            workerData :=
              { streamed.worker.workerData with
                objCmdBuffer := streamed.worker.workerData.objCmdBuffer ++ [uploadCmd] } }
      else processQueuedImageLoop services remaining (i + 1) queuedImage streamed.worker
    else processQueuedImageLoop services remaining (i + 1) queuedImage worker

/-- `TextureGpuManager::processQueuedImage` (lines 491-523). -/
def processQueuedImage (services : StreamingServices) (queuedImage : QueuedImage)
    (worker : WorkerState) : QueuedImage × WorkerState :=
  let firstMip := queuedImage.getMinMipLevel
  let numMips := queuedImage.getMaxMipLevelPlusOne
  processQueuedImageLoop services (numMips - firstMip) firstMip queuedImage worker

/-- The loop of `_updateStreaming` that retries the queued images (lines
573-586). Every turn either removes the image at `itQueue` or advances
`itQueue`, so the loop makes as many turns as the list is long at its start;
`remaining` counts them down. -/
def retryQueuedImages (services : StreamingServices) :
    (remaining : Nat) → (itQueue : Nat) → StreamingState → StreamingState
  | 0, _, s => s
  | remaining + 1, itQueue, s =>
    match s.mQueuedImages.get? itQueue with
    | none => s
    | some queuedImage =>
      let processed := processQueuedImage services queuedImage s.worker
      if processed.1.empty then
        let destroyed := processed.1.destroy (s.textures processed.1.dstTexture)
        retryQueuedImages services remaining itQueue
          { s with
            worker := processed.2
            mQueuedImages :=
              efficientVectorRemove (s.mQueuedImages.set itQueue destroyed) itQueue }
      else
        retryQueuedImages services remaining (itQueue + 1)
          { s with
            worker := processed.2
            mQueuedImages := s.mQueuedImages.set itQueue processed.1 }

/-- The loop of `_updateStreaming` over the new load requests (lines 592-634). The
queued image is pushed to the back of `mQueuedImages`, processed there, and
popped again when it has become empty. -/
def processLoadRequests (services : StreamingServices) :
    List LoadRequest → StreamingState → StreamingState
  | [], s => s
  | loadRequest :: rest, s =>
    let img := services.loadImage loadRequest.archive loadRequest.name
    let texture := s.textures loadRequest.texture
    let texture := texture.setResolution img.getWidth img.getHeight img.getDepthOrSlices
    let texture := texture.setTextureType img.getTextureType
    let texture := texture.setPixelFormat img.getPixelFormat
    let sysRamCopy :=
      if texture.getGpuPageOutStrategy = GpuPageOutStrategy.AlwaysKeepSystemRamCopy then
        (services.getData img 0).data
      else none
    let transitionCmd := ObjCmd.TransitionToResident loadRequest.texture sysRamCopy
    let worker :=
      { s.worker with
        workerData :=
          { s.worker.workerData with
            objCmdBuffer := s.worker.workerData.objCmdBuffer ++ [transitionCmd] } }
    let queuedImage := QueuedImage.construct img (img.getNumMipmaps % 256) loadRequest.texture
    let processed := processQueuedImage services queuedImage worker
    let textures := fun h => if h = loadRequest.texture then texture else s.textures h
    let mQueuedImages :=
      if processed.1.empty then
        (s.mQueuedImages ++ [processed.1.destroy texture]).dropLast
      else s.mQueuedImages ++ [processed.1]
    processLoadRequests services rest
      { s with worker := processed.2, mQueuedImages := mQueuedImages, textures := textures }

/-- `TextureGpuManager::_updateStreaming` (lines 525-639). -/
def _updateStreaming (services : StreamingServices) (s : StreamingState) : StreamingState :=
  let workerRequests :=
    if s.worker.workerData.loadRequests.isEmpty then s.mainData.loadRequests
    else s.worker.workerData.loadRequests ++ s.mainData.loadRequests
  let s : StreamingState :=
    { s with
      mainData := { s.mainData with loadRequests := [] }
      worker :=
        { s.worker with
          workerData := { s.worker.workerData with loadRequests := workerRequests } } }
  let s := retryQueuedImages services s.mQueuedImages.length 0 s
  let s := processLoadRequests services s.worker.workerData.loadRequests s
  { s with
    worker := { s.worker with workerData := { s.worker.workerData with loadRequests := [] } } }

end TextureGpuManager

namespace TextureGpuManager

/-- Whether the call of `getStreaming` that `processQueuedImage` makes for mip
level `mipLevel` returns a region (`dstBox.data` is not null). The call is made
with the worker data as the levels before `mipLevel` have left it, which is
what the loop yields when it is stopped in front of that level. -/
def streamingGaveRegion (services : StreamingServices) (queuedImage : QueuedImage)
    (worker : WorkerState) (mipLevel : Nat) : Bool :=
  let firstMip := queuedImage.getMinMipLevel
  let before := processQueuedImageLoop services (mipLevel - firstMip) firstMip queuedImage worker
  (getStreaming services before.2 (services.getData queuedImage.image mipLevel)
    queuedImage.image.getPixelFormat).retVal.data.isSome

end TextureGpuManager

/-! ## The calls of `processQueuedImage` in `_updateStreaming`, turn by turn -/

/-- The list with its last element moved to the front; the empty list stays
empty. -/
def moveLastToFront {α : Type} (l : List α) : List α :=
  match l.getLast? with
  | none => []
  | some last => last :: l.dropLast

/-- One call of `processQueuedImage` made by `_updateStreaming`: the image it is
called for and the worker data it is called with. -/
structure QueueTurn where
  queuedImage : QueuedImage
  worker : WorkerState

namespace TextureGpuManager

/-- The image as the call of `processQueuedImage` of this turn leaves it. -/
def processedIn (services : StreamingServices) (turn : QueueTurn) : QueuedImage :=
  (processQueuedImage services turn.queuedImage turn.worker).1

/-- Whether the image is finished (`empty()`) after the call of this turn. -/
def finishedIn (services : StreamingServices) (turn : QueueTurn) : Bool :=
  (processedIn services turn).empty

/-- The retry loop of `_updateStreaming` (lines 573-586) told turn by turn, to be
compared with `retryQueuedImages`. `waiting` holds the images that have not
had their turn, each with the position it had in `mQueuedImages` when the loop
started. The first of them has its turn. If it finishes, the last waiting
image comes next; if not, the next in line does. Yields the turns in the order
they are made, each with the position of its image; `fuel` bounds their
number. -/
def retryTurns (services : StreamingServices) :
    (fuel : Nat) → (waiting : List (Nat × QueuedImage)) → WorkerState → List (Nat × QueueTurn)
  | 0, _, _ => []
  | _ + 1, [], _ => []
  | fuel + 1, (position, queuedImage) :: rest, worker =>
    let processed := processQueuedImage services queuedImage worker
    (position, { queuedImage := queuedImage, worker := worker }) ::
      retryTurns services fuel (if processed.1.empty then moveLastToFront rest else rest)
        processed.2

/-- The turns of the retry loop when it is run on the state `s`. -/
def retryLoopTurns (services : StreamingServices) (s : StreamingState) :
    List (Nat × QueueTurn) :=
  retryTurns services s.mQueuedImages.length s.mQueuedImages.enum s.worker

/-- The images the turns leave unfinished, in the order of the turns. -/
def keptImages (services : StreamingServices) (turns : List QueueTurn) : List QueuedImage :=
  (turns.filter (fun turn => !finishedIn services turn)).map (processedIn services)

/-- The first block of `_updateStreaming` (lines 551-563): the load requests of
the main thread are handed to the worker. -/
def _updateStreaming_takeLoadRequests (s : StreamingState) : StreamingState :=
  let workerRequests :=
    if s.worker.workerData.loadRequests.isEmpty then s.mainData.loadRequests
    else s.worker.workerData.loadRequests ++ s.mainData.loadRequests
  { s with
    mainData := { s.mainData with loadRequests := [] }
    worker :=
      { s.worker with
        workerData := { s.worker.workerData with loadRequests := workerRequests } } }

/-- The call of `processQueuedImage` for a new load request (line 625): the image
that was pushed to the back of `mQueuedImages` for it (line 621) and the worker
data after the `TransitionToResident` command was added (lines 614-618). -/
def loadRequestTurn (services : StreamingServices) (loadRequest : LoadRequest)
    (s : StreamingState) : QueueTurn :=
  let img := services.loadImage loadRequest.archive loadRequest.name
  let texture := s.textures loadRequest.texture
  let texture := texture.setResolution img.getWidth img.getHeight img.getDepthOrSlices
  let texture := texture.setTextureType img.getTextureType
  let texture := texture.setPixelFormat img.getPixelFormat
  let sysRamCopy :=
    if texture.getGpuPageOutStrategy = GpuPageOutStrategy.AlwaysKeepSystemRamCopy then
      (services.getData img 0).data
    else none
  let transitionCmd := ObjCmd.TransitionToResident loadRequest.texture sysRamCopy
  { queuedImage := QueuedImage.construct img (img.getNumMipmaps % 256) loadRequest.texture
    worker :=
      { s.worker with
        workerData :=
          { s.worker.workerData with
            objCmdBuffer := s.worker.workerData.objCmdBuffer ++ [transitionCmd] } } }

/-- The turns of the loop over the new load requests, one per request in the
order of the requests; the state goes from one request to the next as
`processLoadRequests` leaves it. -/
def loadRequestTurns (services : StreamingServices) :
    List LoadRequest → StreamingState → List QueueTurn
  | [], _ => []
  | loadRequest :: rest, s =>
    loadRequestTurn services loadRequest s ::
      loadRequestTurns services rest (processLoadRequests services [loadRequest] s)

end TextureGpuManager

namespace TextureGpuManager

/-- The calls of `processQueuedImage` that one call of `_updateStreaming` makes,
in their order: the turns of the retry loop, then one turn for every load
request the worker has after the first block. -/
def updateStreamingTurns (services : StreamingServices) (s : StreamingState) :
    List QueueTurn :=
  (retryLoopTurns services (_updateStreaming_takeLoadRequests s)).map Prod.snd ++
    loadRequestTurns services (_updateStreaming_takeLoadRequests s).worker.workerData.loadRequests
      (retryQueuedImages services s.mQueuedImages.length 0 (_updateStreaming_takeLoadRequests s))

end TextureGpuManager

/-- Collaborators for the examples: staging textures that take any request and
never stall, an archive whose images are 64 x 64 with one mip, and boxes that
carry the mip level in their width. -/
def obligingServices : StreamingServices :=
  { staging := obligingStaging
    loadImage := fun _ _ =>
      { mNumMipmaps := 1, mWidth := 64, mHeight := 64, mDepthOrSlices := 1,
        mTextureType := TextureTypes.Type2D, mPixelFormat := 1, mBuffer := some 100 }
    getData := fun img mipLevel =>
      { width := img.mWidth >>> mipLevel, height := img.mHeight >>> mipLevel, depth := 1,
        numSlices := 1, data := img.mBuffer }
    getSizeBytes := fun width height depth slices _ _ => width * height * depth * slices * 4 }

/-- A state with one load request waiting on the main thread, no queued image and
one staging texture available to the worker. -/
def oneLoadRequest : StreamingState :=
  { mainData := { loadRequests := [{ name := "a.png", texture := 3, archive := 0 }] }
    worker := { workerData := { availableStagingTex := [5] } } }

/-- The mip levels of the `UploadFromStagingTex` commands in a command buffer. -/
def uploadedMips : List ObjCmd → List Nat
  | [] => []
  | ObjCmd.UploadFromStagingTex _ _ _ mipLevel :: rest => mipLevel :: uploadedMips rest
  | ObjCmd.TransitionToResident _ _ :: rest => uploadedMips rest

/-- The textures of the `TransitionToResident` commands in a command buffer. -/
def transitionedTextures : List ObjCmd → List Nat
  | [] => []
  | ObjCmd.UploadFromStagingTex _ _ _ _ :: rest => transitionedTextures rest
  | ObjCmd.TransitionToResident texture _ :: rest => texture :: transitionedTextures rest

/-! ## `loadFromFile` (lines 292-307) -/

namespace TextureGpuManager

/-- `TextureGpuManager::loadFromFile` (lines 292-307) on the registry `mEntries`
and the load requests of the main thread. `getArchiveToResource` is
`ResourceGroupManager::_getArchiveToResource`, a class outside this file, taken
as a function from the name and the group to the archive pointer; `retVal` is
the pointer `createTextureImpl` returns. An exception thrown by `createTexture`
leaves the function before the request is pushed. -/
def loadFromFile (toIdString : String → IdString)
    (getArchiveToResource : String → String → Nat) (mEntries : ResourceEntryMap)
    (loadRequests : List LoadRequest) (name resourceGroup : String)
    (pageOutStrategy : GpuPageOutStrategy) (textureFlags : Nat) (retVal : Nat) :
    Except ExceptionCodes (Nat × TextureGpu) × ResourceEntryMap × List LoadRequest :=
  let archive := getArchiveToResource name resourceGroup
  match createTexture toIdString mEntries name pageOutStrategy textureFlags retVal with
  | (Except.error thrown, entries) => (Except.error thrown, entries, loadRequests)
  | (Except.ok texture, entries) =>
    (Except.ok texture, entries,
      loadRequests ++ [{ name := name, texture := texture.1, archive := archive }])

end TextureGpuManager

/-! ## The exchange with the worker in `_update` (lines 641-657) -/

/-- The index of the main thread (line 76). -/
def c_mainThread : Nat := 0

/-- The index of the worker thread (line 77). -/
def c_workerThread : Nat := 1

/-- A call made on a mutex: by which thread, and for `tryLock` with what
result. -/
inductive MutexCall where
  | tryLock (thread : Nat) (succeeded : Bool)
  | unlock (thread : Nat)
  deriving DecidableEq, Repr

/-- Modelled from the spec: `LightweightMutex` is declared outside this file;
the spec calls `tryLock` a non-blocking attempt to take the streaming lock. The
mutex records the thread that holds it, if any, and the calls made on it. -/
structure LightweightMutex where
  owner : Option Nat := none
  calls : List MutexCall := []
  deriving DecidableEq, Repr

/-- Modelled from the spec: `LightweightMutex::tryLock` takes the mutex if no
thread holds it and says whether it did; it never waits. -/
def LightweightMutex.tryLock (m : LightweightMutex) (thread : Nat) :
    Bool × LightweightMutex :=
  if m.owner.isNone then
    (true, { owner := some thread, calls := m.calls ++ [MutexCall.tryLock thread true] })
  else
    (false, { m with calls := m.calls ++ [MutexCall.tryLock thread false] })

/-- Modelled from the spec: `LightweightMutex::unlock` releases the mutex; it
does not look at which thread calls it. -/
def LightweightMutex.unlock (m : LightweightMutex) (thread : Nat) : LightweightMutex :=
  { owner := none, calls := m.calls ++ [MutexCall.unlock thread] }

/-- The members the first block of `_update` works on: the thread data of both
threads and the streaming mutex. -/
structure ExchangeState where
  mainData : ThreadData := {}
  workerData : ThreadData := {}
  mMutex : LightweightMutex := {}
  deriving DecidableEq, Repr

namespace TextureGpuManager

/-- The first block of `TextureGpuManager::_update` (lines 643-657), run by the
main thread. The pending pools are swapped under `mPoolsPendingMutex`, which is
locked and unlocked around the swap. Then `tryLock` is called on `mMutex`; the
command buffers and the lists of used staging textures are swapped inside
`if( lockSucceeded )`; `mMutex.unlock()` on line 656 follows the closing brace
of that `if`. Line 654, `workerData.availableStagingTex.insert(  )`, has no
arguments and names nothing to insert; it leaves the list as it is. -/
def _update_exchangeWithWorker (s : ExchangeState) : ExchangeState :=
  let mainData := { s.mainData with poolsPending := s.workerData.poolsPending }
  let workerData := { s.workerData with poolsPending := s.mainData.poolsPending }
  let attempt := s.mMutex.tryLock c_mainThread
  let lockSucceeded := attempt.1
  let swapped : ThreadData × ThreadData :=
    if lockSucceeded then
      ({ mainData with objCmdBuffer := workerData.objCmdBuffer
                       usedStagingTex := workerData.usedStagingTex },
       { workerData with objCmdBuffer := mainData.objCmdBuffer
                         usedStagingTex := mainData.usedStagingTex })
    else
      (mainData, workerData)
  { mainData := swapped.1, workerData := swapped.2,
    mMutex := attempt.2.unlock c_mainThread }

end TextureGpuManager

/-- A state in which the worker holds the streaming mutex (it is inside
`_updateStreaming`, between lines 565 and 636) and has one command in its
buffer and a staging texture in use. -/
def workerHoldsMutex : ExchangeState :=
  { workerData := { objCmdBuffer := [ObjCmd.TransitionToResident 3 none],
                    usedStagingTex := [5] }
    mMutex := { owner := some c_workerThread } }

end Ogre

/-! # Properties -/

namespace Ogre

open TextureGpuManager

/-! ## The search loop of `_reserveSlotForTexture` -/

theorem get?_set_of_lt {α : Type} (l : List α) (i : Nat) (a : α) (h : i < l.length) :
    (l.set i a).get? i = some a := by
  rw [List.get?_eq_getElem?, List.getElem?_set_self h]

/-- The search loop stops at a pool or at `end`. -/
theorem searchPools_fst_le (texture : TextureGpu) :
    ∀ (pools : List TexturePool) (itor : Nat) (matchFound : Bool),
      (searchPools texture pools itor matchFound).1 ≤ itor + pools.length := by
  intro pools
  induction pools with
  | nil => intro itor matchFound; simp [searchPools]
  | cons pool rest ih =>
    intro itor matchFound
    unfold searchPools
    by_cases hm : matchFound = true
    · simp [hm]
    · rw [if_neg hm]
      have := ih (itor + 1) (poolMatches pool texture)
      simp only [List.length_cons]
      omega

/-- A reservation always puts the texture into a pool of the list: the position
`itor` computed by `_reserveSlotForTexture` is that of a pool, the texture is
the last entry of that pool's `usedSlots`, and the texture records that pool. -/
theorem reserve_places_texture (m : TextureGpuManager) (texture : Nat) :
    ∃ poolIdx pool,
      (m._reserveSlotForTexture texture).mTexturePool.get? poolIdx = some pool ∧
      ((m._reserveSlotForTexture texture).textures texture).getTexturePool = some poolIdx ∧
      pool.usedSlots.getLast? = some texture := by
  have hle := searchPools_fst_le (m.textures texture) m.mTexturePool 0 false
  unfold _reserveSlotForTexture
  by_cases hend : (searchPools (m.textures texture) m.mTexturePool 0 false).1 =
      m.mTexturePool.length
  · simp only [hend, decide_True, if_true, List.length_append, List.length_singleton,
      Nat.add_sub_cancel]
    have hget : (m.mTexturePool ++ [m.newPoolFor (m.textures texture)]).get?
        m.mTexturePool.length = some (m.newPoolFor (m.textures texture)) := by
      simp [List.get?_eq_getElem?]
    simp only [hget]
    refine ⟨m.mTexturePool.length, _, get?_set_of_lt _ _ _ (by simp), ?_, ?_⟩
    · simp [TextureGpu._notifyTextureSlotChanged, TextureGpu.getTexturePool]
    · simp
  · have hlt : (searchPools (m.textures texture) m.mTexturePool 0 false).1 <
        m.mTexturePool.length := by omega
    simp only [hend, decide_False, Bool.false_eq_true, if_false]
    obtain ⟨pool, hpool⟩ : ∃ pool, m.mTexturePool.get?
        (searchPools (m.textures texture) m.mTexturePool 0 false).1 = some pool := by
      rw [List.get?_eq_getElem?, List.getElem?_eq_getElem hlt]
      exact ⟨_, rfl⟩
    simp only [hpool]
    refine ⟨(searchPools (m.textures texture) m.mTexturePool 0 false).1, _,
      get?_set_of_lt _ _ _ hlt, ?_, ?_⟩
    · simp [TextureGpu._notifyTextureSlotChanged, TextureGpu.getTexturePool]
    · simp

/-- With no pools, a reservation creates the first pool and puts the texture into
its slice 0. -/
theorem reserve_with_no_pools (m : TextureGpuManager) (a : Nat) (h : m.mTexturePool = []) :
    (m._reserveSlotForTexture a).mTexturePool =
      [{ m.newPoolFor (m.textures a) with usedMemory := 1, usedSlots := [a] }] := by
  unfold _reserveSlotForTexture
  simp only [h, searchPools, List.length_nil, decide_True, if_true, List.nil_append,
    List.length_singleton, Nat.sub_self, List.get?_cons_zero, takeSlice, newPoolFor,
    List.getLast?_nil, List.set_cons_zero]

/-- With a single pool, whatever it holds and whatever the texture is, a
reservation leaves that pool as it is and appends a new pool for the texture:
after the one turn of the search loop `itor` is `end`. -/
theorem reserve_with_one_pool (m : TextureGpuManager) (b : Nat) (pool : TexturePool)
    (h : m.mTexturePool = [pool]) :
    (m._reserveSlotForTexture b).mTexturePool =
      [pool, { m.newPoolFor (m.textures b) with usedMemory := 1, usedSlots := [b] }] := by
  unfold _reserveSlotForTexture
  simp only [h, searchPools, Bool.false_eq_true, if_false, List.length_singleton, decide_True,
    if_true, List.singleton_append, List.length_cons, List.length_nil, Nat.add_sub_cancel,
    List.get?_cons_succ, List.get?_cons_zero, takeSlice, newPoolFor,
    List.getLast?_nil, List.set_cons_succ, List.set_cons_zero]
  rfl

/-- C1 (the code run on two identical textures): from a manager with no pools,
reserving slots for two textures of the same shape, whose pools have 16
slices, leaves two pools with one texture each, although the first pool has a
free slot when the second reservation is made: the search loop advances
`itor` past the pool it has just matched, reaches `end`, and a new pool is
created. -/
theorem reserve_two_identical_textures_makes_two_pools :
    managerOfSmall.mTexturePool = [] ∧
    managerOfSmall.textures 0 = managerOfSmall.textures 1 ∧
    managerOfSmall.getNumSlicesFor (managerOfSmall.textures 0) = 16 ∧
    (runSlotCalls [SlotCall.reserve 0] managerOfSmall).map
      (fun m => m.mTexturePool.map (fun pool => poolMatches pool (m.textures 1))) =
      some [true] ∧
    (runSlotCalls [SlotCall.reserve 0, SlotCall.reserve 1] managerOfSmall).map
      (fun m => m.mTexturePool.map poolSummary) =
      some [(1, 16, [], [0]), (1, 16, [], [1])] := by
  refine ⟨rfl, rfl, by decide, by decide, by decide⟩

/-- C2 (the code run where the claim fails): textures 0 and 3 are 5000 x 5000,
texture 1 is 6000 x 6000. After reserving 0 and 1 and releasing 0, pool 0
matches texture 3 and has a free slot while pool 1 is full and of another
shape. Reserving a slot for texture 3 puts it into pool 1, as slice 1 of a
master texture of one slice and of width 6000, and creates no pool. -/
theorem reserve_places_texture_in_pool_after_the_match :
    (runSlotCalls [SlotCall.reserve 0, SlotCall.reserve 1, SlotCall.release 0]
      managerOfTwoShapes).map
      (fun m => (m.mTexturePool.map (fun pool => poolMatches pool (m.textures 3)),
        m.mTexturePool.map TexturePool.hasFreeSlot)) =
      some ([true, false], [true, false]) ∧
    (runSlotCalls [SlotCall.reserve 0, SlotCall.reserve 1, SlotCall.release 0,
      SlotCall.reserve 3] managerOfTwoShapes).map
      (fun m => m.mTexturePool.map poolSummary) =
      some [(0, 1, [], []), (2, 1, [], [1, 3])] ∧
    (runSlotCalls [SlotCall.reserve 0, SlotCall.reserve 1, SlotCall.release 0,
      SlotCall.reserve 3] managerOfTwoShapes).map (fun m => slotOf m 3) =
      some (some 1, 1) ∧
    (runSlotCalls [SlotCall.reserve 0, SlotCall.reserve 1, SlotCall.release 0,
      SlotCall.reserve 3] managerOfTwoShapes).map
      (fun m => (m.mTexturePool.map (fun pool => pool.masterTexture.getWidth),
        (m.textures 3).getWidth)) =
      some ([5000, 6000], 5000) := by
  refine ⟨by rfl, by decide, by decide, by rfl⟩

/-- C3 (the code run where the claim fails): pool 1 holds the textures 1 (slice
0) and 3 (slice 1) with `usedMemory = 2`. Texture 1 is released, which
pushes slice 0 onto `availableSlots` of pool 1; a slot is then reserved for
texture 4, of the same shape as texture 1. Pool 1 is the pool the search
matches, yet texture 4 is given slice 0 of a newly created third pool, and
the released slice stays in `availableSlots` of pool 1. -/
theorem release_then_reserve_creates_pool :
    (runSlotCalls [SlotCall.reserve 0, SlotCall.reserve 1, SlotCall.release 0,
      SlotCall.reserve 3] managerOfTwoShapes).map
      (fun m => (m.mTexturePool.map poolSummary, slotOf m 1)) =
      some ([(0, 1, [], []), (2, 1, [], [1, 3])], (some 1, 0)) ∧
    managerOfTwoShapes.textures 4 = managerOfTwoShapes.textures 1 ∧
    (runSlotCalls [SlotCall.reserve 0, SlotCall.reserve 1, SlotCall.release 0,
      SlotCall.reserve 3, SlotCall.release 1] managerOfTwoShapes).map
      (fun m => (m.mTexturePool.map poolSummary,
        m.mTexturePool.map (fun pool => poolMatches pool (m.textures 4)))) =
      some ([(0, 1, [], []), (2, 1, [0], [3])], [false, true]) ∧
    (runSlotCalls [SlotCall.reserve 0, SlotCall.reserve 1, SlotCall.release 0,
      SlotCall.reserve 3, SlotCall.release 1, SlotCall.reserve 4] managerOfTwoShapes).map
      (fun m => (m.mTexturePool.map poolSummary, slotOf m 4)) =
      some ([(0, 1, [], []), (2, 1, [0], [3]), (1, 1, [], [4])], (some 2, 0)) := by
  refine ⟨by rfl, by rfl, by rfl, by rfl⟩

/-- C5 (the code run where the claim fails): with 5000 x 5000 textures, whose
pools have one slice, the calls reserve 0, reserve 1, release 0, reserve 2
reach a state in which pool 1 has `usedMemory = 2` for a master texture of
one slice; texture 2 was put there because pool 0, the one before it,
matched. -/
theorem usedMemory_exceeds_numSlices :
    (runSlotCalls [SlotCall.reserve 0, SlotCall.reserve 1, SlotCall.release 0,
      SlotCall.reserve 2] managerOfLarge).map
      (fun m => m.mTexturePool.map
        (fun pool => (pool.usedMemory, pool.masterTexture.getNumSlices,
          decide (pool.usedMemory ≤ pool.masterTexture.getNumSlices)))) =
      some [(0, 1, true), (2, 1, false)] := by
  decide

end Ogre

namespace Ogre

open TextureGpuManager

/-! ## The pool sizing policy -/

/-- C7: with the default pool parameters, `getNumSlicesFor` maps the larger of
width and height `m` to 16 if `m <= 256`, to 8 if `256 < m <= 512`, to 4 if
`512 < m <= 1024`, to 2 if `1024 < m <= 4096` and to 1 above. -/
theorem getNumSlicesFor_default (m : TextureGpuManager) (texture : TextureGpu)
    (hdefault : m.mDefaultPoolParameters = defaultPoolParameters) :
    m.getNumSlicesFor texture =
      if max texture.getWidth texture.getHeight ≤ 256 then 16
      else if max texture.getWidth texture.getHeight ≤ 512 then 8
      else if max texture.getWidth texture.getHeight ≤ 1024 then 4
      else if max texture.getWidth texture.getHeight ≤ 4096 then 2
      else 1 := by
  simp only [getNumSlicesFor, hdefault, getNumSlicesForLoop, defaultPoolParameters,
    List.getD_cons_zero, List.getD_cons_succ]

theorem getNumSlicesFor_default_witness :
    managerOfSmall.mDefaultPoolParameters = defaultPoolParameters ∧
    managerOfSmall.getNumSlicesFor smallTexture =
      if max smallTexture.getWidth smallTexture.getHeight ≤ 256 then 16
      else if max smallTexture.getWidth smallTexture.getHeight ≤ 512 then 8
      else if max smallTexture.getWidth smallTexture.getHeight ≤ 1024 then 4
      else if max smallTexture.getWidth smallTexture.getHeight ≤ 4096 then 2
      else 1 :=
  ⟨rfl, getNumSlicesFor_default managerOfSmall smallTexture rfl⟩

/-! ## The mip bitset -/

/-- C8 (the code run where the claim fails): a `QueuedImage` constructed with
`numMips = 1` has the words `[1, 1, 1, 1]`: the constructor's loop does not
clear `numMips` after writing the partial word, so every later word gets the
same mask. Level 64 is reported as queued although the image has one mip. -/
theorem construct_one_mip_queues_level_64 (srcImage : Image2) (dstTexture : Nat) :
    (QueuedImage.construct srcImage 1 dstTexture).mipLevelBitSet = [1, 1, 1, 1] ∧
    (QueuedImage.construct srcImage 1 dstTexture).isMipQueued 64 = true ∧
    (QueuedImage.construct srcImage 1 dstTexture).isMipQueued 128 = true ∧
    (QueuedImage.construct srcImage 1 dstTexture).isMipQueued 192 = true := by
  refine ⟨rfl, ?_, ?_, ?_⟩ <;>
    simp [QueuedImage.isMipQueued, QueuedImage.construct, QueuedImage.fillMipLevelBitSet]

/-- C9 (the code run where the claim fails): a `QueuedImage` constructed with 65
mips, after `unqueueMip` of the levels 0 to 63, has level 64 as its lowest
queued level, and `getMinMipLevel` returns 0: it returns the bit position
inside the first nonzero word without adding 64 times the word index. -/
theorem getMinMipLevel_ignores_word_index :
    ((List.range 64).foldl QueuedImage.unqueueMip
      (QueuedImage.construct {} 65 0)).mipLevelBitSet = [0, 1, 1, 1] ∧
    (∀ i, i < 64 → ((List.range 64).foldl QueuedImage.unqueueMip
      (QueuedImage.construct {} 65 0)).isMipQueued i = false) ∧
    ((List.range 64).foldl QueuedImage.unqueueMip
      (QueuedImage.construct {} 65 0)).isMipQueued 64 = true ∧
    ((List.range 64).foldl QueuedImage.unqueueMip
      (QueuedImage.construct {} 65 0)).getMinMipLevel = 0 := by
  refine ⟨by decide, by decide, by decide, by decide⟩

/-- C10 (counterexample): with only bit 255 set, `getMaxMipLevelPlusOne` returns 0:
the value 256 does not fit the 8-bit result. -/
theorem getMaxMipLevelPlusOne_bit_255 :
    ({ mipLevelBitSet := [0, 0, 0, 2 ^ 63] } : QueuedImage).isMipQueued 255 = true ∧
    ({ mipLevelBitSet := [0, 0, 0, 2 ^ 63] } : QueuedImage).getMaxMipLevelPlusOne = 0 := by
  refine ⟨by decide, by decide⟩

end Ogre

namespace Ogre

open TextureGpuManager

/-! ## Releasing a slot -/

theorem set_perm_cons_eraseIdx {α : Type} (x : α) :
    ∀ (d : List α) (i : Nat), i < d.length → (d.set i x).Perm (x :: d.eraseIdx i) := by
  intro d
  induction d with
  | nil => intro i h; simp at h
  | cons y d ih =>
    intro i h
    cases i with
    | zero => simp
    | succ i =>
      have hi : i < d.length := by simpa using h
      simp only [List.set_cons_succ, List.eraseIdx_cons_succ]
      exact ((ih i hi).cons y).trans (List.Perm.swap x y _)

theorem efficientVectorRemove_perm_eraseIdx {α : Type} (l : List α) (idx : Nat)
    (h : idx < l.length) : (efficientVectorRemove l idx).Perm (l.eraseIdx idx) := by
  unfold efficientVectorRemove
  cases hlast : l.getLast? with
  | none =>
    rw [List.getLast?_eq_none_iff] at hlast
    subst hlast
    simp at h
  | some back =>
    have hl : l.dropLast ++ [back] = l := List.dropLast_append_getLast? back hlast
    generalize l.dropLast = d at hl
    subst hl
    simp only
    by_cases hd : idx < d.length
    · rw [List.set_append_left idx back hd, List.dropLast_concat,
        List.eraseIdx_append_of_lt_length hd]
      exact (set_perm_cons_eraseIdx back d idx hd).trans
        (List.perm_append_singleton back _).symm
    · have hle : d.length ≤ idx := Nat.le_of_not_lt hd
      have hidx : idx = d.length := by
        simp only [List.length_append, List.length_singleton] at h
        omega
      subst hidx
      rw [List.set_append_right _ back (Nat.le_refl _),
        List.eraseIdx_append_of_length_le (Nat.le_refl _)]
      simp

theorem eraseIdx_indexOf (t : Nat) : ∀ l : List Nat, l.eraseIdx (l.indexOf t) = l.erase t := by
  intro l
  induction l with
  | nil => simp
  | cons y l ih =>
    by_cases hy : y = t
    · subst hy
      simp
    · rw [List.indexOf_cons_ne _ hy, List.eraseIdx_cons_succ, ih, List.erase_cons_tail]
      simpa using hy

end Ogre

namespace Ogre

open TextureGpuManager

/-- C4: for a texture that is in the `usedSlots` of the pool it records, with slice
`s`, `_releaseSlotFromTexture` succeeds and changes that pool as follows.
`usedSlots` becomes a rearrangement of the old list with one entry of the
texture taken out: the texture is listed once less (not at all if it was
listed once) and every other texture is kept. If `s + 1 = usedMemory`,
`usedMemory` drops by one and `availableSlots` is unchanged; otherwise
`usedMemory` is unchanged and `s` is appended to `availableSlots`. Afterwards
the texture records no pool and slice 0. Other pools, the master texture and
other textures are unchanged. -/
theorem releaseSlotFromTexture_spec (m : TextureGpuManager) (texture poolIdx : Nat)
    (pool : TexturePool)
    (hpool : (m.textures texture).getTexturePool = some poolIdx)
    (hget : m.mTexturePool.get? poolIdx = some pool)
    (hused : texture ∈ pool.usedSlots) :
    ∃ next released,
      m._releaseSlotFromTexture texture = some next ∧
      next.mTexturePool.get? poolIdx = some released ∧
      released.usedSlots.Perm (pool.usedSlots.erase texture) ∧
      released.usedSlots.count texture + 1 = pool.usedSlots.count texture ∧
      (pool.usedSlots.Nodup → texture ∉ released.usedSlots) ∧
      (∀ other, other ≠ texture →
        (other ∈ released.usedSlots ↔ other ∈ pool.usedSlots)) ∧
      ((m.textures texture).getInternalSliceStart + 1 = pool.usedMemory →
        released.usedMemory + 1 = pool.usedMemory ∧
        released.availableSlots = pool.availableSlots) ∧
      ((m.textures texture).getInternalSliceStart + 1 ≠ pool.usedMemory →
        released.usedMemory = pool.usedMemory ∧
        released.availableSlots =
          pool.availableSlots ++ [(m.textures texture).getInternalSliceStart]) ∧
      (next.textures texture).getTexturePool = none ∧
      (next.textures texture).getInternalSliceStart = 0 ∧
      released.masterTexture = pool.masterTexture ∧
      (∀ other, other ≠ poolIdx →
        next.mTexturePool.get? other = m.mTexturePool.get? other) ∧
      (∀ other, other ≠ texture → next.textures other = m.textures other) := by
  have hlt : pool.usedSlots.indexOf texture < pool.usedSlots.length :=
    List.indexOf_lt_length.2 hused
  have hperm : (efficientVectorRemove pool.usedSlots (pool.usedSlots.indexOf texture)).Perm
      (pool.usedSlots.erase texture) := by
    rw [← eraseIdx_indexOf]
    exact efficientVectorRemove_perm_eraseIdx _ _ hlt
  have hcount : (efficientVectorRemove pool.usedSlots (pool.usedSlots.indexOf texture)).count
      texture + 1 = pool.usedSlots.count texture := by
    rw [hperm.count_eq, List.count_erase_self]
    have : 0 < pool.usedSlots.count texture := List.count_pos_iff.2 hused
    omega
  have hgone : pool.usedSlots.Nodup →
      texture ∉ efficientVectorRemove pool.usedSlots (pool.usedSlots.indexOf texture) :=
    fun hnd hmem => hnd.not_mem_erase (hperm.mem_iff.1 hmem)
  have hothers : ∀ other, other ≠ texture →
      (other ∈ efficientVectorRemove pool.usedSlots (pool.usedSlots.indexOf texture) ↔
        other ∈ pool.usedSlots) := by
    intro other hne
    rw [hperm.mem_iff]
    exact List.mem_erase_of_ne hne
  have hidx : poolIdx < m.mTexturePool.length := by
    rw [List.get?_eq_getElem?] at hget
    exact (List.getElem?_eq_some_iff.1 hget).1
  unfold _releaseSlotFromTexture
  simp only [hpool, hget, if_neg (Nat.ne_of_lt hlt)]
  by_cases htop : pool.usedMemory = (m.textures texture).getInternalSliceStart + 1
  · simp only [if_pos htop]
    refine ⟨_, { pool with
        usedSlots := efficientVectorRemove pool.usedSlots (pool.usedSlots.indexOf texture)
        usedMemory := pool.usedMemory - 1 },
      rfl, ?_, hperm, hcount, hgone, hothers, ?_, ?_, ?_, ?_, rfl, ?_, ?_⟩
    · simp only [List.get?_eq_getElem?, List.getElem?_set_self hidx]
    · intro _; exact ⟨by simp only []; omega, rfl⟩
    · intro hne; exact absurd htop.symm hne
    · simp [TextureGpu._notifyTextureSlotChanged, TextureGpu.getTexturePool]
    · simp [TextureGpu._notifyTextureSlotChanged, TextureGpu.getInternalSliceStart]
    · intro other hne
      simp only [List.get?_eq_getElem?]
      rw [List.getElem?_set_ne (Ne.symm hne)]
    · intro other hne
      simp only [if_neg hne]
  · simp only [if_neg htop]
    refine ⟨_, { pool with
        usedSlots := efficientVectorRemove pool.usedSlots (pool.usedSlots.indexOf texture)
        availableSlots := pool.availableSlots ++ [(m.textures texture).getInternalSliceStart] },
      rfl, ?_, hperm, hcount, hgone, hothers, ?_, ?_, ?_, ?_, rfl, ?_, ?_⟩
    · simp only [List.get?_eq_getElem?, List.getElem?_set_self hidx]
    · intro h; exact absurd h.symm htop
    · intro _; exact ⟨rfl, rfl⟩
    · simp [TextureGpu._notifyTextureSlotChanged, TextureGpu.getTexturePool]
    · simp [TextureGpu._notifyTextureSlotChanged, TextureGpu.getInternalSliceStart]
    · intro other hne
      simp only [List.get?_eq_getElem?]
      rw [List.getElem?_set_ne (Ne.symm hne)]
    · intro other hne
      simp only [if_neg hne]

theorem releaseSlotFromTexture_spec_witness :
    (managerWithOneSlot.textures 0).getTexturePool = some 0 ∧
    managerWithOneSlot.mTexturePool.get? 0 = some poolWithOneSlot ∧
    0 ∈ poolWithOneSlot.usedSlots ∧
    ∃ next released,
      managerWithOneSlot._releaseSlotFromTexture 0 = some next ∧
      next.mTexturePool.get? 0 = some released ∧
      released.usedSlots.Perm (poolWithOneSlot.usedSlots.erase 0) ∧
      released.usedMemory + 1 = poolWithOneSlot.usedMemory ∧
      released.availableSlots = poolWithOneSlot.availableSlots ∧
      (next.textures 0).getTexturePool = none ∧
      (next.textures 0).getInternalSliceStart = 0 := by
  refine ⟨rfl, rfl, by decide, ?_⟩
  obtain ⟨next, released, h1, h2, h3, _, _, _, h4, _, h5, h6, _⟩ :=
    releaseSlotFromTexture_spec managerWithOneSlot 0 0 poolWithOneSlot rfl rfl (by decide)
  exact ⟨next, released, h1, h2, h3, (h4 rfl).1, (h4 rfl).2, h5, h6⟩

end Ogre

namespace Ogre

/-! ## Bit lengths and `getMaxMipLevelPlusOne` -/

theorem bitLength_le_of_lt : ∀ (n w k : Nat), w < 2 ^ k → bitLength n w ≤ k := by
  intro n
  induction n with
  | zero => intro w k _; simp [bitLength]
  | succ n ih =>
    intro w k hk
    unfold bitLength
    by_cases hw : w = 0
    · simp [hw]
    · rw [if_neg hw]
      cases k with
      | zero =>
        simp at hk
        exact absurd hk hw
      | succ k =>
        have : w / 2 < 2 ^ k := by
          rw [Nat.pow_succ] at hk
          omega
        have := ih (w / 2) k this
        omega

theorem bitLength_le (n w : Nat) : bitLength n w ≤ n := by
  induction n generalizing w with
  | zero => simp [bitLength]
  | succ n ih =>
    unfold bitLength
    by_cases hw : w = 0
    · simp [hw]
    · rw [if_neg hw]
      have := ih (w / 2)
      omega

theorem lt_two_pow_bitLength : ∀ (n w : Nat), w < 2 ^ n → w < 2 ^ bitLength n w := by
  intro n
  induction n with
  | zero => intro w hw; simpa [bitLength] using hw
  | succ n ih =>
    intro w hw
    unfold bitLength
    by_cases h0 : w = 0
    · simp [h0]
    · rw [if_neg h0]
      have h2 : w / 2 < 2 ^ n := by
        rw [Nat.pow_succ] at hw
        omega
      have := ih (w / 2) h2
      rw [Nat.pow_succ]
      omega

theorem two_pow_bitLength_le : ∀ (n w : Nat), w ≠ 0 → 2 ^ (bitLength n w - 1) ≤ w := by
  intro n
  induction n with
  | zero =>
    intro w hw
    simp only [bitLength, Nat.zero_sub, Nat.pow_zero]
    omega
  | succ n ih =>
    intro w hw
    unfold bitLength
    rw [if_neg hw, Nat.add_sub_cancel]
    by_cases h2 : w / 2 = 0
    · have : bitLength n (w / 2) = 0 := by
        rw [h2]
        cases n <;> simp [bitLength]
      rw [this]
      simp only [Nat.pow_zero]
      omega
    · have := ih (w / 2) h2
      cases hb : bitLength n (w / 2) with
      | zero =>
        simp only [Nat.pow_zero]
        omega
      | succ b =>
        rw [hb, Nat.add_sub_cancel] at this
        rw [Nat.pow_succ]
        omega

theorem bitLength_pos (n w : Nat) (hw : w ≠ 0) (hn : n ≠ 0) : 1 ≤ bitLength n w := by
  cases n with
  | zero => exact absurd rfl hn
  | succ n =>
    unfold bitLength
    rw [if_neg hw]
    omega

theorem testBit_bitLength_sub_one (n w : Nat) (hw : w ≠ 0) (hn : n ≠ 0) (hlt : w < 2 ^ n) :
    w.testBit (bitLength n w - 1) = true := by
  have hlo := two_pow_bitLength_le n w hw
  have hhi := lt_two_pow_bitLength n w hlt
  have hpos := bitLength_pos n w hw hn
  have hsplit : bitLength n w = (bitLength n w - 1) + 1 := by omega
  rw [hsplit, Nat.pow_succ] at hhi
  rw [Nat.testBit_to_div_mod]
  have hdiv : w / 2 ^ (bitLength n w - 1) = 1 :=
    Nat.div_eq_of_lt_le (by omega) (by omega)
  simp [hdiv]

theorem testBit_of_bitLength_le (n w k : Nat) (hlt : w < 2 ^ n) (hk : bitLength n w ≤ k) :
    w.testBit k = false := by
  apply Nat.testBit_lt_two_pow
  exact Nat.lt_of_lt_of_le (lt_two_pow_bitLength n w hlt) (Nat.pow_le_pow_right (by omega) hk)

theorem isMipQueued_eq_testBit (q : QueuedImage) (i : Nat) :
    q.isMipQueued i = (q.mipLevelBitSet.getD (i / 64) 0).testBit (i % 64) := by
  unfold QueuedImage.isMipQueued
  simp only [Nat.one_shiftLeft, Nat.and_two_pow]
  cases h : (q.mipLevelBitSet.getD (i / 64) 0).testBit (i % 64) <;> simp [h]

end Ogre

namespace Ogre

theorem word_lt_of_bit_63_clear (w : Nat) (hw : w < 2 ^ 64) (h63 : w.testBit 63 = false) :
    w < 2 ^ 63 := by
  apply Nat.lt_pow_two_of_testBit
  intro i hi
  by_cases h : i = 63
  · rw [h]; exact h63
  · apply Nat.testBit_lt_two_pow
    exact Nat.lt_of_lt_of_le hw (Nat.pow_le_pow_right (by omega) (by omega))

theorem getMaxMipLevelPlusOneLoop_spec (q : QueuedImage)
    (hwords : ∀ i, i < 4 → q.mipLevelBitSet.getD i 0 < 2 ^ 64)
    (h255 : q.isMipQueued 255 = false) :
    ∀ n, n ≤ 4 →
      q.getMaxMipLevelPlusOneLoop n ≤ 64 * n ∧
      q.getMaxMipLevelPlusOneLoop n < 256 ∧
      (∀ i, i < 64 * n → q.isMipQueued i = true → i < q.getMaxMipLevelPlusOneLoop n) ∧
      (q.getMaxMipLevelPlusOneLoop n ≠ 0 →
        q.isMipQueued (q.getMaxMipLevelPlusOneLoop n - 1) = true) := by
  intro n
  induction n with
  | zero =>
    intro _
    refine ⟨by simp [QueuedImage.getMaxMipLevelPlusOneLoop],
      by simp [QueuedImage.getMaxMipLevelPlusOneLoop], ?_, ?_⟩
    · intro i hi; omega
    · intro h; exact absurd rfl h
  | succ n ih =>
    intro hn
    obtain ⟨ih1, ih2, ih3, ih4⟩ := ih (by omega)
    have hw := hwords n (by omega)
    unfold QueuedImage.getMaxMipLevelPlusOneLoop
    by_cases h0 : q.mipLevelBitSet.getD n 0 = 0
    · rw [if_neg (by simpa using h0)]
      refine ⟨by omega, ih2, ?_, ih4⟩
      intro i hi hq
      by_cases hlow : i < 64 * n
      · exact ih3 i hlow hq
      · have hdiv : i / 64 = n := by omega
        rw [isMipQueued_eq_testBit, hdiv, h0] at hq
        simp at hq
    · rw [if_pos h0]
      have hble := bitLength_le 64 (q.mipLevelBitSet.getD n 0)
      have hpos := bitLength_pos 64 (q.mipLevelBitSet.getD n 0) h0 (by omega)
      have hclz : 64 - clz64 (q.mipLevelBitSet.getD n 0) =
          bitLength 64 (q.mipLevelBitSet.getD n 0) := by
        unfold clz64 builtin_clzl
        rw [if_neg h0]
        omega
      have hsmall : bitLength 64 (q.mipLevelBitSet.getD n 0) + 64 * n < 256 := by
        by_cases h3 : n = 3
        · subst h3
          have hbit : (q.mipLevelBitSet.getD 3 0).testBit 63 = false := by
            have := h255
            rw [isMipQueued_eq_testBit] at this
            simpa using this
          have := bitLength_le_of_lt 64 _ 63 (word_lt_of_bit_63_clear _ hw hbit)
          omega
        · omega
      rw [hclz, Nat.mod_eq_of_lt hsmall]
      refine ⟨by omega, hsmall, ?_, ?_⟩
      · intro i hi hq
        by_cases hlow : i < 64 * n
        · omega
        · have hdiv : i / 64 = n := by omega
          rw [isMipQueued_eq_testBit, hdiv] at hq
          by_cases hk : bitLength 64 (q.mipLevelBitSet.getD n 0) ≤ i % 64
          · rw [testBit_of_bitLength_le 64 _ _ hw hk] at hq
            exact absurd hq (by simp)
          · omega
      · intro _
        have hdiv : (bitLength 64 (q.mipLevelBitSet.getD n 0) + 64 * n - 1) / 64 = n := by
          omega
        have hmod : (bitLength 64 (q.mipLevelBitSet.getD n 0) + 64 * n - 1) % 64 =
            bitLength 64 (q.mipLevelBitSet.getD n 0) - 1 := by
          omega
        rw [isMipQueued_eq_testBit, hdiv, hmod]
        exact testBit_bitLength_sub_one 64 _ h0 (by omega) hw

/-- C10 (as amended): for a bitset of four 64-bit words in which bit 255 is
clear, `getMaxMipLevelPlusOne` is one plus the index of the highest set bit,
counted across the four words: it is 0 exactly when no bit is set, every set
bit lies below it, and when it is nonzero the bit just below it is set. -/
theorem getMaxMipLevelPlusOne_spec (q : QueuedImage)
    (hwords : ∀ i, i < 4 → q.mipLevelBitSet.getD i 0 < 2 ^ 64)
    (h255 : q.isMipQueued 255 = false) :
    (q.getMaxMipLevelPlusOne = 0 ↔ ∀ i, i < 256 → q.isMipQueued i = false) ∧
    (∀ i, i < 256 → q.isMipQueued i = true → i < q.getMaxMipLevelPlusOne) ∧
    (q.getMaxMipLevelPlusOne ≠ 0 →
      q.isMipQueued (q.getMaxMipLevelPlusOne - 1) = true) ∧
    q.getMaxMipLevelPlusOne < 256 := by
  obtain ⟨_, h2, h3, h4⟩ := getMaxMipLevelPlusOneLoop_spec q hwords h255 4 (Nat.le_refl 4)
  unfold QueuedImage.getMaxMipLevelPlusOne
  refine ⟨⟨?_, ?_⟩, ?_, h4, h2⟩
  · intro hzero i hi
    cases hq : q.isMipQueued i with
    | false => rfl
    | true =>
      have := h3 i (by omega) hq
      omega
  · intro hall
    by_contra hne
    have hset := h4 hne
    rw [hall _ (by omega)] at hset
    exact absurd hset (by simp)
  · intro i hi hq
    exact h3 i (by omega) hq

theorem getMaxMipLevelPlusOne_spec_witness :
    (∀ i, i < 4 → sparseQueuedImage.mipLevelBitSet.getD i 0 < 2 ^ 64) ∧
    sparseQueuedImage.isMipQueued 255 = false ∧
    ((sparseQueuedImage.getMaxMipLevelPlusOne = 0 ↔
      ∀ i, i < 256 → sparseQueuedImage.isMipQueued i = false) ∧
    (∀ i, i < 256 → sparseQueuedImage.isMipQueued i = true →
      i < sparseQueuedImage.getMaxMipLevelPlusOne) ∧
    (sparseQueuedImage.getMaxMipLevelPlusOne ≠ 0 →
      sparseQueuedImage.isMipQueued (sparseQueuedImage.getMaxMipLevelPlusOne - 1) = true) ∧
    sparseQueuedImage.getMaxMipLevelPlusOne < 256) :=
  ⟨by decide, by decide, getMaxMipLevelPlusOne_spec sparseQueuedImage (by decide) (by decide)⟩

end Ogre

namespace Ogre

open TextureGpuManager

/-! ## A pool that grows past the range of its 16-bit slice index -/

theorem runSlotCalls_append (a b : List SlotCall) :
    ∀ m, runSlotCalls (a ++ b) m = (runSlotCalls a m).bind (runSlotCalls b) := by
  induction a with
  | nil => intro m; rfl
  | cons c a ih =>
    intro m
    cases c with
    | reserve texture =>
      simp only [List.cons_append, runSlotCalls]
      split
      · rfl
      · exact ih _
    | release texture =>
      simp only [List.cons_append, runSlotCalls]
      cases m._releaseSlotFromTexture texture with
      | none => rfl
      | some next => exact ih next

theorem manager_ext (a b : TextureGpuManager)
    (h1 : a.mDefaultPoolParameters = b.mDefaultPoolParameters)
    (h2 : a.mTexturePool = b.mTexturePool) (h3 : a.workerData = b.workerData)
    (h4 : ∀ h, a.textures h = b.textures h) : a = b := by
  cases a
  cases b
  simp only [TextureGpuManager.mk.injEq]
  exact ⟨h1, h2, h3, funext h4⟩

theorem crowdedManager_start :
    runSlotCalls [SlotCall.reserve 0, SlotCall.reserve 1, SlotCall.release 0] managerOfLarge =
      some (crowdedManager 1) := by
  have h : ∃ m, runSlotCalls [SlotCall.reserve 0, SlotCall.reserve 1, SlotCall.release 0]
      managerOfLarge = some m ∧ m = crowdedManager 1 := by
    refine ⟨_, rfl, ?_⟩
    apply manager_ext
    · rfl
    · rfl
    · rfl
    · intro h
      match h with
      | 0 => rfl
      | 1 => rfl
      | h + 2 => rfl
  obtain ⟨m, hm, heq⟩ := h
  rw [hm, heq]

theorem crowdedManager_fresh (n : Nat) :
    (crowdedManager n).textures (n + 1) = largeTexture := by
  have : ¬ (1 ≤ n + 1 ∧ n + 1 ≤ n) := by omega
  simp only [crowdedManager, if_neg this]

theorem crowdedManager_reserve (n : Nat) :
    (crowdedManager n)._reserveSlotForTexture (n + 1) = crowdedManager (n + 1) := by
  have hsearch : searchPools largeTexture (crowdedManager n).mTexturePool 0 false =
      (1, true) := rfl
  have hlen : (crowdedManager n).mTexturePool.length = 2 := rfl
  have hget : (crowdedManager n).mTexturePool.get? 1 = some (crowdedPool (n % 65536) n) := rfl
  have htake : takeSlice (crowdedPool (n % 65536) n) =
      (n % 65536, crowdedPool ((n % 65536 + 1) % 65536) n) := rfl
  have hne : ¬ (1 = 2) := by decide
  unfold _reserveSlotForTexture
  simp only [crowdedManager_fresh, hsearch, hlen, hne, decide_False, Bool.false_eq_true,
    if_false, hget, htake]
  apply manager_ext
  · rfl
  · have h1 : (n % 65536 + 1) % 65536 = (n + 1) % 65536 := by omega
    have h2 : List.range' 1 n ++ [n + 1] = List.range' 1 (n + 1) := by
      rw [List.range'_concat]
      simp [Nat.add_comm]
    simp only [crowdedManager, crowdedPool, h1, h2]
    rfl
  · rfl
  · intro h
    simp only [crowdedManager]
    by_cases hh : h = n + 1
    · subst hh
      have : 1 ≤ n + 1 ∧ n + 1 ≤ n + 1 := by omega
      simp only [if_true, if_pos this, Nat.add_sub_cancel]
    · rw [if_neg hh]
      by_cases hin : 1 ≤ h ∧ h ≤ n
      · have : 1 ≤ h ∧ h ≤ n + 1 := by omega
        rw [if_pos hin, if_pos this]
      · have : ¬ (1 ≤ h ∧ h ≤ n + 1) := by omega
        rw [if_neg hin, if_neg this]

theorem crowdedManager_run (k : Nat) :
    ∀ n, runSlotCalls ((List.range' (n + 1) k).map SlotCall.reserve) (crowdedManager n) =
      some (crowdedManager (n + k)) := by
  induction k with
  | zero => intro n; rfl
  | succ k ih =>
    intro n
    have hfree : ((crowdedManager n).textures (n + 1)).getTexturePool.isSome = false := by
      rw [crowdedManager_fresh]
      rfl
    simp only [List.range'_succ, List.map_cons, runSlotCalls, hfree, Bool.false_eq_true,
      if_false, crowdedManager_reserve]
    rw [ih (n + 1)]
    congr 2
    omega

theorem crowdedManager_slotOf (n h : Nat) (h1 : 1 ≤ h) (hn : h ≤ n) :
    slotOf (crowdedManager n) h = (some 1, (h - 1) % 65536) := by
  have : 1 ≤ h ∧ h ≤ n := ⟨h1, hn⟩
  simp only [slotOf, crowdedManager, if_pos this]
  rfl

/-- C6 (the code run where the claim fails): following the calling protocol from
a manager with no pools, the calls reserve 0, reserve 1, release 0 and then
reserve 2, ..., reserve 65537 put the textures 1 to 65537 into pool 1, because
the empty pool 0 before it keeps matching. The slice index is 16 bits wide,
so the 65537th texture of the pool is given slice 0 again: the textures 1 and
65537 are both in `usedSlots` of pool 1 and both record slice 0. -/
theorem slice_shared_after_index_wraps :
    ∃ m pool,
      runSlotCalls ([SlotCall.reserve 0, SlotCall.reserve 1, SlotCall.release 0] ++
        (List.range' 2 65536).map SlotCall.reserve) managerOfLarge = some m ∧
      m.mTexturePool.get? 1 = some pool ∧
      1 ∈ pool.usedSlots ∧ 65537 ∈ pool.usedSlots ∧
      slotOf m 1 = (some 1, 0) ∧ slotOf m 65537 = (some 1, 0) := by
  apply Exists.intro (crowdedManager 65537)
  apply Exists.intro (crowdedPool (65537 % 65536) 65537)
  refine And.intro ?_ (And.intro ?_ (And.intro ?_ (And.intro ?_ (And.intro ?_ ?_))))
  · have hrun : runSlotCalls ((List.range' 2 65536).map SlotCall.reserve) (crowdedManager 1) =
        some (crowdedManager 65537) := crowdedManager_run 65536 1
    rw [runSlotCalls_append, crowdedManager_start, Option.some_bind, hrun]
  · simp only [crowdedManager]
    rfl
  · simp only [crowdedPool, List.mem_range'_1]
    omega
  · simp only [crowdedPool, List.mem_range'_1]
    omega
  · exact crowdedManager_slotOf 65537 1 (by omega) (by omega)
  · exact crowdedManager_slotOf 65537 65537 (by omega) (by omega)

end Ogre

namespace Ogre

/-! ## `unqueueMip` and the range scanned by the streaming loop -/

theorem testBit_clear_mask (k j : Nat) (hk : k < 64) :
    (0xffffffffffffffff - 1 <<< k).testBit j = (decide (j < 64) && !decide (k = j)) := by
  have hpow : (2 : Nat) ^ k < 2 ^ 64 := Nat.pow_lt_pow_right (by omega) hk
  have h : 0xffffffffffffffff - 1 <<< k = 2 ^ 64 - (2 ^ k + 1) := by
    rw [Nat.one_shiftLeft]
    omega
  rw [h, Nat.testBit_two_pow_sub_succ hpow, Nat.testBit_two_pow]

theorem getD_unqueueMip_same (q : QueuedImage) (l : Nat) (hlen : q.mipLevelBitSet.length = 4)
    (hl : l < 256) :
    (q.unqueueMip l).mipLevelBitSet.getD (l / 64) 0 =
      q.mipLevelBitSet.getD (l / 64) 0 &&& (0xffffffffffffffff - 1 <<< (l % 64)) := by
  have hidx : l / 64 < q.mipLevelBitSet.length := by omega
  simp only [QueuedImage.unqueueMip, List.getD_eq_getElem?_getD, List.getElem?_set_self hidx,
    Option.getD_some]

theorem getD_unqueueMip_other (q : QueuedImage) (l j : Nat) (hne : j ≠ l / 64) :
    (q.unqueueMip l).mipLevelBitSet.getD j 0 = q.mipLevelBitSet.getD j 0 := by
  simp only [QueuedImage.unqueueMip, List.getD_eq_getElem?_getD,
    List.getElem?_set_ne (Ne.symm hne)]

/-- C12: on a bitset of four words, after `unqueueMip(l)` for a level `l` in
0..255 the level `l` is not queued any more, and every other level `m` is
queued exactly if it was queued before the call. -/
theorem unqueueMip_clears_only_that_level (q : QueuedImage) (l m : Nat)
    (hlen : q.mipLevelBitSet.length = 4) (hl : l < 256) :
    (q.unqueueMip l).isMipQueued l = false ∧
    (m ≠ l → (q.unqueueMip l).isMipQueued m = q.isMipQueued m) := by
  have hk : l % 64 < 64 := Nat.mod_lt _ (by omega)
  constructor
  · rw [isMipQueued_eq_testBit, getD_unqueueMip_same q l hlen hl, Nat.testBit_and,
      testBit_clear_mask _ _ hk]
    simp
  · intro hne
    rw [isMipQueued_eq_testBit, isMipQueued_eq_testBit]
    by_cases hw : m / 64 = l / 64
    · have hbit : l % 64 ≠ m % 64 := by omega
      have hm : m % 64 < 64 := Nat.mod_lt _ (by omega)
      rw [hw, getD_unqueueMip_same q l hlen hl, Nat.testBit_and, testBit_clear_mask _ _ hk]
      simp [hbit, hm]
    · rw [getD_unqueueMip_other q l _ hw]

theorem unqueueMip_clears_only_that_level_witness :
    sparseQueuedImage.mipLevelBitSet.length = 4 ∧ 67 < 256 ∧
    (sparseQueuedImage.unqueueMip 67).isMipQueued 67 = false ∧
    ((128 : Nat) ≠ 67 →
      (sparseQueuedImage.unqueueMip 67).isMipQueued 128 = sparseQueuedImage.isMipQueued 128) :=
  ⟨rfl, by decide,
    unqueueMip_clears_only_that_level sparseQueuedImage 67 128 rfl (by decide)⟩

end Ogre

namespace Ogre

set_option maxRecDepth 20000 in
theorem fillMipLevelBitSet_words :
    ∀ numMips, numMips < 256 →
      (QueuedImage.fillMipLevelBitSet 4 numMips).length = 4 ∧
      (QueuedImage.fillMipLevelBitSet 4 numMips).getD 0 0 < 2 ^ 64 ∧
      (QueuedImage.fillMipLevelBitSet 4 numMips).getD 1 0 < 2 ^ 64 ∧
      (QueuedImage.fillMipLevelBitSet 4 numMips).getD 2 0 < 2 ^ 64 ∧
      (QueuedImage.fillMipLevelBitSet 4 numMips).getD 3 0 < 2 ^ 63 := by
  decide

theorem getD_lt_of_length_four (bits : List Nat) (hlen : bits.length = 4)
    (h0 : bits.getD 0 0 < 2 ^ 64) (h1 : bits.getD 1 0 < 2 ^ 64) (h2 : bits.getD 2 0 < 2 ^ 64)
    (h3 : bits.getD 3 0 < 2 ^ 64) : ∀ i, bits.getD i 0 < 2 ^ 64 := by
  intro i
  match i with
  | 0 => exact h0
  | 1 => exact h1
  | 2 => exact h2
  | 3 => exact h3
  | i + 4 =>
    have hnone : bits[i + 4]? = none := List.getElem?_eq_none (by omega)
    simp [List.getD_eq_getElem?_getD, hnone]

theorem construct_fourWords (srcImage : Image2) (numMips dstTexture : Nat) (h : numMips < 256) :
    (QueuedImage.construct srcImage numMips dstTexture).FourWords ∧
    (QueuedImage.construct srcImage numMips dstTexture).mipLevelBitSet.getD 3 0 < 2 ^ 63 := by
  obtain ⟨hlen, h0, h1, h2, h3⟩ := fillMipLevelBitSet_words numMips h
  refine ⟨⟨hlen, ?_⟩, h3⟩
  exact getD_lt_of_length_four _ hlen h0 h1 h2 (Nat.lt_trans h3 (by decide))

theorem getD_unqueueMip_le (q : QueuedImage) (l j : Nat) :
    (q.unqueueMip l).mipLevelBitSet.getD j 0 ≤ q.mipLevelBitSet.getD j 0 := by
  by_cases hne : j = l / 64
  · subst hne
    by_cases hidx : l / 64 < q.mipLevelBitSet.length
    · simp only [QueuedImage.unqueueMip, List.getD_eq_getElem?_getD,
        List.getElem?_set_self hidx, Option.getD_some]
      exact Nat.and_le_left
    · have h1 : (q.unqueueMip l).mipLevelBitSet[l / 64]? = none :=
        List.getElem?_eq_none (by simp only [QueuedImage.unqueueMip, List.length_set]; omega)
      simp [List.getD_eq_getElem?_getD, h1]
  · rw [getD_unqueueMip_other q l j hne]

theorem unqueueMip_fourWords (q : QueuedImage) (l : Nat) (h : q.FourWords) :
    (q.unqueueMip l).FourWords := by
  refine ⟨?_, fun i => Nat.lt_of_le_of_lt (getD_unqueueMip_le q l i) (h.2 i)⟩
  simp only [QueuedImage.unqueueMip, List.length_set]
  exact h.1

theorem foldl_unqueueMip_fourWords (levels : List Nat) :
    ∀ q : QueuedImage, q.FourWords → q.mipLevelBitSet.getD 3 0 < 2 ^ 63 →
      (levels.foldl QueuedImage.unqueueMip q).FourWords ∧
      (levels.foldl QueuedImage.unqueueMip q).mipLevelBitSet.getD 3 0 < 2 ^ 63 := by
  induction levels with
  | nil => intro q h h3; exact ⟨h, h3⟩
  | cons l levels ih =>
    intro q h h3
    exact ih (q.unqueueMip l) (unqueueMip_fourWords q l h)
      (Nat.lt_of_le_of_lt (getD_unqueueMip_le q l 3) h3)

theorem builtin_ctzl_le_of_testBit :
    ∀ (n w k : Nat), k < n → w.testBit k = true → builtin_ctzl n w ≤ k := by
  intro n
  induction n with
  | zero => intro w k hk; omega
  | succ n ih =>
    intro w k hk hbit
    unfold builtin_ctzl
    by_cases hodd : w % 2 = 1
    · rw [if_pos hodd]; omega
    · rw [if_neg hodd]
      cases k with
      | zero =>
        rw [Nat.testBit_zero] at hbit
        exact absurd (of_decide_eq_true hbit) hodd
      | succ k =>
        rw [Nat.testBit_succ] at hbit
        have := ih (w / 2) k (by omega) hbit
        omega

theorem ctz64_le_63 (w : Nat) (hw : w ≠ 0) (hlt : w < 2 ^ 64) : ctz64 w ≤ 63 := by
  unfold ctz64
  rw [if_neg hw]
  have hb := bitLength_le 64 w
  have hp := bitLength_pos 64 w hw (by omega)
  have := builtin_ctzl_le_of_testBit 64 w (bitLength 64 w - 1) (by omega)
    (testBit_bitLength_sub_one 64 w hw (by omega) hlt)
  omega

theorem getMinMipLevelLoop_le (q : QueuedImage) (hwords : ∀ i, q.mipLevelBitSet.getD i 0 < 2 ^ 64)
    (l : Nat) (hq : q.isMipQueued l = true) :
    ∀ r j, 4 ≤ j + r → j ≤ l / 64 → q.getMinMipLevelLoop r j ≤ l := by
  intro r
  induction r with
  | zero =>
    intro j h4 hj
    simp only [QueuedImage.getMinMipLevelLoop]
    omega
  | succ r ih =>
    intro j h4 hj
    unfold QueuedImage.getMinMipLevelLoop
    by_cases h0 : q.mipLevelBitSet.getD j 0 = 0
    · rw [if_neg (by simpa using h0)]
      have hne : l / 64 ≠ j := by
        intro heq
        rw [isMipQueued_eq_testBit, heq, h0] at hq
        simp at hq
      exact ih (j + 1) (by omega) (by omega)
    · rw [if_pos h0]
      have h63 := ctz64_le_63 _ h0 (hwords j)
      rw [Nat.mod_eq_of_lt (by omega)]
      by_cases heq : l / 64 = j
      · rw [isMipQueued_eq_testBit, heq] at hq
        have hk : l % 64 < 64 := Nat.mod_lt _ (by omega)
        have := builtin_ctzl_le_of_testBit 64 _ (l % 64) hk hq
        unfold ctz64
        rw [if_neg h0]
        omega
      · omega

theorem isMipQueued_lt_256 (q : QueuedImage) (hlen : q.mipLevelBitSet.length = 4) (l : Nat)
    (hq : q.isMipQueued l = true) : l < 256 := by
  by_contra hge
  have hnone : q.mipLevelBitSet[l / 64]? = none := List.getElem?_eq_none (by omega)
  rw [isMipQueued_eq_testBit] at hq
  simp [List.getD_eq_getElem?_getD, hnone] at hq

/-- C11: for a QueuedImage constructed with `numMips` in 0..255 and put through
any sequence of `unqueueMip` calls, every level `i` that is still queued
satisfies `getMinMipLevel() <= i < getMaxMipLevelPlusOne()`: the range the
loop of `processQueuedImage` scans skips no pending level. -/
theorem queued_level_within_scanned_range (srcImage : Image2) (numMips dstTexture : Nat)
    (levels : List Nat) (i : Nat) (hnum : numMips < 256)
    (hq : (levels.foldl QueuedImage.unqueueMip
      (QueuedImage.construct srcImage numMips dstTexture)).isMipQueued i = true) :
    (levels.foldl QueuedImage.unqueueMip
      (QueuedImage.construct srcImage numMips dstTexture)).getMinMipLevel ≤ i ∧
    i < (levels.foldl QueuedImage.unqueueMip
      (QueuedImage.construct srcImage numMips dstTexture)).getMaxMipLevelPlusOne := by
  obtain ⟨hc, hc3⟩ := construct_fourWords srcImage numMips dstTexture hnum
  obtain ⟨hwf, h3⟩ := foldl_unqueueMip_fourWords levels _ hc hc3
  generalize levels.foldl QueuedImage.unqueueMip
    (QueuedImage.construct srcImage numMips dstTexture) = q at hq hwf h3
  have h255 : q.isMipQueued 255 = false := by
    rw [isMipQueued_eq_testBit]
    exact Nat.testBit_lt_two_pow h3
  constructor
  · exact getMinMipLevelLoop_le q hwf.2 i hq 4 0 (by omega) (by omega)
  · have hi := isMipQueued_lt_256 q hwf.1 i hq
    exact (getMaxMipLevelPlusOneLoop_spec q (fun j _ => hwf.2 j) h255 4 (Nat.le_refl 4)).2.2.1
      i (by omega) hq

theorem queued_level_within_scanned_range_witness :
    (3 : Nat) < 256 ∧
    ([1].foldl QueuedImage.unqueueMip (QueuedImage.construct {} 3 0)).isMipQueued 2 = true ∧
    ([1].foldl QueuedImage.unqueueMip (QueuedImage.construct {} 3 0)).getMinMipLevel ≤ 2 ∧
    2 < ([1].foldl QueuedImage.unqueueMip
      (QueuedImage.construct {} 3 0)).getMaxMipLevelPlusOne :=
  ⟨by decide, by decide,
    queued_level_within_scanned_range {} 3 0 [1] 2 (by decide) (by decide)⟩

end Ogre

namespace Ogre

/-! ## `empty` -/

theorem word_eq_zero_of_bits_clear (w : Nat) (hw : w < 2 ^ 64)
    (hbits : ∀ k, k < 64 → w.testBit k = false) : w = 0 := by
  have : w < 2 ^ 0 := by
    apply Nat.lt_pow_two_of_testBit
    intro k _
    by_cases hk : k < 64
    · exact hbits k hk
    · exact Nat.testBit_lt_two_pow
        (Nat.lt_of_lt_of_le hw (Nat.pow_le_pow_right (by omega) (by omega)))
  simpa using this

/-- On a bitset of four 64-bit words, `empty()` is true exactly if no level in
0..255 is queued. -/
theorem empty_iff_no_level_queued (q : QueuedImage) (h : q.FourWords) :
    q.empty = true ↔ ∀ i, i < 256 → q.isMipQueued i = false := by
  constructor
  · intro he i hi
    simp only [QueuedImage.empty, Bool.and_eq_true, decide_eq_true_eq] at he
    obtain ⟨⟨⟨h0, h1⟩, h2⟩, h3⟩ := he
    rw [isMipQueued_eq_testBit]
    have hcases : i / 64 = 0 ∨ i / 64 = 1 ∨ i / 64 = 2 ∨ i / 64 = 3 := by omega
    rcases hcases with hc | hc | hc | hc <;> rw [hc] <;>
      (first | rw [h0] | rw [h1] | rw [h2] | rw [h3]) <;> exact Nat.zero_testBit _
  · intro hall
    have hword : ∀ j, j < 4 → q.mipLevelBitSet.getD j 0 = 0 := by
      intro j hj
      apply word_eq_zero_of_bits_clear _ (h.2 j)
      intro k hk
      have := hall (64 * j + k) (by omega)
      rw [isMipQueued_eq_testBit] at this
      have hdiv : (64 * j + k) / 64 = j := by omega
      have hmod : (64 * j + k) % 64 = k := by omega
      rwa [hdiv, hmod] at this
    simp only [QueuedImage.empty, hword 0 (by omega), hword 1 (by omega), hword 2 (by omega),
      hword 3 (by omega), decide_True, Bool.and_self]

/-- C13 (the code run where the claim fails): a QueuedImage constructed with
`numMips = 1` is not `empty()` after `unqueueMip(0)`, the only mip level of
the image: the constructor has also set the bits 64, 128 and 192, which stay
queued. -/
theorem one_mip_image_not_empty_after_unqueue (srcImage : Image2) (dstTexture : Nat) :
    ((QueuedImage.construct srcImage 1 dstTexture).unqueueMip 0).mipLevelBitSet = [0, 1, 1, 1] ∧
    ((QueuedImage.construct srcImage 1 dstTexture).unqueueMip 0).empty = false ∧
    ((QueuedImage.construct srcImage 1 dstTexture).unqueueMip 0).isMipQueued 64 = true := by
  refine ⟨?_, ?_, ?_⟩ <;>
    simp [QueuedImage.empty, QueuedImage.isMipQueued, QueuedImage.unqueueMip,
      QueuedImage.construct, QueuedImage.fillMipLevelBitSet]

end Ogre

namespace Ogre

open TextureGpuManager

/-! ## The texture registry -/

/-- C14: `createTexture(name, ...)` throws the duplicate-item error exactly if the
registry has an entry under the `IdString` of `name`, and then the registry is
unchanged; otherwise it returns the texture made by `createTextureImpl`, the
registry has gained the entry `(name, that texture)` under that key, and the
entries under all other keys are unchanged. -/
theorem createTexture_spec (toIdString : String → IdString) (mEntries : ResourceEntryMap)
    (name : String) (pageOutStrategy : GpuPageOutStrategy) (textureFlags retVal : Nat) :
    ((createTexture toIdString mEntries name pageOutStrategy textureFlags retVal).1 =
        Except.error ExceptionCodes.ERR_DUPLICATE_ITEM ↔
      (mEntries (toIdString name)).isSome = true) ∧
    ((mEntries (toIdString name)).isSome = true →
      (createTexture toIdString mEntries name pageOutStrategy textureFlags retVal).2 =
        mEntries) ∧
    ((mEntries (toIdString name)).isSome = false →
      (createTexture toIdString mEntries name pageOutStrategy textureFlags retVal).1 =
        Except.ok (retVal, { mName := toIdString name, mPageOutStrategy := pageOutStrategy,
                             mTextureFlags := textureFlags }) ∧
      (createTexture toIdString mEntries name pageOutStrategy textureFlags retVal).2
        (toIdString name) = some { name := name, texture := retVal } ∧
      ∀ key, key ≠ toIdString name →
        (createTexture toIdString mEntries name pageOutStrategy textureFlags retVal).2 key =
          mEntries key) := by
  unfold createTexture
  cases h : (mEntries (toIdString name)).isSome
  · simp only [h, Bool.false_eq_true, if_false]
    refine ⟨by simp, by simp, ?_⟩
    intro _
    refine ⟨trivial, by simp [ResourceEntryMap.assign], ?_⟩
    intro key hkey
    simp [ResourceEntryMap.assign, hkey]
  · simp only [h, if_true]
    refine ⟨by simp, by simp, ?_⟩
    intro hc
    exact absurd hc (by simp)

end Ogre

namespace Ogre

open TextureGpuManager

theorem registry_step_isSome (toIdString : String → IdString) (call : RegistryCall)
    (mEntries : ResourceEntryMap) (key : IdString) :
    ((runRegistryCalls toIdString [call] mEntries) key).isSome =
      if call.key toIdString = key then call.isCreate else (mEntries key).isSome := by
  cases call with
  | create name pageOutStrategy textureFlags retVal =>
    simp only [runRegistryCalls, createTexture, RegistryCall.key, RegistryCall.isCreate]
    by_cases hk : toIdString name = key
    · subst hk
      cases h : (mEntries (toIdString name)).isSome <;>
        simp [h, ResourceEntryMap.assign]
    · have hk2 : ¬ key = toIdString name := fun h => hk h.symm
      cases h : (mEntries (toIdString name)).isSome <;>
        simp [h, hk, hk2, ResourceEntryMap.assign]
  | destroy texture =>
    simp only [runRegistryCalls, destroyTexture, RegistryCall.key, RegistryCall.isCreate]
    by_cases hk : texture.getName = key
    · subst hk
      cases h : mEntries texture.getName <;> simp [h, ResourceEntryMap.assign]
    · have hk2 : ¬ key = texture.getName := fun h => hk h.symm
      cases h : mEntries texture.getName <;> simp [h, hk, hk2, ResourceEntryMap.assign]

theorem runRegistryCalls_cons (toIdString : String → IdString) (call : RegistryCall)
    (rest : List RegistryCall) (mEntries : ResourceEntryMap) :
    runRegistryCalls toIdString (call :: rest) mEntries =
      runRegistryCalls toIdString rest (runRegistryCalls toIdString [call] mEntries) := by
  cases call <;> rfl

theorem runRegistryCalls_isSome (toIdString : String → IdString) (key : IdString)
    (calls : List RegistryCall) :
    ∀ mEntries : ResourceEntryMap,
      ((runRegistryCalls toIdString calls mEntries) key).isSome =
        match lastCallAbout toIdString key calls with
        | some call => call.isCreate
        | none => (mEntries key).isSome := by
  induction calls with
  | nil => intro mEntries; rfl
  | cons call rest ih =>
    intro mEntries
    rw [runRegistryCalls_cons, ih, registry_step_isSome]
    unfold lastCallAbout
    by_cases hk : call.key toIdString = key
    · simp only [List.filter_cons, hk, decide_True, if_true]
      cases hrest : List.filter (fun call => decide (call.key toIdString = key)) rest with
      | nil => simp
      | cons c cs =>
        rw [List.getLast?_cons_cons]
        cases hl : (c :: cs).getLast? with
        | none => simp at hl
        | some x => rfl
    · simp only [List.filter_cons, hk, decide_False, Bool.false_eq_true, if_false]

/-- C15: `destroyTexture(texture)` throws the item-not-found error exactly if the
registry has no entry under the texture's name, and then the registry is
unchanged; otherwise the entry under that name is removed and the entries
under all other keys are unchanged. Hence, after any sequence of
`createTexture` and `destroyTexture` calls on an empty registry, a key is
registered exactly if the last call about it was a `createTexture`: the keys
are those created and not destroyed since. -/
theorem destroyTexture_spec (toIdString : String → IdString) :
    (∀ (mEntries : ResourceEntryMap) (texture : TextureGpu),
      ((destroyTexture mEntries texture).1 = Except.error ExceptionCodes.ERR_ITEM_NOT_FOUND ↔
        mEntries texture.getName = none) ∧
      (mEntries texture.getName = none → (destroyTexture mEntries texture).2 = mEntries) ∧
      (mEntries texture.getName ≠ none →
        (destroyTexture mEntries texture).1 = Except.ok () ∧
        (destroyTexture mEntries texture).2 texture.getName = none ∧
        ∀ key, key ≠ texture.getName →
          (destroyTexture mEntries texture).2 key = mEntries key)) ∧
    (∀ (calls : List RegistryCall) (key : IdString),
      ((runRegistryCalls toIdString calls (fun _ => none)) key).isSome = true ↔
        ∃ call, lastCallAbout toIdString key calls = some call ∧ call.isCreate = true) := by
  constructor
  · intro mEntries texture
    unfold destroyTexture
    cases h : mEntries texture.getName with
    | none =>
      simp only [Option.isNone_none, if_true]
      refine ⟨by simp, by simp, ?_⟩
      intro hc
      exact absurd rfl hc
    | some entry =>
      simp only [Option.isNone_some, Bool.false_eq_true, if_false]
      refine ⟨by simp, by simp, ?_⟩
      intro _
      refine ⟨trivial, by simp [ResourceEntryMap.assign], ?_⟩
      intro key hkey
      simp [ResourceEntryMap.assign, hkey]
  · intro calls key
    rw [runRegistryCalls_isSome]
    cases lastCallAbout toIdString key calls with
    | none => simp
    | some call => simp

end Ogre

namespace Ogre

open TextureGpuManager

/-! ## Staging textures -/

theorem getStagingTextureLoop_spec (impl : StagingTextureImpl) (request : RegionRequest) :
    ∀ (l : List Nat) (itor : Nat),
      match l.find? (stagingTextureFits impl request) with
      | some stagingTexture =>
        ∃ k, getStagingTextureLoop impl request l itor = some (itor + k, stagingTexture) ∧
          l.eraseIdx k = l.erase stagingTexture
      | none => getStagingTextureLoop impl request l itor = none := by
  intro l
  induction l with
  | nil => intro itor; simp [getStagingTextureLoop]
  | cons x xs ih =>
    intro itor
    by_cases hx : stagingTextureFits impl request x = true
    · simp only [List.find?_cons, hx, getStagingTextureLoop, if_true]
      exact ⟨0, rfl, by simp⟩
    · have hx2 : stagingTextureFits impl request x = false := by simpa using hx
      simp only [List.find?_cons, hx2, getStagingTextureLoop, Bool.false_eq_true, if_false]
      have := ih (itor + 1)
      cases hfind : List.find? (stagingTextureFits impl request) xs with
      | none =>
        rw [hfind] at this
        exact this
      | some st =>
        rw [hfind] at this
        obtain ⟨k, hk, herase⟩ := this
        have hst : stagingTextureFits impl request st = true := List.find?_some hfind
        have hne : x ≠ st := by
          intro heq
          rw [heq] at hx2
          rw [hx2] at hst
          exact absurd hst (by simp)
        refine ⟨k + 1, ?_, ?_⟩
        · rw [hk]
          congr 2
          omega
        · rw [List.eraseIdx_cons_succ, herase, List.erase_cons_tail]
          simpa using hne

/-- C16: if some available staging texture supports the request and would not
stall, `getStagingTexture` returns the first such texture in list order, takes
it out of the available list (the others keep their order), appends it to the
used list and creates no staging texture; if none does, one staging texture is
created, returned and appended to the used list, and the available list is
unchanged. -/
theorem getStagingTexture_spec (impl : StagingTextureImpl) (available used : List Nat)
    (request : RegionRequest) (newStagingTexture : Nat) :
    match available.find? (fun stagingTexture =>
      impl.supportsFormat stagingTexture request && !impl.uploadWillStall stagingTexture) with
    | some stagingTexture =>
      getStagingTexture impl available used request newStagingTexture =
        { retVal := stagingTexture
          mAvailableStagingTextures := available.erase stagingTexture
          mUsedStagingTextures := used ++ [stagingTexture]
          created := [] }
    | none =>
      getStagingTexture impl available used request newStagingTexture =
        { retVal := newStagingTexture
          mAvailableStagingTextures := available
          mUsedStagingTextures := used ++ [newStagingTexture]
          created := [newStagingTexture] } := by
  have h := getStagingTextureLoop_spec impl request available 0
  have hfits : (fun stagingTexture =>
      impl.supportsFormat stagingTexture request && !impl.uploadWillStall stagingTexture) =
      stagingTextureFits impl request := rfl
  rw [hfits]
  unfold getStagingTexture
  cases hfind : List.find? (stagingTextureFits impl request) available with
  | none =>
    rw [hfind] at h
    simp only [h]
  | some st =>
    rw [hfind] at h
    obtain ⟨k, hk, herase⟩ := h
    simp only [hk, Nat.zero_add, herase]

end Ogre

namespace Ogre

open TextureGpuManager

theorem perm_cons_eraseIdx {α : Type} (a : α) :
    ∀ (l : List α) (i : Nat), l[i]? = some a → l.Perm (a :: l.eraseIdx i) := by
  intro l
  induction l with
  | nil => intro i h; simp at h
  | cons x xs ih =>
    intro i h
    cases i with
    | zero =>
      simp only [List.getElem?_cons_zero, Option.some.injEq] at h
      subst h
      simp
    | succ i =>
      simp only [List.getElem?_cons_succ] at h
      simp only [List.eraseIdx_cons_succ]
      exact ((ih i h).cons x).trans (List.Perm.swap a x _)

theorem eraseIdx_perm_erase (a : Nat) (l : List Nat) (i : Nat) (h : l[i]? = some a) :
    (l.eraseIdx i).Perm (l.erase a) := by
  have hmem : a ∈ l := List.mem_iff_getElem?.2 ⟨i, h⟩
  exact ((perm_cons_eraseIdx a l i h).symm.trans (List.perm_cons_erase hmem)).cons_inv

theorem getElem?_last_occurrence (a : Nat) (l : List Nat) (h : a ∈ l) :
    l.reverse.indexOf a < l.length ∧
    l[l.length - l.reverse.indexOf a - 1]? = some a := by
  have hrev : a ∈ l.reverse := List.mem_reverse.2 h
  have hlt : l.reverse.indexOf a < l.length := by
    have := List.indexOf_lt_length.2 hrev
    simpa using this
  refine ⟨hlt, ?_⟩
  have h1 := List.getElem?_indexOf hrev
  rw [List.getElem?_reverse hlt] at h1
  have : l.length - 1 - l.reverse.indexOf a = l.length - l.reverse.indexOf a - 1 := by omega
  rw [← this]
  exact h1

end Ogre

namespace Ogre

open TextureGpuManager

/-- C17: for a staging texture `s` in the used list, `removeStagingTexture(s)`
takes one entry of `s` out of the used list (so `s` is not in it any more
when it was listed once), keeps every other entry of it, and appends `s` at
the back of the available list, whose other entries stay in place. A
following `getStagingTexture` for a request that `s` supports without
stalling, when no staging texture before it in the available list does,
returns `s`, moves it back to the used list and creates no staging texture. -/
theorem removeStagingTexture_roundtrip (impl : StagingTextureImpl) (available used : List Nat)
    (s : Nat) (request : RegionRequest) (newStagingTexture : Nat) (hused : s ∈ used) :
    ∃ usedAfter,
      removeStagingTexture available used s = some (available ++ [s], usedAfter) ∧
      usedAfter.Perm (used.erase s) ∧
      usedAfter.count s + 1 = used.count s ∧
      (used.Nodup → s ∉ usedAfter) ∧
      (∀ other, other ≠ s → (other ∈ usedAfter ↔ other ∈ used)) ∧
      (impl.supportsFormat s request = true → impl.uploadWillStall s = false →
        (∀ a, a ∈ available →
          (impl.supportsFormat a request && !impl.uploadWillStall a) = false) →
        getStagingTexture impl (available ++ [s]) usedAfter request newStagingTexture =
          { retVal := s
            mAvailableStagingTextures := available
            mUsedStagingTextures := usedAfter ++ [s]
            created := [] }) := by
  obtain ⟨hlt, hget⟩ := getElem?_last_occurrence s used hused
  have hidx : used.length - used.reverse.indexOf s - 1 < used.length := by omega
  have hperm : (efficientVectorRemove used (used.length - used.reverse.indexOf s - 1)).Perm
      (used.erase s) :=
    (efficientVectorRemove_perm_eraseIdx used _ hidx).trans (eraseIdx_perm_erase s used _ hget)
  refine ⟨efficientVectorRemove used (used.length - used.reverse.indexOf s - 1), ?_, hperm,
    ?_, ?_, ?_, ?_⟩
  · unfold removeStagingTexture
    simp only [if_neg (Nat.ne_of_lt hlt)]
  · rw [hperm.count_eq, List.count_erase_self]
    have : 0 < used.count s := List.count_pos_iff.2 hused
    omega
  · intro hnd hmem
    exact hnd.not_mem_erase (hperm.mem_iff.1 hmem)
  · intro other hne
    rw [hperm.mem_iff]
    exact List.mem_erase_of_ne hne
  · intro hsup hstall hnone
    have hs : stagingTextureFits impl request s = true := by
      simp [stagingTextureFits, hsup, hstall]
    have hnotin : s ∉ available := by
      intro hmem
      have := hnone s hmem
      simp [hsup, hstall] at this
    have hfind : List.find? (stagingTextureFits impl request) (available ++ [s]) = some s := by
      rw [List.find?_append]
      have : List.find? (stagingTextureFits impl request) available = none := by
        rw [List.find?_eq_none]
        intro a ha
        have := hnone a ha
        simpa [stagingTextureFits] using this
      simp [this, hs]
    have h := getStagingTextureLoop_spec impl request (available ++ [s]) 0
    rw [hfind] at h
    obtain ⟨k, hk, herase⟩ := h
    unfold getStagingTexture
    simp only [hk, Nat.zero_add, herase]
    rw [List.erase_append_right _ hnotin]
    simp

theorem removeStagingTexture_roundtrip_witness :
    (8 : Nat) ∈ [7, 8, 9] ∧
    ∃ usedAfter,
      removeStagingTexture [] [7, 8, 9] 8 = some ([] ++ [8], usedAfter) ∧
      usedAfter.Perm ([7, 8, 9].erase 8) ∧
      (∀ other, other ≠ 8 → (other ∈ usedAfter ↔ other ∈ [7, 8, 9])) ∧
      getStagingTexture obligingStaging ([] ++ [8]) usedAfter {} 11 =
        { retVal := 8
          mAvailableStagingTextures := []
          mUsedStagingTextures := usedAfter ++ [8]
          created := [] } := by
  refine ⟨by decide, ?_⟩
  obtain ⟨usedAfter, h1, h2, _, _, h3, h4⟩ :=
    removeStagingTexture_roundtrip obligingStaging [] [7, 8, 9] 8 {} 11 (by decide)
  exact ⟨usedAfter, h1, h2, h3, h4 rfl rfl (by simp)⟩

end Ogre

namespace Ogre

open TextureGpuManager

theorem getStagingTexture_cases (impl : StagingTextureImpl) (available used : List Nat)
    (request : RegionRequest) (newStagingTexture : Nat) :
    (∃ st, st ∈ available ∧
      getStagingTexture impl available used request newStagingTexture =
        { retVal := st, mAvailableStagingTextures := available.erase st,
          mUsedStagingTextures := used ++ [st], created := [] }) ∨
    getStagingTexture impl available used request newStagingTexture =
      { retVal := newStagingTexture, mAvailableStagingTextures := available,
        mUsedStagingTextures := used ++ [newStagingTexture],
        created := [newStagingTexture] } := by
  have h := getStagingTextureLoop_spec impl request available 0
  unfold getStagingTexture
  cases hfind : List.find? (stagingTextureFits impl request) available with
  | none =>
    rw [hfind] at h
    right
    simp only [h]
  | some st =>
    rw [hfind] at h
    obtain ⟨k, hk, herase⟩ := h
    left
    exact ⟨st, List.mem_of_find?_eq_some hfind, by simp only [hk, Nat.zero_add, herase]⟩

theorem getStagingTexture_keeps_disjoint (impl : StagingTextureImpl) (available used : List Nat)
    (request : RegionRequest) (newStagingTexture : Nat)
    (hinv : StagingListsDisjoint (available, used))
    (hfresh : ¬ ((getStagingTexture impl available used request newStagingTexture).created ≠ [] ∧
      (newStagingTexture ∈ available ∨ newStagingTexture ∈ used))) :
    StagingListsDisjoint
      ((getStagingTexture impl available used request newStagingTexture).mAvailableStagingTextures,
        (getStagingTexture impl available used request
          newStagingTexture).mUsedStagingTextures) ∧
    (getStagingTexture impl available used request newStagingTexture).retVal ∉ used := by
  obtain ⟨ha, hu, hd⟩ := hinv
  simp only at ha hu hd
  rcases getStagingTexture_cases impl available used request newStagingTexture with
    ⟨st, hst, heq⟩ | heq
  · rw [heq]
    refine ⟨⟨ha.erase st, ?_, ?_⟩, hd st hst⟩
    · exact List.nodup_append.2 ⟨hu, List.nodup_singleton st, by
        intro a ha1 ha2
        simp only [List.mem_singleton] at ha2
        subst ha2
        exact hd a hst ha1⟩
    · intro a hmem
      simp only at hmem
      have hmem2 := (ha.mem_erase_iff).1 hmem
      simp only [List.mem_append, List.mem_singleton, not_or]
      exact ⟨hd a hmem2.2, hmem2.1⟩
  · rw [heq] at hfresh ⊢
    have hcreated : ([newStagingTexture] : List Nat) ≠ [] := by simp
    have hfa : newStagingTexture ∉ available := fun h => hfresh ⟨hcreated, Or.inl h⟩
    have hfu : newStagingTexture ∉ used := fun h => hfresh ⟨hcreated, Or.inr h⟩
    refine ⟨⟨ha, ?_, ?_⟩, hfu⟩
    · exact List.nodup_append.2 ⟨hu, List.nodup_singleton _, by
        intro a ha1 ha2
        simp only [List.mem_singleton] at ha2
        subst ha2
        exact hfu ha1⟩
    · intro a hmem
      simp only at hmem
      simp only [List.mem_append, List.mem_singleton, not_or]
      exact ⟨hd a hmem, fun h => hfa (h ▸ hmem)⟩

theorem removeStagingTexture_keeps_disjoint (available used : List Nat) (s : Nat)
    (lists : List Nat × List Nat) (hinv : StagingListsDisjoint (available, used))
    (hrem : removeStagingTexture available used s = some lists) :
    StagingListsDisjoint lists := by
  obtain ⟨ha, hu, hd⟩ := hinv
  simp only at ha hu hd
  unfold removeStagingTexture at hrem
  by_cases hr : used.reverse.indexOf s = used.length
  · simp [hr] at hrem
  · simp only [if_neg hr, Option.some.injEq] at hrem
    have hmem : s ∈ used := by
      have hle : used.reverse.indexOf s ≤ used.reverse.length := List.indexOf_le_length
      have hlt : used.reverse.indexOf s < used.reverse.length := by
        rw [List.length_reverse] at hle ⊢
        omega
      exact List.mem_reverse.1 (List.indexOf_lt_length.1 hlt)
    obtain ⟨hlt, hget⟩ := getElem?_last_occurrence s used hmem
    have hidx : used.length - used.reverse.indexOf s - 1 < used.length := by omega
    have hperm : (efficientVectorRemove used (used.length - used.reverse.indexOf s - 1)).Perm
        (used.erase s) :=
      (efficientVectorRemove_perm_eraseIdx used _ hidx).trans
        (eraseIdx_perm_erase s used _ hget)
    have hsa : s ∉ available := fun h => hd s h hmem
    subst hrem
    refine ⟨?_, ?_, ?_⟩
    · exact List.nodup_append.2 ⟨ha, List.nodup_singleton _, by
        intro a ha1 ha2
        simp only [List.mem_singleton] at ha2
        subst ha2
        exact hsa ha1⟩
    · exact hperm.nodup_iff.2 (hu.erase s)
    · intro a hmem1 hmem2
      simp only [List.mem_append, List.mem_singleton] at hmem1
      have hmem3 := hperm.mem_iff.1 hmem2
      rcases hmem1 with h1 | h1
      · exact hd a h1 (List.mem_of_mem_erase hmem3)
      · subst h1
        exact hu.not_mem_erase hmem3

theorem runStagingCalls_keeps_disjoint (calls : List StagingCall) :
    ∀ start lists, StagingListsDisjoint start → runStagingCalls calls start = some lists →
      StagingListsDisjoint lists := by
  induction calls with
  | nil =>
    intro start lists hinv hrun
    simp only [runStagingCalls, Option.some.injEq] at hrun
    exact hrun ▸ hinv
  | cons call rest ih =>
    intro start lists hinv hrun
    obtain ⟨available, used⟩ := start
    cases call with
    | get impl request newStagingTexture =>
      simp only [runStagingCalls] at hrun
      by_cases hfresh : (getStagingTexture impl available used request
          newStagingTexture).created ≠ [] ∧
          (newStagingTexture ∈ available ∨ newStagingTexture ∈ used)
      · rw [if_pos hfresh] at hrun
        exact absurd hrun (by simp)
      · rw [if_neg hfresh] at hrun
        exact ih _ lists
          (getStagingTexture_keeps_disjoint impl available used request newStagingTexture
            hinv hfresh).1 hrun
    | remove s =>
      simp only [runStagingCalls] at hrun
      cases hrem : removeStagingTexture available used s with
      | none => simp [hrem] at hrun
      | some next =>
        rw [hrem] at hrun
        exact ih next lists (removeStagingTexture_keeps_disjoint available used s next hinv hrem)
          hrun

/-- C18: starting from empty lists, after any sequence of `getStagingTexture` and
`removeStagingTexture` calls in which every newly created staging texture
differs from the existing ones and every removal is for a staging texture in
the used list, no staging texture is in both the available and the used list
and neither list has a duplicate; and a further `getStagingTexture` (whose
staging texture, if it creates one, is new) never returns a staging texture
that was in the used list before the call. -/
theorem staging_lists_stay_disjoint (calls : List StagingCall) (lists : List Nat × List Nat)
    (hrun : runStagingCalls calls ([], []) = some lists) :
    lists.1.Nodup ∧ lists.2.Nodup ∧ (∀ a, a ∈ lists.1 → a ∉ lists.2) ∧
    ∀ (impl : StagingTextureImpl) (request : RegionRequest) (newStagingTexture : Nat),
      ((getStagingTexture impl lists.1 lists.2 request newStagingTexture).created ≠ [] →
        newStagingTexture ∉ lists.1 ∧ newStagingTexture ∉ lists.2) →
      (getStagingTexture impl lists.1 lists.2 request newStagingTexture).retVal ∉ lists.2 := by
  have hstart : StagingListsDisjoint ([], []) :=
    ⟨List.nodup_nil, List.nodup_nil, fun a h => by simp at h⟩
  have hinv := runStagingCalls_keeps_disjoint calls ([], []) lists hstart hrun
  refine ⟨hinv.1, hinv.2.1, hinv.2.2, ?_⟩
  intro impl request newStagingTexture hfresh
  exact (getStagingTexture_keeps_disjoint impl lists.1 lists.2 request newStagingTexture
    hinv (fun h => h.2.elim (hfresh h.1).1 (hfresh h.1).2)).2

theorem staging_lists_stay_disjoint_witness :
    runStagingCalls [StagingCall.get obligingStaging {} 1, StagingCall.get obligingStaging {} 2,
      StagingCall.remove 1, StagingCall.get obligingStaging {} 3] ([], []) =
      some ([], [2, 1]) ∧
    ([] : List Nat).Nodup ∧ [2, 1].Nodup ∧ (∀ a, a ∈ ([] : List Nat) → a ∉ [2, 1]) :=
  ⟨by rfl,
    (staging_lists_stay_disjoint [StagingCall.get obligingStaging {} 1,
      StagingCall.get obligingStaging {} 2, StagingCall.remove 1,
      StagingCall.get obligingStaging {} 3] ([], [2, 1]) (by rfl)).1,
    (staging_lists_stay_disjoint [StagingCall.get obligingStaging {} 1,
      StagingCall.get obligingStaging {} 2, StagingCall.remove 1,
      StagingCall.get obligingStaging {} 3] ([], [2, 1]) (by rfl)).2.1,
    (staging_lists_stay_disjoint [StagingCall.get obligingStaging {} 1,
      StagingCall.get obligingStaging {} 2, StagingCall.remove 1,
      StagingCall.get obligingStaging {} 3] ([], [2, 1]) (by rfl)).2.2.1⟩

end Ogre

namespace Ogre

open TextureGpuManager

/-- C19 (the code run where the claim fails): with the dynamic buffer multiplier
3, so a threshold of 5, a staging texture last used in frame 10 is destroyed
and removed by `_update` in frame 11, one frame after its use: the loop
compares `lastFrameUsed - frameCount`, which wraps to 4294967295, with the
threshold. In frame 10 itself it is kept. -/
theorem update_destroys_staging_texture_used_last_frame :
    obligingStaging.getLastFrameUsed 7 = 10 ∧
    _update_retireStagingTextures obligingStaging
      { mDynamicBufferMultiplier := 3, mFrameCount := 11 } [7] = ([7], []) ∧
    _update_retireStagingTextures obligingStaging
      { mDynamicBufferMultiplier := 3, mFrameCount := 10 } [7] = ([], [7]) ∧
    _update_retireStagingTextures obligingStaging
      { mDynamicBufferMultiplier := 3, mFrameCount := 16 } [7] = ([7], []) := by
  refine ⟨rfl, by decide, by decide, by decide⟩

end Ogre

namespace Ogre

open TextureGpuManager

/-! ## Streaming -/

/-- C20 (the code run where the claim fails): one load request for an image with
one mip, no queued image before, and staging textures that give a region for
every request. After `_updateStreaming` the worker's command buffer holds one
`TransitionToResident` command and four `UploadFromStagingTex` commands, for
the mip levels 0, 64, 128 and 192: the constructor of `QueuedImage` has
marked those four levels as pending. `mQueuedImages` is empty at the end. -/
theorem updateStreaming_one_mip_uploads_four_levels :
    (∀ stagingTexture mapped request,
      (obligingServices.staging.mapRegion stagingTexture mapped request).data.isSome = true) ∧
    (obligingServices.loadImage 0 "a.png").getNumMipmaps = 1 ∧
    oneLoadRequest.mQueuedImages = [] ∧
    oneLoadRequest.worker.workerData.objCmdBuffer = [] ∧
    transitionedTextures
      (_updateStreaming obligingServices oneLoadRequest).worker.workerData.objCmdBuffer = [3] ∧
    uploadedMips
      (_updateStreaming obligingServices oneLoadRequest).worker.workerData.objCmdBuffer =
      [0, 64, 128, 192] ∧
    (_updateStreaming obligingServices oneLoadRequest).mQueuedImages = [] := by
  refine ⟨fun _ _ _ => rfl, rfl, rfl, rfl, by decide, by decide, by decide⟩

end Ogre

namespace Ogre

open TextureGpuManager

/-! ## `loadFromFile` -/

/-- C27: `loadFromFile` either fails and changes nothing or registers and queues.
If the registry has an entry under the `IdString` of `name`, the call throws the
duplicate-item error and both the registry and the load requests of the main
thread are as before. Otherwise it returns the new texture, the registry has
gained the entry `(name, that texture)` and is unchanged under every other key,
and the load requests are the earlier ones, in their order, followed by the one
request `(name, returned texture, archive)`. -/
theorem loadFromFile_spec (toIdString : String → IdString)
    (getArchiveToResource : String → String → Nat) (mEntries : ResourceEntryMap)
    (loadRequests : List LoadRequest) (name resourceGroup : String)
    (pageOutStrategy : GpuPageOutStrategy) (textureFlags retVal : Nat) :
    ((mEntries (toIdString name)).isSome = true →
      loadFromFile toIdString getArchiveToResource mEntries loadRequests name resourceGroup
          pageOutStrategy textureFlags retVal =
        (Except.error ExceptionCodes.ERR_DUPLICATE_ITEM, mEntries, loadRequests)) ∧
    ((mEntries (toIdString name)).isSome = false →
      (loadFromFile toIdString getArchiveToResource mEntries loadRequests name resourceGroup
          pageOutStrategy textureFlags retVal).1 =
        Except.ok (retVal, { mName := toIdString name, mPageOutStrategy := pageOutStrategy,
                             mTextureFlags := textureFlags }) ∧
      (loadFromFile toIdString getArchiveToResource mEntries loadRequests name resourceGroup
          pageOutStrategy textureFlags retVal).2.1 (toIdString name) =
        some { name := name, texture := retVal } ∧
      (∀ key, key ≠ toIdString name →
        (loadFromFile toIdString getArchiveToResource mEntries loadRequests name resourceGroup
          pageOutStrategy textureFlags retVal).2.1 key = mEntries key) ∧
      (loadFromFile toIdString getArchiveToResource mEntries loadRequests name resourceGroup
          pageOutStrategy textureFlags retVal).2.2 =
        loadRequests ++ [{ name := name, texture := retVal,
                           archive := getArchiveToResource name resourceGroup }]) := by
  unfold loadFromFile createTexture
  cases h : (mEntries (toIdString name)).isSome
  · simp only [h, Bool.false_eq_true, if_false]
    refine ⟨by simp, ?_⟩
    intro _
    refine ⟨trivial, by simp [ResourceEntryMap.assign], ?_, trivial⟩
    intro key hkey
    simp [ResourceEntryMap.assign, hkey]
  · simp only [h, if_true]
    refine ⟨fun _ => trivial, ?_⟩
    intro hc
    exact absurd hc (by simp)

/-! ## The exchange with the worker in `_update` -/

/-- The buffers and the lists of used staging textures change hands exactly when
`tryLock` succeeded, and the pending pools change hands in both cases. -/
theorem update_exchange_swaps_iff_locked (s : ExchangeState) :
    (s.mMutex.owner.isNone = true →
      (_update_exchangeWithWorker s).mainData.objCmdBuffer = s.workerData.objCmdBuffer ∧
      (_update_exchangeWithWorker s).workerData.objCmdBuffer = s.mainData.objCmdBuffer ∧
      (_update_exchangeWithWorker s).mainData.usedStagingTex = s.workerData.usedStagingTex ∧
      (_update_exchangeWithWorker s).workerData.usedStagingTex = s.mainData.usedStagingTex) ∧
    (s.mMutex.owner.isNone = false →
      (_update_exchangeWithWorker s).mainData.objCmdBuffer = s.mainData.objCmdBuffer ∧
      (_update_exchangeWithWorker s).workerData.objCmdBuffer = s.workerData.objCmdBuffer ∧
      (_update_exchangeWithWorker s).mainData.usedStagingTex = s.mainData.usedStagingTex ∧
      (_update_exchangeWithWorker s).workerData.usedStagingTex = s.workerData.usedStagingTex) ∧
    (_update_exchangeWithWorker s).mainData.poolsPending = s.workerData.poolsPending ∧
    (_update_exchangeWithWorker s).workerData.poolsPending = s.mainData.poolsPending := by
  unfold _update_exchangeWithWorker LightweightMutex.tryLock
  cases h : s.mMutex.owner.isNone <;> simp [h]

/-- The main thread calls `unlock` on the streaming mutex whatever `tryLock`
returned, and the mutex is free afterwards. -/
theorem update_exchange_always_unlocks (s : ExchangeState) :
    (_update_exchangeWithWorker s).mMutex.owner = none ∧
    (_update_exchangeWithWorker s).mMutex.calls =
      s.mMutex.calls ++ [MutexCall.tryLock c_mainThread s.mMutex.owner.isNone,
                         MutexCall.unlock c_mainThread] := by
  unfold _update_exchangeWithWorker LightweightMutex.tryLock LightweightMutex.unlock
  cases h : s.mMutex.owner.isNone <;> simp [h]

/-- C25: the worker holds the streaming mutex, so `tryLock` of the main thread
fails. The command buffers and the lists of used staging textures are not
swapped, but the main thread still calls `unlock`: the calls made on the mutex
are the failed `tryLock` followed by `unlock`, and the mutex the worker was
holding is free afterwards. -/
theorem update_unlocks_mutex_it_did_not_acquire :
    workerHoldsMutex.mMutex.owner = some c_workerThread ∧
    (workerHoldsMutex.mMutex.tryLock c_mainThread).1 = false ∧
    (_update_exchangeWithWorker workerHoldsMutex).mainData.objCmdBuffer = [] ∧
    (_update_exchangeWithWorker workerHoldsMutex).workerData.objCmdBuffer =
      [ObjCmd.TransitionToResident 3 none] ∧
    (_update_exchangeWithWorker workerHoldsMutex).mainData.usedStagingTex = [] ∧
    (_update_exchangeWithWorker workerHoldsMutex).workerData.usedStagingTex = [5] ∧
    (_update_exchangeWithWorker workerHoldsMutex).mMutex.calls =
      [MutexCall.tryLock c_mainThread false, MutexCall.unlock c_mainThread] ∧
    (_update_exchangeWithWorker workerHoldsMutex).mMutex.owner = none := by
  decide

/-! ## The accounting of a pool past 65535 slices -/

/-- A pool with 65536 textures in use, no released slice and `usedMemory` equal to
0 does not satisfy the accounting equation. -/
theorem accounting_broken_of_wrap (pool : TexturePool) (hused : pool.usedSlots.length = 65536)
    (havailable : pool.availableSlots = []) (hmemory : pool.usedMemory = 0) :
    pool.usedSlots.length + pool.availableSlots.length ≠ pool.usedMemory := by
  rw [hused, havailable, hmemory]
  decide

/-- C26: after the calls reserve 0, reserve 1, release 0 and then reserve 2, ...,
reserve 65536 on textures of one shape, the second pool has 65536 textures in
`usedSlots`, no entry in `availableSlots`, and `usedMemory` equal to 0: the sum
of the two lengths is not `usedMemory`. -/
theorem usedMemory_wraps_below_slot_count :
    ∃ m pool,
      runSlotCalls ([SlotCall.reserve 0, SlotCall.reserve 1, SlotCall.release 0] ++
        (List.range' 2 65535).map SlotCall.reserve) managerOfLarge = some m ∧
      m.mTexturePool.get? 1 = some pool ∧
      pool.usedSlots.length = 65536 ∧ pool.availableSlots = [] ∧ pool.usedMemory = 0 ∧
      pool.usedSlots.length + pool.availableSlots.length ≠ pool.usedMemory := by
  apply Exists.intro (crowdedManager 65536)
  apply Exists.intro (crowdedPool (65536 % 65536) 65536)
  refine And.intro ?_ (And.intro ?_ (And.intro ?_ (And.intro ?_ (And.intro ?_ ?_))))
  · have hrun : runSlotCalls ((List.range' 2 65535).map SlotCall.reserve) (crowdedManager 1) =
        some (crowdedManager 65536) := crowdedManager_run 65535 1
    rw [runSlotCalls_append, crowdedManager_start, Option.some_bind, hrun]
  · rfl
  · simp only [crowdedPool, List.length_range']
  · rfl
  · simp only [crowdedPool, Nat.mod_self]
  · exact accounting_broken_of_wrap _ (by simp only [crowdedPool, List.length_range']) rfl
      (by simp only [crowdedPool, Nat.mod_self])

end Ogre

namespace Ogre

open TextureGpuManager

/-! ## Rare requests in `getStreaming` -/

/-- After one `mapRegion` either a region was found and `isRare` is false, or no
region was found and `isRare` has been and-ed with `!supportsFormat`. -/
theorem mapRegionStep_isRare (impl : StagingTextureImpl) (request : RegionRequest)
    (stagingTexture : Nat) (search : StreamingSearch) :
    ((mapRegionStep impl request stagingTexture search).retVal.data.isSome = true ∧
      (mapRegionStep impl request stagingTexture search).isRare = false) ∨
    ((mapRegionStep impl request stagingTexture search).retVal.data.isSome = false ∧
      (mapRegionStep impl request stagingTexture search).isRare =
        (search.isRare && !impl.supportsFormat stagingTexture request)) := by
  unfold mapRegionStep
  cases h : (impl.mapRegion stagingTexture (search.mappedRegions stagingTexture) request).data
  · right
    simp [h]
  · left
    simp [h]

/-- The loop over the staging textures in use stops once a region was found. -/
theorem getStreamingUsedLoop_of_found (impl : StagingTextureImpl) (request : RegionRequest)
    (used : List Nat) (search : StreamingSearch) (h : search.retVal.data.isSome = true) :
    getStreamingUsedLoop impl request used search = search := by
  cases used with
  | nil => rfl
  | cons t rest => simp [getStreamingUsedLoop, h]

/-- The loop over the available staging textures stops once a region was
found. -/
theorem getStreamingAvailableLoop_of_found (impl : StagingTextureImpl)
    (request : RegionRequest) (available : List Nat) (itor : Nat) (search : StreamingSearch)
    (h : search.retVal.data.isSome = true) :
    getStreamingAvailableLoop impl request available itor search = (search, none) := by
  cases available with
  | nil => rfl
  | cons t rest => simp [getStreamingAvailableLoop, h]

/-- The loop over the staging textures in use: it ends with a region and
`isRare` false, or without a region after asking every texture, and then
`isRare` says that none of them supports the format. -/
theorem getStreamingUsedLoop_isRare (impl : StagingTextureImpl) (request : RegionRequest) :
    ∀ (used : List Nat) (search : StreamingSearch), search.retVal.data.isSome = false →
      ((getStreamingUsedLoop impl request used search).retVal.data.isSome = true ∧
        (getStreamingUsedLoop impl request used search).isRare = false) ∨
      ((getStreamingUsedLoop impl request used search).retVal.data.isSome = false ∧
        (getStreamingUsedLoop impl request used search).isRare =
          (search.isRare && used.all (fun t => !impl.supportsFormat t request))) := by
  intro used
  induction used with
  | nil =>
    intro search h
    right
    exact ⟨h, by simp [getStreamingUsedLoop]⟩
  | cons t rest ih =>
    intro search h
    simp only [getStreamingUsedLoop, h, Bool.false_eq_true, if_false]
    rcases mapRegionStep_isRare impl request t search with hstep | hstep
    · left
      rw [getStreamingUsedLoop_of_found impl request rest _ hstep.1]
      exact hstep
    · rcases ih _ hstep.1 with hrest | hrest
      · left
        exact hrest
      · right
        refine ⟨hrest.1, ?_⟩
        rw [hrest.2, hstep.2, List.all_cons, Bool.and_assoc]

/-- The loop over the available staging textures, in the same way. -/
theorem getStreamingAvailableLoop_isRare (impl : StagingTextureImpl)
    (request : RegionRequest) :
    ∀ (available : List Nat) (itor : Nat) (search : StreamingSearch),
      search.retVal.data.isSome = false →
      ((getStreamingAvailableLoop impl request available itor search).1.retVal.data.isSome
          = true ∧
        (getStreamingAvailableLoop impl request available itor search).1.isRare = false) ∨
      ((getStreamingAvailableLoop impl request available itor search).1.retVal.data.isSome
          = false ∧
        (getStreamingAvailableLoop impl request available itor search).1.isRare =
          (search.isRare && available.all (fun t => !impl.supportsFormat t request))) := by
  intro available
  induction available with
  | nil =>
    intro itor search h
    right
    exact ⟨h, by simp [getStreamingAvailableLoop]⟩
  | cons t rest ih =>
    intro itor search h
    simp only [getStreamingAvailableLoop, h, Bool.false_eq_true, if_false]
    rcases mapRegionStep_isRare impl request t search with hstep | hstep
    · left
      have hsome : (mapRegionStep impl request t search).retVal.data.isNone = false := by
        rw [Option.isNone_eq_false_iff]
        exact hstep.1
      simp only [hsome, Bool.false_eq_true, if_false]
      exact hstep
    · have hnone : (mapRegionStep impl request t search).retVal.data.isNone = true := by
        rw [Option.isNone_iff_eq_none]
        exact Option.not_isSome_iff_eq_none.1 (by simp [hstep.1])
      simp only [hnone, if_true]
      rcases ih (itor + 1) _ hstep.1 with hrest | hrest
      · left
        exact hrest
      · right
        refine ⟨hrest.1, ?_⟩
        rw [hrest.2, hstep.2, List.all_cons, Bool.and_assoc]

end Ogre

namespace Ogre

open TextureGpuManager

/-- The search of `getStreaming` with both loops done. -/
theorem getStreaming_search_isRare (impl : StagingTextureImpl) (request : RegionRequest)
    (used available : List Nat) (mappedRegions : Nat → List RegionRequest) :
    (getStreamingAvailableLoop impl request available 0
        (getStreamingUsedLoop impl request used { mappedRegions := mappedRegions })).1.isRare =
      (!(getStreamingAvailableLoop impl request available 0
          (getStreamingUsedLoop impl request used
            { mappedRegions := mappedRegions })).1.retVal.data.isSome &&
        (used.all (fun t => !impl.supportsFormat t request) &&
          available.all (fun t => !impl.supportsFormat t request))) := by
  rcases getStreamingUsedLoop_isRare impl request used { mappedRegions := mappedRegions } rfl
    with hused | hused
  · rw [getStreamingAvailableLoop_of_found impl request available 0 _ hused.1]
    simp [hused.1, hused.2]
  · rcases getStreamingAvailableLoop_isRare impl request available 0 _ hused.1
      with havailable | havailable
    · simp [havailable.1, havailable.2]
    · rw [havailable.2, havailable.1, hused.2]
      simp

/-- The rare requests after `getStreaming`: the request is recorded when the
search ended with `isRare` set, and the list is the one before otherwise. -/
theorem getStreaming_rareRequests (services : StreamingServices) (worker : WorkerState)
    (box : TextureBox) (pixelFormat : Nat) :
    (getStreaming services worker box pixelFormat).worker.workerData.rareRequests =
      if (!(getStreaming services worker box pixelFormat).retVal.data.isSome &&
          (worker.workerData.usedStagingTex.all (fun t => !services.staging.supportsFormat t
              { width := box.width, height := box.height, depth := box.depth,
                slices := box.numSlices, pixelFormat := pixelFormat }) &&
            worker.workerData.availableStagingTex.all (fun t =>
              !services.staging.supportsFormat t
                { width := box.width, height := box.height, depth := box.depth,
                  slices := box.numSlices, pixelFormat := pixelFormat }))) = true then
        if (accumulateRareRequest
            (services.getSizeBytes box.width box.height box.depth box.numSlices pixelFormat 4)
            pixelFormat worker.workerData.rareRequests).2 = true then
          (accumulateRareRequest
            (services.getSizeBytes box.width box.height box.depth box.numSlices pixelFormat 4)
            pixelFormat worker.workerData.rareRequests).1
        else
          worker.workerData.rareRequests ++
            [{ width := box.width, height := box.height, pixelFormat := pixelFormat,
               accumSizeBytes :=
                 services.getSizeBytes box.width box.height box.getDepthOrSlices 1
                   pixelFormat 4 }]
      else worker.workerData.rareRequests := by
  have hrare := getStreaming_search_isRare services.staging
    { width := box.width, height := box.height, depth := box.depth,
      slices := box.numSlices, pixelFormat := pixelFormat }
    worker.workerData.usedStagingTex worker.workerData.availableStagingTex worker.mappedRegions
  unfold getStreaming
  simp only []
  rw [← hrare]
  cases hfound : (getStreamingAvailableLoop services.staging
      { width := box.width, height := box.height, depth := box.depth,
        slices := box.numSlices, pixelFormat := pixelFormat }
      worker.workerData.availableStagingTex 0
      (getStreamingUsedLoop services.staging
        { width := box.width, height := box.height, depth := box.depth,
          slices := box.numSlices, pixelFormat := pixelFormat }
        worker.workerData.usedStagingTex { mappedRegions := worker.mappedRegions })).2 <;>
  · simp only []
    split
    · split <;> rfl
    · rfl

end Ogre

namespace Ogre

open TextureGpuManager

/-- The loop over the rare requests: when it finds a request of the same pixel
format, that is the first such request and the bytes are added to its 64-bit
`accumSizeBytes`; when it finds none, there is none and the list is as
before. -/
theorem accumulateRareRequest_spec (requiredBytes pixelFormat : Nat) :
    ∀ rares : List RareRequest,
      ((accumulateRareRequest requiredBytes pixelFormat rares).2 = true →
        ∃ front rare back, rares = front ++ rare :: back ∧
          (∀ r ∈ front, r.pixelFormat ≠ pixelFormat) ∧ rare.pixelFormat = pixelFormat ∧
          (accumulateRareRequest requiredBytes pixelFormat rares).1 =
            front ++ { rare with
              accumSizeBytes := (rare.accumSizeBytes + requiredBytes) % 2 ^ 64 } :: back) ∧
      ((accumulateRareRequest requiredBytes pixelFormat rares).2 = false →
        (∀ r ∈ rares, r.pixelFormat ≠ pixelFormat) ∧
        (accumulateRareRequest requiredBytes pixelFormat rares).1 = rares) := by
  intro rares
  induction rares with
  | nil =>
    refine ⟨fun h => ?_, fun _ => ⟨fun r hr => ?_, rfl⟩⟩
    · simp [accumulateRareRequest] at h
    · simp at hr
  | cons rare rest ih =>
    by_cases hformat : rare.pixelFormat = pixelFormat
    · simp only [accumulateRareRequest, hformat, if_true]
      refine ⟨fun _ => ⟨[], rare, rest, rfl, fun r hr => ?_, hformat, ?_⟩, fun h => ?_⟩
      · simp at hr
      · simp [hformat]
      · simp at h
    · simp only [accumulateRareRequest, hformat, if_false]
      refine ⟨fun h => ?_, fun h => ?_⟩
      · obtain ⟨front, found, back, hsplit, hfront, hfound, hresult⟩ := ih.1 h
        refine ⟨rare :: front, found, back, ?_, ?_, hfound, ?_⟩
        · rw [hsplit]
          rfl
        · intro r hr
          rcases List.mem_cons.1 hr with hr | hr
          · rw [hr]
            exact hformat
          · exact hfront r hr
        · rw [hresult]
          rfl
      · obtain ⟨hnone, hresult⟩ := ih.2 h
        refine ⟨fun r hr => ?_, ?_⟩
        · rcases List.mem_cons.1 hr with hr | hr
          · rw [hr]
            exact hformat
          · exact hnone r hr
        · rw [hresult]

/-- C22: `getStreaming` records the request as rare exactly if it returns no
region and no staging texture of `usedStagingTex` or `availableStagingTex`
reports `supportsFormat` for it. In that case either the first rare request of
the same pixel format has the bytes added to its `accumSizeBytes`, or there is
no such request and a new `RareRequest` is appended. When a region is returned,
or some staging texture supports the format, `rareRequests` is unchanged. -/
theorem getStreaming_records_rare_request (services : StreamingServices)
    (worker : WorkerState) (box : TextureBox) (pixelFormat : Nat) :
    (((getStreaming services worker box pixelFormat).retVal.data.isSome = false ∧
      ∀ t, t ∈ worker.workerData.usedStagingTex ∨ t ∈ worker.workerData.availableStagingTex →
        services.staging.supportsFormat t
          { width := box.width, height := box.height, depth := box.depth,
            slices := box.numSlices, pixelFormat := pixelFormat } = false) →
      (∃ front rare back, worker.workerData.rareRequests = front ++ rare :: back ∧
        (∀ r ∈ front, r.pixelFormat ≠ pixelFormat) ∧ rare.pixelFormat = pixelFormat ∧
        (getStreaming services worker box pixelFormat).worker.workerData.rareRequests =
          front ++ { rare with
            accumSizeBytes := (rare.accumSizeBytes +
              services.getSizeBytes box.width box.height box.depth box.numSlices
                pixelFormat 4) % 2 ^ 64 } :: back) ∨
      ((∀ r ∈ worker.workerData.rareRequests, r.pixelFormat ≠ pixelFormat) ∧
        (getStreaming services worker box pixelFormat).worker.workerData.rareRequests =
          worker.workerData.rareRequests ++
            [{ width := box.width, height := box.height, pixelFormat := pixelFormat,
               accumSizeBytes :=
                 services.getSizeBytes box.width box.height box.getDepthOrSlices 1
                   pixelFormat 4 }])) ∧
    (((getStreaming services worker box pixelFormat).retVal.data.isSome = true ∨
      ∃ t, (t ∈ worker.workerData.usedStagingTex ∨
          t ∈ worker.workerData.availableStagingTex) ∧
        services.staging.supportsFormat t
          { width := box.width, height := box.height, depth := box.depth,
            slices := box.numSlices, pixelFormat := pixelFormat } = true) →
      (getStreaming services worker box pixelFormat).worker.workerData.rareRequests =
        worker.workerData.rareRequests) := by
  constructor
  · intro hrare
    obtain ⟨hregion, hsupport⟩ := hrare
    have hflag : (!(getStreaming services worker box pixelFormat).retVal.data.isSome &&
        (worker.workerData.usedStagingTex.all (fun t => !services.staging.supportsFormat t
            { width := box.width, height := box.height, depth := box.depth,
              slices := box.numSlices, pixelFormat := pixelFormat }) &&
          worker.workerData.availableStagingTex.all (fun t =>
            !services.staging.supportsFormat t
              { width := box.width, height := box.height, depth := box.depth,
                slices := box.numSlices, pixelFormat := pixelFormat }))) = true := by
      rw [hregion]
      simp only [Bool.not_false, Bool.true_and, Bool.and_eq_true, List.all_eq_true,
        Bool.not_eq_true']
      exact ⟨fun t ht => hsupport t (Or.inl ht), fun t ht => hsupport t (Or.inr ht)⟩
    rw [getStreaming_rareRequests, if_pos hflag]
    cases hfound : (accumulateRareRequest
        (services.getSizeBytes box.width box.height box.depth box.numSlices pixelFormat 4)
        pixelFormat worker.workerData.rareRequests).2
    · right
      rw [if_neg (by simp)]
      exact ⟨((accumulateRareRequest_spec _ _ _).2 hfound).1, rfl⟩
    · left
      rw [if_pos rfl]
      exact (accumulateRareRequest_spec _ _ _).1 hfound
  · intro hcommon
    have hflag : ¬ (!(getStreaming services worker box pixelFormat).retVal.data.isSome &&
        (worker.workerData.usedStagingTex.all (fun t => !services.staging.supportsFormat t
            { width := box.width, height := box.height, depth := box.depth,
              slices := box.numSlices, pixelFormat := pixelFormat }) &&
          worker.workerData.availableStagingTex.all (fun t =>
            !services.staging.supportsFormat t
              { width := box.width, height := box.height, depth := box.depth,
                slices := box.numSlices, pixelFormat := pixelFormat }))) = true := by
      simp only [Bool.and_eq_true, Bool.not_eq_true', List.all_eq_true]
      rintro ⟨hregion, hused, havailable⟩
      rcases hcommon with hsome | ⟨t, ht, hsupports⟩
      · rw [hregion] at hsome
        exact absurd hsome (by simp)
      · rcases ht with ht | ht
        · rw [hused t ht] at hsupports
          exact absurd hsupports (by simp)
        · rw [havailable t ht] at hsupports
          exact absurd hsupports (by simp)
    rw [getStreaming_rareRequests, if_neg hflag]

end Ogre

namespace Ogre

open TextureGpuManager

/-! ## The list of queued images in `_updateStreaming` -/

/-- Overwriting position `n` leaves the first `n` elements as they are. -/
theorem take_set_self {α : Type} (l : List α) (n : Nat) (a : α) :
    (l.set n a).take n = l.take n := by
  apply List.ext_getElem?
  intro i
  rw [List.getElem?_take, List.getElem?_take]
  split
  · next h => rw [List.getElem?_set_ne (by omega)]
  · rfl

end Ogre

namespace Ogre

open TextureGpuManager

/-! ## `processQueuedImage` -/

/-- The command buffer is not touched by `getStreaming`. -/
theorem getStreaming_objCmdBuffer (services : StreamingServices) (worker : WorkerState)
    (box : TextureBox) (pixelFormat : Nat) :
    (getStreaming services worker box pixelFormat).worker.workerData.objCmdBuffer =
      worker.workerData.objCmdBuffer := by
  unfold getStreaming
  simp only []
  cases (getStreamingAvailableLoop services.staging
      { width := box.width, height := box.height, depth := box.depth,
        slices := box.numSlices, pixelFormat := pixelFormat }
      worker.workerData.availableStagingTex 0
      (getStreamingUsedLoop services.staging
        { width := box.width, height := box.height, depth := box.depth,
          slices := box.numSlices, pixelFormat := pixelFormat }
        worker.workerData.usedStagingTex { mappedRegions := worker.mappedRegions })).2 <;>
  · simp only []
    split
    · split <;> rfl
    · rfl

/-- A level that was queued is not queued after `unqueueMip` of that level. -/
theorem isMipQueued_unqueueMip_self (q : QueuedImage) (l : Nat)
    (hq : q.isMipQueued l = true) : (q.unqueueMip l).isMipQueued l = false := by
  have hk : l % 64 < 64 := Nat.mod_lt _ (by omega)
  have hidx : l / 64 < q.mipLevelBitSet.length := by
    by_contra hge
    have hnone : q.mipLevelBitSet[l / 64]? = none := List.getElem?_eq_none (by omega)
    rw [isMipQueued_eq_testBit] at hq
    simp [List.getD_eq_getElem?_getD, hnone] at hq
  rw [isMipQueued_eq_testBit]
  simp only [QueuedImage.unqueueMip, List.getD_eq_getElem?_getD, List.getElem?_set_self hidx,
    Option.getD_some]
  rw [Nat.testBit_and, testBit_clear_mask _ _ hk]
  simp

/-- The other levels are queued after `unqueueMip` exactly if they were before. -/
theorem isMipQueued_unqueueMip_ne (q : QueuedImage) (l m : Nat) (hne : m ≠ l) :
    (q.unqueueMip l).isMipQueued m = q.isMipQueued m := by
  have hk : l % 64 < 64 := Nat.mod_lt _ (by omega)
  have hm : m % 64 < 64 := Nat.mod_lt _ (by omega)
  rw [isMipQueued_eq_testBit, isMipQueued_eq_testBit]
  by_cases hw : m / 64 = l / 64
  · have hbit : l % 64 ≠ m % 64 := by omega
    rw [hw]
    by_cases hidx : l / 64 < q.mipLevelBitSet.length
    · simp only [QueuedImage.unqueueMip, List.getD_eq_getElem?_getD,
        List.getElem?_set_self hidx, Option.getD_some]
      rw [Nat.testBit_and, testBit_clear_mask _ _ hk]
      simp [hbit, hm]
    · have h1 : (q.unqueueMip l).mipLevelBitSet[l / 64]? = none :=
        List.getElem?_eq_none (by simp only [QueuedImage.unqueueMip, List.length_set]; omega)
      have h2 : q.mipLevelBitSet[l / 64]? = none := List.getElem?_eq_none (by omega)
      simp [List.getD_eq_getElem?_getD, h1, h2]
  · rw [getD_unqueueMip_other q l _ hw]

/-- One turn of the loop of `processQueuedImage` at level `i`: the level is not
queued and nothing happens; or it is queued and `getStreaming` gives no region,
and only the worker data change as `getStreaming` changes them; or it is queued
and `getStreaming` gives a region, the level is unqueued and one
`UploadFromStagingTex` for level `i` is appended to the command buffer. -/
theorem processQueuedImageLoop_one (services : StreamingServices) (i : Nat) (q : QueuedImage)
    (w : WorkerState) :
    (q.isMipQueued i = false ∧ processQueuedImageLoop services 1 i q w = (q, w)) ∨
    (q.isMipQueued i = true ∧
      (getStreaming services w (services.getData q.image i)
        q.image.getPixelFormat).retVal.data.isSome = false ∧
      (processQueuedImageLoop services 1 i q w).1 = q ∧
      (processQueuedImageLoop services 1 i q w).2.workerData.objCmdBuffer =
        w.workerData.objCmdBuffer) ∨
    (q.isMipQueued i = true ∧
      (getStreaming services w (services.getData q.image i)
        q.image.getPixelFormat).retVal.data.isSome = true ∧
      (processQueuedImageLoop services 1 i q w).1 = q.unqueueMip i ∧
      (processQueuedImageLoop services 1 i q w).2.workerData.objCmdBuffer =
        w.workerData.objCmdBuffer ++
          [ObjCmd.UploadFromStagingTex
            (getStreaming services w (services.getData q.image i)
              q.image.getPixelFormat).outStagingTexture
            (getStreaming services w (services.getData q.image i)
              q.image.getPixelFormat).retVal q.dstTexture i]) := by
  cases hq : q.isMipQueued i
  · left
    simp [processQueuedImageLoop, hq]
  · right
    cases hdata : (getStreaming services w (services.getData q.image i)
        q.image.getPixelFormat).retVal.data.isSome
    · left
      refine ⟨rfl, rfl, ?_, ?_⟩
      · simp [processQueuedImageLoop, hq, hdata]
      · simp only [processQueuedImageLoop, hq, hdata, if_true, Bool.false_eq_true, if_false]
        exact getStreaming_objCmdBuffer _ _ _ _
    · right
      refine ⟨rfl, rfl, ?_, ?_⟩
      · simp [processQueuedImageLoop, hq, hdata]
      · simp only [processQueuedImageLoop, hq, hdata, if_true]
        rw [getStreaming_objCmdBuffer]

/-- The loop for one level more is the loop followed by one turn at the next
level. -/
theorem processQueuedImageLoop_succ (services : StreamingServices) :
    ∀ (n i : Nat) (q : QueuedImage) (w : WorkerState),
      processQueuedImageLoop services (n + 1) i q w =
        processQueuedImageLoop services 1 (i + n)
          (processQueuedImageLoop services n i q w).1
          (processQueuedImageLoop services n i q w).2 := by
  have hfront : ∀ (n i : Nat) (q : QueuedImage) (w : WorkerState),
      processQueuedImageLoop services (n + 1) i q w =
        processQueuedImageLoop services n (i + 1)
          (processQueuedImageLoop services 1 i q w).1
          (processQueuedImageLoop services 1 i q w).2 := by
    intro n i q w
    simp only [processQueuedImageLoop]
    split
    · split <;> rfl
    · rfl
  intro n
  induction n with
  | zero => intro i q w; rfl
  | succ n ih =>
    intro i q w
    rw [hfront (n + 1), ih, ← hfront n, Nat.add_assoc, Nat.add_comm 1 n]

end Ogre

namespace Ogre

open TextureGpuManager

theorem uploadedMips_append (a b : List ObjCmd) :
    uploadedMips (a ++ b) = uploadedMips a ++ uploadedMips b := by
  induction a with
  | nil => rfl
  | cons c a ih => cases c <;> simp [uploadedMips, ih]

theorem transitionedTextures_append (a b : List ObjCmd) :
    transitionedTextures (a ++ b) = transitionedTextures a ++ transitionedTextures b := by
  induction a with
  | nil => rfl
  | cons c a ih => cases c <;> simp [transitionedTextures, ih]

/-- The loop of `processQueuedImage` over the `n` levels from `i` on. The image
and the destination stay; levels outside `i .. i+n-1` stay as they are; a
queued level in that range is cleared exactly if `getStreaming`, called with
the worker data the levels before it have left, gave a region; no level
becomes queued; the command buffer grows by one `UploadFromStagingTex` for the
destination per cleared level, in ascending order of the levels, and by
nothing else; and when no queued level gets a region the image and the
command buffer are as before. -/
theorem processQueuedImageLoop_spec (services : StreamingServices) (i : Nat) (q : QueuedImage)
    (w : WorkerState) :
    ∀ n,
      (processQueuedImageLoop services n i q w).1.image = q.image ∧
      (processQueuedImageLoop services n i q w).1.dstTexture = q.dstTexture ∧
      (∀ l, ¬ (i ≤ l ∧ l < i + n) →
        (processQueuedImageLoop services n i q w).1.isMipQueued l = q.isMipQueued l) ∧
      (∀ l, i ≤ l → l < i + n → q.isMipQueued l = true →
        ((processQueuedImageLoop services n i q w).1.isMipQueued l = false ↔
          (getStreaming services (processQueuedImageLoop services (l - i) i q w).2
            (services.getData q.image l) q.image.getPixelFormat).retVal.data.isSome = true)) ∧
      (∀ l, (processQueuedImageLoop services n i q w).1.isMipQueued l = true →
        q.isMipQueued l = true) ∧
      (∃ cmds,
        (processQueuedImageLoop services n i q w).2.workerData.objCmdBuffer =
          w.workerData.objCmdBuffer ++ cmds ∧
        transitionedTextures cmds = [] ∧
        uploadedMips cmds = (List.range' i n).filter (fun l =>
          q.isMipQueued l && !(processQueuedImageLoop services n i q w).1.isMipQueued l) ∧
        ∀ cmd ∈ cmds, ∃ stagingTexture box l,
          cmd = ObjCmd.UploadFromStagingTex stagingTexture box q.dstTexture l) ∧
      ((∀ l, i ≤ l → l < i + n → q.isMipQueued l = true →
          (getStreaming services (processQueuedImageLoop services (l - i) i q w).2
            (services.getData q.image l) q.image.getPixelFormat).retVal.data.isSome = false) →
        (processQueuedImageLoop services n i q w).1 = q ∧
        (processQueuedImageLoop services n i q w).2.workerData.objCmdBuffer =
          w.workerData.objCmdBuffer) := by
  intro n
  induction n with
  | zero =>
    refine ⟨rfl, rfl, fun _ _ => rfl, fun l h1 h2 _ => ?_, fun _ h => h,
      ⟨[], ?_, rfl, rfl, fun cmd hcmd => ?_⟩, fun _ => ⟨rfl, rfl⟩⟩
    · omega
    · simp [processQueuedImageLoop]
    · simp at hcmd
  | succ n ih =>
    obtain ⟨himage, hdst, hout, hin, hmono, ⟨cmds, hbuf, htrans, hup, hall⟩, hnone⟩ := ih
    have hregion : (getStreaming services (processQueuedImageLoop services n i q w).2
        (services.getData (processQueuedImageLoop services n i q w).1.image (i + n))
        (processQueuedImageLoop services n i q w).1.image.getPixelFormat) =
        (getStreaming services (processQueuedImageLoop services (i + n - i) i q w).2
          (services.getData q.image (i + n)) q.image.getPixelFormat) := by
      rw [himage, Nat.add_sub_cancel_left]
    have hlevel : (processQueuedImageLoop services n i q w).1.isMipQueued (i + n) =
        q.isMipQueued (i + n) := hout (i + n) (by omega)
    rw [processQueuedImageLoop_succ]
    generalize hloop : processQueuedImageLoop services n i q w = rn at *
    obtain ⟨qn, wn⟩ := rn
    simp only [] at himage hdst hout hin hmono hbuf hup hnone hregion hlevel ⊢
    have hfilter : ∀ (q2 : QueuedImage),
        (∀ l, l ≠ i + n → q2.isMipQueued l = qn.isMipQueued l) →
        (List.range' i (n + 1)).filter (fun l => q.isMipQueued l && !q2.isMipQueued l) =
          uploadedMips cmds ++
            (if (q.isMipQueued (i + n) && !q2.isMipQueued (i + n)) = true then [i + n]
              else []) := by
      intro q2 hq2
      rw [List.range'_1_concat, List.filter_append, hup]
      congr 1
      · apply List.filter_congr
        intro l hl
        rw [List.mem_range'_1] at hl
        rw [hq2 l (by omega)]
      · simp only [List.filter_cons, List.filter_nil]
    rcases processQueuedImageLoop_one services (i + n) qn wn with hone | hone | hone
    · obtain ⟨hq, hstep⟩ := hone
      rw [hstep]
      simp only []
      refine ⟨himage, hdst, fun l hl => hout l (by omega), fun l h1 h2 h3 => ?_, hmono,
        ⟨cmds, hbuf, htrans, ?_, hall⟩, fun h => hnone (fun l h1 h2 => h l h1 (by omega))⟩
      · rcases Nat.lt_or_ge l (i + n) with hlt | hge
        · exact hin l h1 hlt h3
        · have heq : l = i + n := by omega
          subst heq
          rw [← hlevel, hq] at h3
          exact absurd h3 (by simp)
      · rw [hfilter qn (fun _ _ => rfl), ← hlevel, hq]
        simp
    · obtain ⟨hq, hdata, hstep, hstepbuf⟩ := hone
      rw [hregion] at hdata
      rw [hstep, hstepbuf]
      refine ⟨himage, hdst, fun l hl => hout l (by omega), fun l h1 h2 h3 => ?_, hmono,
        ⟨cmds, hbuf, htrans, ?_, hall⟩, fun h => hnone (fun l h1 h2 => h l h1 (by omega))⟩
      · rcases Nat.lt_or_ge l (i + n) with hlt | hge
        · exact hin l h1 hlt h3
        · have heq : l = i + n := by omega
          subst heq
          rw [hq, hdata]
          simp
      · rw [hfilter qn (fun _ _ => rfl), hq]
        simp
    · obtain ⟨hq, hdata, hstep, hstepbuf⟩ := hone
      rw [hregion] at hdata
      rw [hstep, hstepbuf]
      refine ⟨himage, hdst, fun l hl => ?_, fun l h1 h2 h3 => ?_, fun l hl => ?_,
        ⟨cmds ++ [ObjCmd.UploadFromStagingTex
          (getStreaming services wn (services.getData qn.image (i + n))
            qn.image.getPixelFormat).outStagingTexture
          (getStreaming services wn (services.getData qn.image (i + n))
            qn.image.getPixelFormat).retVal qn.dstTexture (i + n)], ?_, ?_, ?_, ?_⟩,
        fun h => ?_⟩
      · rw [isMipQueued_unqueueMip_ne qn (i + n) l (by omega)]
        exact hout l (by omega)
      · rcases Nat.lt_or_ge l (i + n) with hlt | hge
        · rw [isMipQueued_unqueueMip_ne qn (i + n) l (by omega)]
          exact hin l h1 hlt h3
        · have heq : l = i + n := by omega
          subst heq
          rw [isMipQueued_unqueueMip_self qn (i + n) hq, hdata]
          simp
      · by_cases heq : l = i + n
        · subst heq
          rw [isMipQueued_unqueueMip_self qn (i + n) hq] at hl
          exact absurd hl (by simp)
        · rw [isMipQueued_unqueueMip_ne qn (i + n) l heq] at hl
          exact hmono l hl
      · rw [hbuf, List.append_assoc]
      · rw [transitionedTextures_append, htrans]
        rfl
      · rw [uploadedMips_append,
          hfilter (qn.unqueueMip (i + n)) (fun l hl => isMipQueued_unqueueMip_ne qn (i + n) l hl),
          isMipQueued_unqueueMip_self qn (i + n) hq, ← hlevel, hq]
        rfl
      · intro cmd hcmd
        rcases List.mem_append.1 hcmd with hcmd | hcmd
        · exact hall cmd hcmd
        · rw [List.mem_singleton.1 hcmd, hdst]
          exact ⟨_, _, _, rfl⟩
      · have hfalse := h (i + n) (by omega) (by omega) (by rw [← hlevel]; exact hq)
        rw [hdata] at hfalse
        exact absurd hfalse (by simp)

end Ogre

namespace Ogre

open TextureGpuManager

/-- C21: `processQueuedImage` on any queued image and worker state. No level
becomes queued. A queued level of the scanned range `firstMip .. numMips-1` is
cleared exactly if the call of `getStreaming` for that level returned a region,
and the levels outside that range, for which `getStreaming` is not called,
stay as they are. The command buffer grows by exactly one
`UploadFromStagingTex` for the destination texture per cleared level, in
ascending order of the levels, and by no other command. If no queued level
gets a region, the image and the command buffer are as before. -/
theorem processQueuedImage_spec (services : StreamingServices) (q : QueuedImage)
    (w : WorkerState) :
    (∀ l, (processQueuedImage services q w).1.isMipQueued l = true →
      q.isMipQueued l = true) ∧
    (∀ l, q.getMinMipLevel ≤ l → l < q.getMaxMipLevelPlusOne → q.isMipQueued l = true →
      ((processQueuedImage services q w).1.isMipQueued l = false ↔
        streamingGaveRegion services q w l = true)) ∧
    (∀ l, ¬ (q.getMinMipLevel ≤ l ∧ l < q.getMaxMipLevelPlusOne) →
      (processQueuedImage services q w).1.isMipQueued l = q.isMipQueued l) ∧
    (∃ cmds,
      (processQueuedImage services q w).2.workerData.objCmdBuffer =
        w.workerData.objCmdBuffer ++ cmds ∧
      transitionedTextures cmds = [] ∧
      uploadedMips cmds =
        (List.range' q.getMinMipLevel (q.getMaxMipLevelPlusOne - q.getMinMipLevel)).filter
          (fun l => q.isMipQueued l && !(processQueuedImage services q w).1.isMipQueued l) ∧
      ∀ cmd ∈ cmds, ∃ stagingTexture box l,
        cmd = ObjCmd.UploadFromStagingTex stagingTexture box q.dstTexture l) ∧
    ((∀ l, q.getMinMipLevel ≤ l → l < q.getMaxMipLevelPlusOne → q.isMipQueued l = true →
        streamingGaveRegion services q w l = false) →
      (processQueuedImage services q w).1 = q ∧
      (processQueuedImage services q w).2.workerData.objCmdBuffer =
        w.workerData.objCmdBuffer) := by
  obtain ⟨_, _, hout, hin, hmono, hcmds, hnone⟩ :=
    processQueuedImageLoop_spec services q.getMinMipLevel q w
      (q.getMaxMipLevelPlusOne - q.getMinMipLevel)
  refine ⟨hmono, fun l h1 h2 h3 => hin l h1 (by omega) h3, fun l hl => hout l (by omega),
    hcmds, fun h => hnone (fun l h1 h2 h3 => h l h1 (by omega) h3)⟩

end Ogre

namespace Ogre

open TextureGpuManager

/-! ## The order of the queued images -/

end Ogre

namespace Ogre

open TextureGpuManager

/-! ## The retry loop, turn by turn -/

theorem moveLastToFront_perm {α : Type} (l : List α) : (moveLastToFront l).Perm l := by
  unfold moveLastToFront
  cases h : l.getLast? with
  | none =>
    rw [List.getLast?_eq_none_iff] at h
    rw [h]
  | some last =>
    have hne : l ≠ [] := by
      intro hnil
      rw [hnil] at h
      simp at h
    have hlast : l.getLast hne = last := by
      rw [List.getLast?_eq_getLast l hne] at h
      exact Option.some.inj h
    have hsplit : l.dropLast ++ [last] = l := by
      rw [← hlast]
      exact List.dropLast_concat_getLast hne
    simp only []
    calc (last :: l.dropLast).Perm (l.dropLast ++ [last]) := (List.perm_append_singleton _ _).symm
      _ = l := hsplit

theorem moveLastToFront_length {α : Type} (l : List α) :
    (moveLastToFront l).length = l.length :=
  (moveLastToFront_perm l).length_eq

theorem moveLastToFront_map {α β : Type} (f : α → β) (l : List α) :
    (moveLastToFront l).map f = moveLastToFront (l.map f) := by
  unfold moveLastToFront
  cases h : l.getLast? with
  | none =>
    rw [List.getLast?_eq_none_iff] at h
    rw [h]
    rfl
  | some last =>
    have hmap : (l.map f).getLast? = some (f last) := by
      rw [List.getLast?_map, h]
      rfl
    rw [hmap]
    simp only [List.map_cons, List.map_dropLast]

/-- Removing the position behind `front` puts the last of the elements that
follow it in its place. -/
theorem efficientVectorRemove_append {α : Type} (front : List α) (x value : α)
    (back : List α) :
    efficientVectorRemove ((front ++ x :: back).set front.length value) front.length =
      front ++ moveLastToFront back := by
  have hset : (front ++ x :: back).set front.length value = front ++ value :: back := by
    rw [List.set_append_right _ _ (Nat.le_refl _), Nat.sub_self]
    rfl
  rw [hset]
  unfold efficientVectorRemove moveLastToFront
  cases hback : back.getLast? with
  | none =>
    rw [List.getLast?_eq_none_iff] at hback
    subst hback
    have hlast : (front ++ [value]).getLast? = some value := by simp
    rw [hlast]
    simp only []
    rw [List.set_append_right _ _ (Nat.le_refl _), Nat.sub_self]
    simp
  | some last =>
    have hne : back ≠ [] := by
      intro hnil
      rw [hnil] at hback
      simp at hback
    have hlast : (front ++ value :: back).getLast? = some last := by
      simp [List.getLast?_append, List.getLast?_cons, hback]
    rw [hlast]
    simp only []
    rw [List.set_append_right _ _ (Nat.le_refl _), Nat.sub_self, List.set_cons_zero,
      List.dropLast_append_cons, List.dropLast_cons_of_ne_nil hne]

/-- The same for a position of any list. -/
theorem efficientVectorRemove_set {α : Type} (l : List α) (idx : Nat) (value : α)
    (h : idx < l.length) :
    efficientVectorRemove (l.set idx value) idx =
      l.take idx ++ moveLastToFront (l.drop (idx + 1)) := by
  have hsplit : l = l.take idx ++ l[idx] :: l.drop (idx + 1) := by
    rw [← List.drop_eq_getElem_cons h, List.take_append_drop]
  have hlen : (l.take idx).length = idx := by
    rw [List.length_take]
    omega
  have key := efficientVectorRemove_append (l.take idx) l[idx] value (l.drop (idx + 1))
  rw [hlen, ← hsplit] at key
  exact key

end Ogre

namespace Ogre

open TextureGpuManager

theorem keptImages_cons (services : StreamingServices) (turn : QueueTurn)
    (turns : List QueueTurn) :
    keptImages services (turn :: turns) =
      if finishedIn services turn then keptImages services turns
      else processedIn services turn :: keptImages services turns := by
  unfold keptImages
  cases h : finishedIn services turn <;> simp [List.filter_cons, h]

/-- The retry loop of the code does what `retryTurns` tells: from position
`itQueue` on, the list afterwards holds the images that the turns leave
unfinished, in the order of the turns; the images before `itQueue` stay. -/
theorem retryQueuedImages_turns (services : StreamingServices) :
    ∀ (remaining itQueue : Nat) (s : StreamingState) (waiting : List (Nat × QueuedImage)),
      waiting.map Prod.snd = s.mQueuedImages.drop itQueue → waiting.length = remaining →
      (retryQueuedImages services remaining itQueue s).mQueuedImages =
        s.mQueuedImages.take itQueue ++
          keptImages services ((retryTurns services remaining waiting s.worker).map Prod.snd) := by
  intro remaining
  induction remaining with
  | zero =>
    intro itQueue s waiting hdrop hlen
    have hnil : waiting = [] := List.length_eq_zero.1 hlen
    rw [hnil] at hdrop
    have hall : s.mQueuedImages.take itQueue = s.mQueuedImages := by
      have h := List.take_append_drop itQueue s.mQueuedImages
      rw [← hdrop] at h
      simpa using h
    simp [retryQueuedImages, retryTurns, keptImages, hall]
  | succ remaining ih =>
    intro itQueue s waiting hdrop hlen
    match waiting, hdrop, hlen with
    | (position, queuedImage) :: rest, hdrop, hlen =>
      have hlt : itQueue < s.mQueuedImages.length := by
        by_contra hge
        rw [List.drop_eq_nil_of_le (by omega)] at hdrop
        simp at hdrop
      rw [List.drop_eq_getElem_cons hlt] at hdrop
      simp only [List.map_cons, List.cons.injEq] at hdrop
      obtain ⟨helem, hrest⟩ := hdrop
      have hget : s.mQueuedImages.get? itQueue = some queuedImage := by
        rw [List.get?_eq_getElem?, List.getElem?_eq_getElem hlt, helem]
      have hrestlen : rest.length = remaining := by
        simpa using hlen
      have hlentake : (s.mQueuedImages.take itQueue).length = itQueue := by
        rw [List.length_take]
        omega
      unfold retryQueuedImages
      rw [hget]
      simp only [retryTurns, List.map_cons]
      rw [keptImages_cons]
      by_cases hempty : (processQueuedImage services queuedImage s.worker).1.empty = true
      · have hfin : finishedIn services { queuedImage := queuedImage, worker := s.worker } = true :=
          hempty
        rw [if_pos hempty, if_pos hfin, if_pos hempty]
        rw [ih itQueue _ (moveLastToFront rest)
          (by
            simp only []
            rw [efficientVectorRemove_set _ _ _ hlt, moveLastToFront_map, hrest,
              List.drop_left' hlentake])
          (by rw [moveLastToFront_length]; exact hrestlen)]
        simp only []
        rw [efficientVectorRemove_set _ _ _ hlt, List.take_left' hlentake]
      · have hfin : ¬ finishedIn services { queuedImage := queuedImage, worker := s.worker } = true :=
          hempty
        rw [if_neg hempty, if_neg hfin, if_neg hempty]
        rw [ih (itQueue + 1) _ rest
          (by
            simp only []
            rw [List.drop_set_of_lt _ _ (Nat.lt_succ_self _)]
            exact hrest)
          hrestlen]
        simp only []
        rw [List.take_succ, take_set_self, List.getElem?_set_self hlt]
        simp [processedIn]

end Ogre

namespace Ogre

open TextureGpuManager

theorem retryTurns_cons (services : StreamingServices) (fuel position : Nat)
    (queuedImage : QueuedImage) (rest : List (Nat × QueuedImage)) (worker : WorkerState) :
    retryTurns services (fuel + 1) ((position, queuedImage) :: rest) worker =
      (position, { queuedImage := queuedImage, worker := worker }) ::
        retryTurns services fuel
          (if finishedIn services { queuedImage := queuedImage, worker := worker } = true then
            moveLastToFront rest else rest)
          (processQueuedImage services queuedImage worker).2 := rfl

/-- Every waiting image has exactly one turn, and the turn of a position is for
the image that waits under that position. -/
theorem retryTurns_perm (services : StreamingServices) :
    ∀ (fuel : Nat) (waiting : List (Nat × QueuedImage)) (worker : WorkerState),
      waiting.length ≤ fuel →
      ((retryTurns services fuel waiting worker).map
        (fun turn => (turn.1, turn.2.queuedImage))).Perm waiting := by
  intro fuel
  induction fuel with
  | zero =>
    intro waiting worker h
    have hnil : waiting = [] := List.length_eq_zero.1 (Nat.le_zero.1 h)
    rw [hnil]
    exact List.Perm.refl _
  | succ fuel ih =>
    intro waiting worker h
    match waiting, h with
    | [], _ => exact List.Perm.refl _
    | (position, queuedImage) :: rest, h =>
      rw [retryTurns_cons, List.map_cons]
      apply List.Perm.cons
      have hlen : rest.length ≤ fuel := by simpa using h
      split
      · exact (ih _ _ (by rw [moveLastToFront_length]; exact hlen)).trans
          (moveLastToFront_perm rest)
      · exact ih _ _ hlen

end Ogre

namespace Ogre

open TextureGpuManager

end Ogre

namespace Ogre

open TextureGpuManager

end Ogre

namespace Ogre

open TextureGpuManager

end Ogre

namespace Ogre

open TextureGpuManager

/-- After the retry loop `mQueuedImages` holds the images that the turns left
unfinished, in the order of the turns. -/
theorem retryQueuedImages_eq_keptImages (services : StreamingServices) (s : StreamingState) :
    (retryQueuedImages services s.mQueuedImages.length 0 s).mQueuedImages =
      keptImages services ((retryLoopTurns services s).map Prod.snd) := by
  have h := retryQueuedImages_turns services s.mQueuedImages.length 0 s s.mQueuedImages.enum
    (by rw [List.enum_map_snd]; rfl) (List.enum_length)
  rw [h]
  rfl

end Ogre

namespace Ogre

open TextureGpuManager

end Ogre

namespace Ogre

open TextureGpuManager

/-! ## Every image has one turn per call of `_updateStreaming` -/

/-- The load requests of the worker are not touched by `getStreaming`. -/
theorem getStreaming_loadRequests (services : StreamingServices) (worker : WorkerState)
    (box : TextureBox) (pixelFormat : Nat) :
    (getStreaming services worker box pixelFormat).worker.workerData.loadRequests =
      worker.workerData.loadRequests := by
  unfold getStreaming
  simp only []
  cases (getStreamingAvailableLoop services.staging
      { width := box.width, height := box.height, depth := box.depth,
        slices := box.numSlices, pixelFormat := pixelFormat }
      worker.workerData.availableStagingTex 0
      (getStreamingUsedLoop services.staging
        { width := box.width, height := box.height, depth := box.depth,
          slices := box.numSlices, pixelFormat := pixelFormat }
        worker.workerData.usedStagingTex { mappedRegions := worker.mappedRegions })).2 <;>
  · simp only []
    split
    · split <;> rfl
    · rfl

theorem processQueuedImageLoop_loadRequests (services : StreamingServices) :
    ∀ (n i : Nat) (q : QueuedImage) (w : WorkerState),
      (processQueuedImageLoop services n i q w).2.workerData.loadRequests =
        w.workerData.loadRequests := by
  intro n
  induction n with
  | zero => intro i q w; rfl
  | succ n ih =>
    intro i q w
    simp only [processQueuedImageLoop]
    split
    · split
      · rw [ih]
        exact getStreaming_loadRequests _ _ _ _
      · rw [ih]
        exact getStreaming_loadRequests _ _ _ _
    · exact ih _ _ _

theorem retryQueuedImages_loadRequests (services : StreamingServices) :
    ∀ (remaining itQueue : Nat) (s : StreamingState),
      (retryQueuedImages services remaining itQueue s).worker.workerData.loadRequests =
        s.worker.workerData.loadRequests := by
  intro remaining
  induction remaining with
  | zero => intro itQueue s; rfl
  | succ remaining ih =>
    intro itQueue s
    unfold retryQueuedImages
    cases s.mQueuedImages.get? itQueue with
    | none => rfl
    | some queuedImage =>
      simp only []
      split
      · rw [ih]
        exact processQueuedImageLoop_loadRequests _ _ _ _ _
      · rw [ih]
        exact processQueuedImageLoop_loadRequests _ _ _ _ _

theorem push_then_pop_eq (l : List QueuedImage) (processed destroyed : QueuedImage) :
    (if processed.empty then (l ++ [destroyed]).dropLast else l ++ [processed]) =
      l ++ (if processed.empty = true then [] else [processed]) := by
  split <;> simp

/-- The loop over the new load requests appends, in the order of the requests,
the images that their turns leave unfinished. -/
theorem processLoadRequests_turns (services : StreamingServices) :
    ∀ (loadRequests : List LoadRequest) (s : StreamingState),
      (processLoadRequests services loadRequests s).mQueuedImages =
        s.mQueuedImages ++ keptImages services (loadRequestTurns services loadRequests s) := by
  intro loadRequests
  induction loadRequests with
  | nil =>
    intro s
    simp [processLoadRequests, loadRequestTurns, keptImages]
  | cons loadRequest rest ih =>
    intro s
    have hone : (processLoadRequests services [loadRequest] s).mQueuedImages =
        s.mQueuedImages ++
          (if finishedIn services (loadRequestTurn services loadRequest s) = true then []
            else [processedIn services (loadRequestTurn services loadRequest s)]) := by
      exact push_then_pop_eq s.mQueuedImages
        (processedIn services (loadRequestTurn services loadRequest s)) _
    have hsplit : processLoadRequests services (loadRequest :: rest) s =
        processLoadRequests services rest (processLoadRequests services [loadRequest] s) := rfl
    rw [hsplit, ih, hone, loadRequestTurns, keptImages_cons]
    split <;> simp

/-- Every load request has one turn, for the image made from it (line 621). -/
theorem loadRequestTurns_images (services : StreamingServices) :
    ∀ (loadRequests : List LoadRequest) (s : StreamingState),
      (loadRequestTurns services loadRequests s).map (fun turn => turn.queuedImage) =
        loadRequests.map (fun loadRequest =>
          QueuedImage.construct (services.loadImage loadRequest.archive loadRequest.name)
            ((services.loadImage loadRequest.archive loadRequest.name).getNumMipmaps % 256)
            loadRequest.texture) := by
  intro loadRequests
  induction loadRequests with
  | nil => intro s; rfl
  | cons loadRequest rest ih =>
    intro s
    rw [loadRequestTurns, List.map_cons, List.map_cons, ih]
    rfl

end Ogre

namespace Ogre

open TextureGpuManager

theorem keptImages_append (services : StreamingServices) (a b : List QueueTurn) :
    keptImages services (a ++ b) = keptImages services a ++ keptImages services b := by
  unfold keptImages
  rw [List.filter_append, List.map_append]

theorem keptImages_not_empty (services : StreamingServices) (turns : List QueueTurn) :
    ∀ q ∈ keptImages services turns, q.empty = false := by
  intro q hq
  unfold keptImages at hq
  obtain ⟨turn, hturn, hprocessed⟩ := List.mem_map.1 hq
  have hkept := (List.mem_filter.1 hturn).2
  rw [← hprocessed]
  simpa [finishedIn] using hkept

/-- After `_updateStreaming` the list holds the images that the turns of the call
left unfinished, in the order of the turns. -/
theorem updateStreaming_eq_keptImages (services : StreamingServices) (s : StreamingState) :
    (_updateStreaming services s).mQueuedImages =
      keptImages services (updateStreamingTurns services s) := by
  have hfinal : (_updateStreaming services s).mQueuedImages =
      (processLoadRequests services
        (retryQueuedImages services s.mQueuedImages.length 0
          (_updateStreaming_takeLoadRequests s)).worker.workerData.loadRequests
        (retryQueuedImages services s.mQueuedImages.length 0
          (_updateStreaming_takeLoadRequests s))).mQueuedImages := rfl
  have hretry := retryQueuedImages_eq_keptImages services (_updateStreaming_takeLoadRequests s)
  have hlen : (_updateStreaming_takeLoadRequests s).mQueuedImages.length =
      s.mQueuedImages.length := rfl
  rw [hlen] at hretry
  rw [hfinal, retryQueuedImages_loadRequests, processLoadRequests_turns, hretry]
  unfold updateStreamingTurns
  rw [keptImages_append]

/-- C24: what `_updateStreaming` does to `mQueuedImages`, for every start state.
Every image that is in the list at the start has exactly one turn in the retry
loop (one call of `processQueuedImage`), and every load request the worker
holds after taking over those of the main thread has exactly one turn, for the
image made from it. After the call the list holds exactly the images that
their turn left not `empty()`, as `processQueuedImage` left them, in the order
of the turns; so an image is removed in the same call exactly if its turn left
it `empty()`, and no image that remains is `empty()`. A turn changes an image
as `processQueuedImage` does: the destination stays, no level becomes queued,
and a queued level of the scanned range is cleared exactly if `getStreaming`
gave a region for it. -/
theorem updateStreaming_gives_every_image_one_turn (services : StreamingServices)
    (s : StreamingState) :
    ((retryLoopTurns services (_updateStreaming_takeLoadRequests s)).map
      (fun turn => (turn.1, turn.2.queuedImage))).Perm s.mQueuedImages.enum ∧
    (_updateStreaming_takeLoadRequests s).worker.workerData.loadRequests =
      (if s.worker.workerData.loadRequests.isEmpty then s.mainData.loadRequests
        else s.worker.workerData.loadRequests ++ s.mainData.loadRequests) ∧
    (loadRequestTurns services (_updateStreaming_takeLoadRequests s).worker.workerData.loadRequests
        (retryQueuedImages services s.mQueuedImages.length 0
          (_updateStreaming_takeLoadRequests s))).map (fun turn => turn.queuedImage) =
      (_updateStreaming_takeLoadRequests s).worker.workerData.loadRequests.map
        (fun loadRequest =>
          QueuedImage.construct (services.loadImage loadRequest.archive loadRequest.name)
            ((services.loadImage loadRequest.archive loadRequest.name).getNumMipmaps % 256)
            loadRequest.texture) ∧
    (_updateStreaming services s).mQueuedImages =
      ((updateStreamingTurns services s).filter
        (fun turn => !(processQueuedImage services turn.queuedImage turn.worker).1.empty)).map
        (fun turn => (processQueuedImage services turn.queuedImage turn.worker).1) ∧
    (∀ q ∈ (_updateStreaming services s).mQueuedImages, q.empty = false) ∧
    (∀ turn ∈ updateStreamingTurns services s,
      (processQueuedImage services turn.queuedImage turn.worker).1.dstTexture =
        turn.queuedImage.dstTexture ∧
      (∀ l, (processQueuedImage services turn.queuedImage turn.worker).1.isMipQueued l = true →
        turn.queuedImage.isMipQueued l = true) ∧
      (∀ l, turn.queuedImage.getMinMipLevel ≤ l → l < turn.queuedImage.getMaxMipLevelPlusOne →
        turn.queuedImage.isMipQueued l = true →
        ((processQueuedImage services turn.queuedImage turn.worker).1.isMipQueued l = false ↔
          streamingGaveRegion services turn.queuedImage turn.worker l = true))) := by
  refine ⟨?_, rfl, loadRequestTurns_images services _ _, ?_, ?_, ?_⟩
  · exact retryTurns_perm services s.mQueuedImages.length s.mQueuedImages.enum _
      (by rw [List.enum_length])
  · exact updateStreaming_eq_keptImages services s
  · rw [updateStreaming_eq_keptImages]
    exact keptImages_not_empty services _
  · intro turn _
    obtain ⟨_, hdst, _, hin, hmono, _, _⟩ :=
      processQueuedImageLoop_spec services turn.queuedImage.getMinMipLevel turn.queuedImage
        turn.worker (turn.queuedImage.getMaxMipLevelPlusOne - turn.queuedImage.getMinMipLevel)
    exact ⟨hdst, hmono, fun l h1 h2 h3 => hin l h1 (by omega) h3⟩

end Ogre
